import Mathlib

/-!
ggt: benchmark runs, the name-sorted run slice, the result-line parser,
the package resolver, the sandbox and the log filter.

A shallow embedding of `benchmark.go`, `package.go`, `sandbox.go`, `snapshot.go`,
`cache.go`, `flags.go` and `log.go`, followed by the theorems about it.

Conventions of the embedding

* A Go `string` is a `List Char` (`GoString`); comparison of strings is the
  lexicographic order of the characters, which for well-formed UTF-8 text is
  the byte order Go uses.
* A Go call that may panic returns `Exec α`: `done a`, `panicked`, or
  `diverged` for a loop that does not end.
* `float32` and `float64` are IEEE-754 bit patterns (sign, biased exponent,
  fraction); arithmetic rounds to nearest, ties to even.
* A method with a pointer receiver takes the receiver's value and returns the
  value after the call; the objects that are shared through pointers live in
  a `Heap`.
* What the program takes from outside (the tools it runs, the file system,
  the flag package) is a parameter of the functions that use it.
* The lines of a harness run are handed to the line function one after the
  other by a goroutine that is not waited for; how many of them have been
  handled when the run returns is a parameter.
-/

namespace Ggt

/-! ## Definitions -/

/-- Go strings, as sequences of characters. -/
abbrev GoString := List Char

/-- Outcome of a Go call: it returns a value, it panics, or it does not
return (a loop that has not ended when the fuel of the model is spent). -/
inductive Exec (α : Type) where
  | done (a : α)
  | panicked
  | diverged
deriving DecidableEq, Repr

deriving instance DecidableEq for Except

/-- Sequencing of calls: when the first call panics or does not return, so
does the whole. -/
def Exec.bind {α β : Type} (x : Exec α) (k : α → Exec β) : Exec β :=
  match x with
  | .done a => k a
  | .panicked => .panicked
  | .diverged => .diverged

/-- The returned value, when the call returns. -/
def Exec.toOption {α : Type} : Exec α → Option α
  | .done a => some a
  | _ => none

/-- An IEEE-754 binary value with `eb` exponent bits and `fb` fraction bits. -/
structure IEEE (eb fb : Nat) where
  sign : Bool
  expo : Fin (2 ^ eb)
  frac : Fin (2 ^ fb)
deriving DecidableEq, Repr

/-- Go `float32`. -/
abbrev float32 := IEEE 8 23

/-- Go `float64`. -/
abbrev float64 := IEEE 11 52

/-! ### IEEE-754 arithmetic -/

namespace IEEE

/-- Build a value from a sign and the two fields, reduced to their widths. -/
def ofFields (eb fb : Nat) (sign : Bool) (e f : Nat) : IEEE eb fb :=
  ⟨sign, ⟨e % 2 ^ eb, Nat.mod_lt _ (Nat.pos_pow_of_pos eb (by decide))⟩,
         ⟨f % 2 ^ fb, Nat.mod_lt _ (Nat.pos_pow_of_pos fb (by decide))⟩⟩

/-- Signed zero. -/
def zero (eb fb : Nat) (sign : Bool) : IEEE eb fb := ofFields eb fb sign 0 0

/-- Signed infinity: all exponent bits set, fraction zero. -/
def inf (eb fb : Nat) (sign : Bool) : IEEE eb fb := ofFields eb fb sign (2 ^ eb - 1) 0

/-- The quiet NaN: all exponent bits set, top fraction bit set. -/
def nan (eb fb : Nat) : IEEE eb fb := ofFields eb fb false (2 ^ eb - 1) (2 ^ (fb - 1))

/-- Exponent bias. -/
def bias (eb : Nat) : Nat := 2 ^ (eb - 1) - 1

variable {eb fb : Nat}

/-- Not a number: all exponent bits set, fraction non-zero. -/
def isNaN (x : IEEE eb fb) : Bool := x.expo.val == 2 ^ eb - 1 && x.frac.val != 0

/-- An infinity. -/
def isInf (x : IEEE eb fb) : Bool := x.expo.val == 2 ^ eb - 1 && x.frac.val == 0

/-- A zero of either sign. -/
def isZero (x : IEEE eb fb) : Bool := x.expo.val == 0 && x.frac.val == 0

/-- Integer significand of a finite value: the value is `± mant · 2 ^ exp2`. -/
def mant (x : IEEE eb fb) : Nat :=
  if x.expo.val = 0 then x.frac.val else 2 ^ fb + x.frac.val

/-- Binary exponent of the unit in the last place of a finite value. -/
def exp2 (x : IEEE eb fb) : Int :=
  (Nat.max x.expo.val 1 : Int) - ((bias eb + fb : Nat) : Int)

/-- Floor of the binary logarithm (0 for 0); `fuel ≥ log2 n` suffices. -/
def log2Floor : Nat → Nat → Nat
  | 0, _ => 0
  | fuel + 1, n => if n < 2 then 0 else log2Floor fuel (n / 2) + 1

/-- Round the exact positive quotient `n / d` to the nearest representable
value, ties to even; zero for `n = 0`, infinity on overflow. -/
def roundRatio (eb fb : Nat) (sign : Bool) (n d : Nat) : IEEE eb fb :=
  if n = 0 then zero eb fb sign
  else
    let l : Int := (log2Floor n n : Int) - (log2Floor d d : Int)
    -- floor of log2 (n / d) is l or l - 1
    let ge : Bool := if 0 ≤ l then d * 2 ^ l.toNat ≤ n else d ≤ n * 2 ^ (-l).toNat
    let e : Int := if ge then l else l - 1
    let emin : Int := 1 - (bias eb : Int)
    let ec : Int := if e < emin then emin else e
    let q : Int := ec - (fb : Int)
    let num : Nat := if 0 ≤ q then n else n * 2 ^ (-q).toNat
    let den : Nat := if 0 ≤ q then d * 2 ^ q.toNat else d
    let m0 : Nat := num / den
    let r : Nat := num % den
    let m1 : Nat := if den < 2 * r ∨ (2 * r = den ∧ m0 % 2 = 1) then m0 + 1 else m0
    let m : Nat := if m1 = 2 ^ (fb + 1) then 2 ^ fb else m1
    let ec1 : Int := if m1 = 2 ^ (fb + 1) then ec + 1 else ec
    if m < 2 ^ fb then ofFields eb fb sign 0 m
    else
      let biased : Int := ec1 + (bias eb : Int)
      if (2 ^ eb - 1 : Nat) ≤ biased then inf eb fb sign
      else ofFields eb fb sign biased.toNat (m - 2 ^ fb)

/-- Round `n · 2 ^ e`. -/
def roundScaled (eb fb : Nat) (sign : Bool) (n : Nat) (e : Int) : IEEE eb fb :=
  if 0 ≤ e then roundRatio eb fb sign (n * 2 ^ e.toNat) 1
  else roundRatio eb fb sign n (2 ^ (-e).toNat)

/-- Conversion of an untyped non-negative integer constant. -/
def ofNat (eb fb : Nat) (n : Nat) : IEEE eb fb := roundRatio eb fb false n 1

/-- The signed integer `± mant · 2 ^ (exp2 - e)` of a finite value, for `e ≤ exp2`. -/
def scaledInt (x : IEEE eb fb) (e : Int) : Int :=
  let a : Int := ((mant x * 2 ^ (exp2 x - e).toNat : Nat) : Int)
  if x.sign then -a else a

/-- Negation: the sign bit flipped. -/
def neg (x : IEEE eb fb) : IEEE eb fb := { x with sign := !x.sign }

/-- Addition, rounded to nearest even. -/
def add (x y : IEEE eb fb) : IEEE eb fb :=
  if isNaN x || isNaN y then nan eb fb
  else if isInf x then (if isInf y && (x.sign != y.sign) then nan eb fb else x)
  else if isInf y then y
  else
    let e : Int := min (exp2 x) (exp2 y)
    let s : Int := scaledInt x e + scaledInt y e
    if s = 0 then zero eb fb (x.sign && y.sign)
    else roundScaled eb fb (decide (s < 0)) s.natAbs e

/-- Subtraction `x - y`. -/
def sub (x y : IEEE eb fb) : IEEE eb fb := add x (neg y)

/-- Multiplication, rounded to nearest even. -/
def mul (x y : IEEE eb fb) : IEEE eb fb :=
  if isNaN x || isNaN y then nan eb fb
  else if isInf x || isInf y then
    (if isZero x || isZero y then nan eb fb else inf eb fb (x.sign != y.sign))
  else roundScaled eb fb (x.sign != y.sign) (mant x * mant y) (exp2 x + exp2 y)

/-- Division, rounded to nearest even. -/
def div (x y : IEEE eb fb) : IEEE eb fb :=
  if isNaN x || isNaN y then nan eb fb
  else if isInf x then (if isInf y then nan eb fb else inf eb fb (x.sign != y.sign))
  else if isInf y then zero eb fb (x.sign != y.sign)
  else if isZero y then (if isZero x then nan eb fb else inf eb fb (x.sign != y.sign))
  else
    let e : Int := exp2 x - exp2 y
    if 0 ≤ e then roundRatio eb fb (x.sign != y.sign) (mant x * 2 ^ e.toNat) (mant y)
    else roundRatio eb fb (x.sign != y.sign) (mant x) (mant y * 2 ^ (-e).toNat)

/-- The comparison `x == y` of Go: NaN equals nothing, the two zeros are equal. -/
def eq (x y : IEEE eb fb) : Bool :=
  !isNaN x && !isNaN y && (decide (x = y) || (isZero x && isZero y))

/-- The comparison `x < y` of Go: false when either side is NaN. -/
def lt (x y : IEEE eb fb) : Bool :=
  if isNaN x || isNaN y then false
  else if isInf x then (x.sign && !(isInf y && y.sign))
  else if isInf y then !y.sign
  else
    let e : Int := min (exp2 x) (exp2 y)
    decide (scaledInt x e < scaledInt y e)

/-- Conversion between formats (exact when widening), as in `float64(x)`. -/
def convert (eb2 fb2 : Nat) (x : IEEE eb fb) : IEEE eb2 fb2 :=
  if isNaN x then nan eb2 fb2
  else if isInf x then inf eb2 fb2 x.sign
  else roundScaled eb2 fb2 x.sign (mant x) (exp2 x)

end IEEE

/-! ### benchmark.go -/

/-- The record `benchmarkRun` of benchmark.go. -/
structure benchmarkRun where
  Line : GoString
  Name : GoString
  N : Int
  NsPerOp : float32
  NsPerOpChange : float32
deriving DecidableEq, Repr

/-- The type `benchmarkRunSlice`: a slice of runs, kept sorted by name. -/
abbrev benchmarkRunSlice := List benchmarkRun

/-- The loop of `sort.Search` (Go standard library):
`i, j := 0, n; for i < j { h := int(uint(i+j) >> 1); if !f(h) { i = h + 1 } else { j = h } }; return i`.
The probe `f` may panic (index out of range). `fuel` bounds the number of
iterations; `j - i` iterations always suffice. -/
def searchLoop (f : Nat → Exec Bool) : Nat → Nat → Nat → Exec Nat
  | 0, i, _ => .done i
  | fuel + 1, i, j =>
    if i < j then
      let h := (i + j) / 2
      match f h with
      | .panicked => .panicked
      | .diverged => .diverged
      | .done false => searchLoop f fuel (h + 1) j
      | .done true => searchLoop f fuel i h
    else .done i

/-- Go `sort.Search(n, f)`. -/
def sortSearch (n : Nat) (f : Nat → Exec Bool) : Exec Nat :=
  searchLoop f n 0 n

/-- The closure `func(i int) bool { return s[i].Name >= name }` of `Search`;
indexing outside the slice panics. -/
def searchProbe (s : benchmarkRunSlice) (name : GoString) (i : Nat) : Exec Bool :=
  match s[i]? with
  | some r => .done (decide (name ≤ r.Name))
  | none => .panicked

/-- The method `benchmarkRunSlice.Search`. -/
def Search (s : benchmarkRunSlice) (name : GoString) : Exec Nat :=
  sortSearch s.length (searchProbe s name)

/-- The method `benchmarkRunSlice.Find`: the run at the searched index when it
carries the name, else `nil` (`none`). -/
def Find (s : benchmarkRunSlice) (name : GoString) : Exec (Option benchmarkRun) :=
  (Search s name).bind fun i =>
    match s[i]? with
    | some r => if r.Name = name then .done (some r) else .done none
    | none => .done none

/-- The error text of `Add`:
`fmt.Errorf("Benchmark %s with this name is already present", benchmark.Name)`. -/
def addErrorText (name : GoString) : GoString :=
  "Benchmark ".toList ++ name ++ " with this name is already present".toList

/-- The method `benchmarkRunSlice.Add`: the slice after the call and the
returned error (`none` is `nil`). On the error path the slice is not assigned. -/
def Add (s : benchmarkRunSlice) (benchmark : benchmarkRun) :
    Exec (benchmarkRunSlice × Option GoString) :=
  (Search s benchmark.Name).bind fun i =>
    match s[i]? with
    | some r =>
      if r.Name = benchmark.Name then .done (s, some (addErrorText benchmark.Name))
      else .done (s.take i ++ ([benchmark] ++ s.drop i), none)
    | none => .done (s.take i ++ ([benchmark] ++ s.drop i), none)

/-- Adding runs one by one, as the callers of `Add` do: the first error or
panic stops the sequence. -/
def addAll : benchmarkRunSlice → List benchmarkRun → Exec (benchmarkRunSlice × Option GoString)
  | s, [] => .done (s, none)
  | s, b :: bs =>
    match Add s b with
    | .done (s1, none) => addAll s1 bs
    | .done (s1, some e) => .done (s1, some e)
    | .panicked => .panicked
    | .diverged => .diverged

/-- Names of a slice, in slice order. -/
def names (s : benchmarkRunSlice) : List GoString := s.map (·.Name)

/-- Strictly increasing names: the invariant of a `benchmarkRunSlice`. -/
def StrictSorted (s : benchmarkRunSlice) : Prop := (names s).Pairwise (· < ·)

/-- Names in non-decreasing order. -/
def NameSorted (s : benchmarkRunSlice) : Prop := (names s).Pairwise (· ≤ ·)

instance (s : benchmarkRunSlice) : Decidable (StrictSorted s) := by
  unfold StrictSorted; infer_instance

instance (s : benchmarkRunSlice) : Decidable (NameSorted s) := by
  unfold NameSorted; infer_instance

/-- A run as the parser leaves it, with the given name and zero timings. -/
def sampleRun (line name : String) (n : Int) : benchmarkRun :=
  { Line := line.toList, Name := name.toList, N := n,
    NsPerOp := IEEE.zero 8 23 false, NsPerOpChange := IEEE.zero 8 23 false }

/-! ### The result-line parser -/

/-- The fragment of Go regular expressions that `benchmarkRunLineRegex` uses. -/
inductive Rx where
  | cls (p : Char → Bool)      -- one character of a class
  | star (p : Char → Bool)     -- greedy `x*` over a class
  | seq (a b : Rx)
  | opt (a : Rx)               -- greedy `x?`
  | cap (k : Nat) (a : Rx)     -- capture group number `k`
  | eot                        -- `$` (end of text)
  | eps                        -- the empty expression

/-- Captured groups, latest first. -/
abbrev Caps := List (Nat × GoString)

/-- Remainders after a greedy `x*`: longest match first. -/
def starRests (p : Char → Bool) : GoString → List GoString
  | [] => [[]]
  | c :: cs => if p c then starRests p cs ++ [c :: cs] else [c :: cs]

/-- All ways to match a prefix of the text, in the order a backtracking
search tries them (the order that defines Go's leftmost-first match): each
result is the captures and the remaining text. -/
def Rx.run : Rx → Caps → GoString → List (Caps × GoString)
  | .cls p, caps, s =>
    match s with
    | [] => []
    | c :: cs => if p c then [(caps, cs)] else []
  | .star p, caps, s => (starRests p s).map fun rest => (caps, rest)
  | .seq a b, caps, s => (a.run caps s).flatMap fun r => b.run r.1 r.2
  | .opt a, caps, s => a.run caps s ++ [(caps, s)]
  | .cap k a, caps, s =>
    (a.run caps s).map fun r => ((k, s.take (s.length - r.2.length)) :: r.1, r.2)
  | .eot, caps, s => if s = [] then [(caps, s)] else []
  | .eps, caps, s => [(caps, s)]

/-- Sequence of several expressions. -/
def Rx.seqs : List Rx → Rx
  | [] => .eps
  | [a] => a
  | a :: as => .seq a (Rx.seqs as)

/-- One or more of a class, greedy: `x+`. -/
def Rx.plus (p : Char → Bool) : Rx := .seq (.cls p) (.star p)

/-- A literal string. -/
def Rx.lit (s : String) : Rx := Rx.seqs (s.toList.map fun c => Rx.cls (fun x => x == c))

/-- The class `\s` of Go regular expressions: `[\t\n\f\r ]`. -/
def isSpaceRx (c : Char) : Bool :=
  c == '\t' || c == '\n' || c == Char.ofNat 12 || c == '\r' || c == ' '

/-- The class `\d`: `[0-9]`. -/
def isDigitRx (c : Char) : Bool := '0' ≤ c && c ≤ '9'

/-- The class `[^\- ]`. -/
def isNameChar (c : Char) : Bool := !(c == '-' || c == ' ')

/-- The text of group `k` of a match, `""` when the group did not take part. -/
def group (caps : Caps) (k : Nat) : GoString :=
  match caps.find? (fun e => e.1 == k) with
  | some e => e.2
  | none => []

/-- The expression
`^\s*(Benchmark[^\- ]*)(-\d+)?\s+(\d+)\s+(\d*(\.\d+)?) ns/op\s*$`. -/
def benchmarkRunLineRegex : Rx :=
  Rx.seqs [
    .star isSpaceRx,
    .cap 1 (.seq (Rx.lit "Benchmark") (.star isNameChar)),
    .opt (.cap 2 (.seq (Rx.lit "-") (Rx.plus isDigitRx))),
    Rx.plus isSpaceRx,
    .cap 3 (Rx.plus isDigitRx),
    Rx.plus isSpaceRx,
    .cap 4 (.seq (.star isDigitRx) (.opt (.cap 5 (.seq (Rx.lit ".") (Rx.plus isDigitRx))))),
    Rx.lit " ns/op",
    .star isSpaceRx,
    .eot]

/-- Go `FindStringSubmatch` for an expression anchored with `^`: the captures
of the first match in backtracking order, `none` (a nil slice) without match. -/
def FindStringSubmatch (re : Rx) (s : GoString) : Option Caps :=
  match re.run [] s with
  | [] => none
  | r :: _ => some r.1

/-- Value of a string of decimal digits. -/
def digitsValue (s : GoString) : Nat :=
  s.foldl (fun acc c => 10 * acc + (c.toNat - '0'.toNat)) 0

/-- Go `strconv.Atoi` with a 64-bit `int`: an optional sign and at least one
decimal digit; `none` is a syntax or range error. -/
def Atoi (s : GoString) : Option Int :=
  let body : GoString := match s with
    | '-' :: r => r
    | '+' :: r => r
    | r => r
  let negative : Bool := match s with
    | '-' :: _ => true
    | _ => false
  if body.isEmpty || !body.all isDigitRx then none
  else
    let v : Int := if negative then -(digitsValue body : Int) else (digitsValue body : Int)
    if -(2 : Int) ^ 63 ≤ v ∧ v < (2 : Int) ^ 63 then some v else none

/-- Go `strconv.ParseFloat(s, 32)` on plain decimal numerals `ddd`, `ddd.ddd`,
`.ddd`, `ddd.` (all that group 4 of the expression can hold): the nearest
`float32`, ties to even; `none` is a syntax error (no digit at all) or a range
error (the rounded value is infinite). -/
def ParseFloat32 (s : GoString) : Option float32 :=
  let ip := s.takeWhile isDigitRx
  let rest := s.dropWhile isDigitRx
  let fp : Option GoString := match rest with
    | [] => some []
    | '.' :: f => if f.all isDigitRx then some f else none
    | _ => none
  match fp with
  | none => none
  | some f =>
    if ip.isEmpty && f.isEmpty then none
    else
      let x : float32 := IEEE.roundRatio 8 23 false (digitsValue (ip ++ f)) (10 ^ f.length)
      if IEEE.isInf x then none else some x

/-- The function `parseBenchmarkRun`: `done none` is the `nil` result. -/
def parseBenchmarkRun (line : GoString) : Exec (Option benchmarkRun) :=
  match FindStringSubmatch benchmarkRunLineRegex line with
  | none => .done none
  | some groups =>
    match Atoi (group groups 3) with
    | none => .panicked
    | some n =>
      match ParseFloat32 (group groups 4) with
      | none => .panicked
      | some nsop =>
        .done (some { Line := line, Name := group groups 1, N := n, NsPerOp := nsop,
                      NsPerOpChange := IEEE.zero 8 23 false })

/-- The method `benchmarkRun.Annotate`: the receiver after the call and the
returned flag. The constant `100` is the `float32` hundred. -/
def Annotate (r prev : benchmarkRun) : benchmarkRun × Bool :=
  if IEEE.eq r.NsPerOp prev.NsPerOp then
    ({ r with NsPerOpChange := IEEE.zero 8 23 false }, true)
  else
    let change : float32 :=
      IEEE.div (IEEE.mul (IEEE.ofNat 8 23 100) (IEEE.sub r.NsPerOp prev.NsPerOp)) prev.NsPerOp
    ({ r with NsPerOpChange := change }, true)

/-- What `benchmarkRun.String` takes from outside benchmark.go: the rendering
`fmt.Sprintf("%+f%%", x)`, the two colour functions of the `color` package and
the global flag `colored`. -/
structure Printing where
  fmtDelta : float32 → GoString
  red : GoString → GoString
  green : GoString → GoString
  colored : Bool

/-- The method `benchmarkRun.String`. -/
def benchmarkRun.String (pr : Printing) (r : benchmarkRun) : GoString :=
  if !IEEE.eq r.NsPerOpChange (IEEE.zero 8 23 false) then
    let deltaStr := pr.fmtDelta r.NsPerOpChange
    let deltaStr :=
      if pr.colored then
        (if IEEE.lt (IEEE.zero 8 23 false) r.NsPerOpChange then pr.red deltaStr
         else pr.green deltaStr)
      else deltaStr
    r.Line ++ ("\t".toList ++ deltaStr)
  else r.Line

/-- A plain rendering used in examples: no colours, the delta shown as `Δ`. -/
def plainPrinting : Printing :=
  { fmtDelta := fun _ => "Δ%".toList, red := id, green := id, colored := false }

/-! ### Go standard library: strings and path/filepath (Unix) -/

/-- Go `strings.Split(s, sep)` for a one-character separator. -/
def splitOn (sep : Char) : GoString → List GoString
  | [] => [[]]
  | c :: cs =>
    if c = sep then [] :: splitOn sep cs
    else
      match splitOn sep cs with
      | [] => [[c]]
      | x :: xs => (c :: x) :: xs

/-- Go `strings.SplitN(s, sep, 2)` for a one-character separator: a cut at the
first separator, the whole string when there is none. -/
def splitN2 (sep : Char) (s : GoString) : List GoString :=
  match s.dropWhile (fun c => c != sep) with
  | [] => [s]
  | _ :: rest => [s.takeWhile (fun c => c != sep), rest]

/-- Go `strings.TrimSuffix(s, "\n")`. -/
def trimSuffixNewline (s : GoString) : GoString :=
  if s.getLast? = some '\n' then s.dropLast else s

/-- Go `strings.HasPrefix`. -/
def HasPrefix (s pre : GoString) : Bool := pre.isPrefixOf s

/-- Go `unicode.IsSpace`. -/
def unicodeIsSpace (c : Char) : Bool :=
  let n := c.toNat
  (9 ≤ n && n ≤ 13) || n == 32 || n == 0x85 || n == 0xA0 || n == 0x1680 ||
  (0x2000 ≤ n && n ≤ 0x200A) || n == 0x2028 || n == 0x2029 || n == 0x202F ||
  n == 0x205F || n == 0x3000

/-- Go `strings.TrimSpace`. -/
def TrimSpace (s : GoString) : GoString :=
  ((s.dropWhile unicodeIsSpace).reverse.dropWhile unicodeIsSpace).reverse

/-- Join path elements with `/`. -/
def joinSlash : List GoString → GoString
  | [] => []
  | [a] => a
  | a :: as => a ++ ('/' :: joinSlash as)

/-- The non-empty elements of a path between its slashes. -/
def components (p : GoString) : List GoString :=
  (splitOn '/' p).filter (fun c => !c.isEmpty)

/-- Whether a path starts with a slash. -/
def isRooted (p : GoString) : Bool := p.head? == some '/'

/-- The element rules of `filepath.Clean`: drop `.`, let `..` cancel the
element before it, drop `..` at the start of a rooted path. `acc` is the
reversed output. -/
def cleanComps (rooted : Bool) : List GoString → List GoString → List GoString
  | acc, [] => acc.reverse
  | acc, c :: cs =>
    if c = ".".toList then cleanComps rooted acc cs
    else if c = "..".toList then
      match acc with
      | top :: rest =>
        if top = "..".toList then cleanComps rooted (c :: acc) cs
        else cleanComps rooted rest cs
      | [] => if rooted then cleanComps rooted [] cs else cleanComps rooted [c] cs
    else cleanComps rooted (c :: acc) cs

/-- Go `filepath.Clean`. -/
def Clean (p : GoString) : GoString :=
  let body := joinSlash (cleanComps (isRooted p) [] (components p))
  if isRooted p then '/' :: body
  else if body.isEmpty then ".".toList else body

/-- Go `filepath.Join`: empty elements are ignored, the result is cleaned; the
empty string when every element is empty. -/
def Join (elems : List GoString) : GoString :=
  match elems.filter (fun e => !e.isEmpty) with
  | [] => []
  | es => Clean (joinSlash es)

/-- Go `filepath.Dir`: the path up to and including its last slash, cleaned. -/
def Dir (p : GoString) : GoString :=
  Clean (p.reverse.dropWhile (fun c => c != '/')).reverse

/-- Go `filepath.Base`. -/
def Base (p : GoString) : GoString :=
  if p.isEmpty then ".".toList
  else
    let stripped := (p.reverse.dropWhile (fun c => c == '/'))
    let last := (stripped.takeWhile (fun c => c != '/')).reverse
    if last.isEmpty then "/".toList else last

/-- Drop the common leading elements of two element lists. -/
def stripCommon : List GoString → List GoString → List GoString × List GoString
  | b :: bs, t :: ts => if b = t then stripCommon bs ts else (b :: bs, t :: ts)
  | bs, ts => (bs, ts)

/-- Go `filepath.Rel(basepath, targpath)`; `none` is the error return. A
cleaned path `.` on either side stands for no element at all. -/
def Rel (basepath targpath : GoString) : Option GoString :=
  let base := Clean basepath
  let targ := Clean targpath
  if targ = base then some ".".toList
  else
    let base := if base = ".".toList then [] else base
    let targ := if targ = ".".toList then [] else targ
    if isRooted base != isRooted targ then none
    else
      match stripCommon (components base) (components targ) with
      | (b, t) =>
        if b.head? = some "..".toList then none
        else some (joinSlash (b.map (fun _ => "..".toList) ++ t))

/-! ### package.go -/

/-- The struct `repo`. -/
structure repo where
  root : GoString
  gitDir : GoString
deriving DecidableEq, Repr

/-- The struct `packageSet` (the embedded `repo` as a field). -/
structure packageSet where
  repo : repo
  rootPackageImportPath : GoString
  relPackagePaths : List GoString
  packagesStrings : List GoString
deriving DecidableEq, Repr

/-- The struct `goListEntry`. -/
structure goListEntry where
  dir : GoString
  importPath : GoString
deriving DecidableEq, Repr

/-- The errors that `resolvePackages` and `openPackageSet` return. -/
inductive PackageError where
  | cannotResolve (packages : List GoString) (err : GoString)
  | packagesNotFound
  | notUnderGopath (dir : GoString)
  | notInGit (dir : GoString) (err : GoString)
  | relFailed
  | spanMultipleRepositories
deriving DecidableEq, Repr

/-- The tools that package.go runs: `go list -f {{.Dir}}:{{.ImportPath}}` on
the selectors and `git -C dir rev-parse --git-dir`, each giving its standard
output and its error (`none` is `nil`). -/
structure Tools where
  goList : List GoString → GoString × Option GoString
  gitRevParseGitDir : GoString → GoString × Option GoString

/-- The loop over the lines of `go list` in `resolvePackages`: a line without
`:` panics (`log.Panicf`). -/
def parseGoListLines : List GoString → Exec (List goListEntry)
  | [] => .done []
  | line :: rest =>
    match splitN2 ':' (trimSuffixNewline line) with
    | [d, ip] => (parseGoListLines rest).bind fun es => .done (⟨d, ip⟩ :: es)
    | _ => .panicked

/-- The function `resolvePackages`: the lines are parsed first, the error of
the tool is looked at after the loop. -/
def resolvePackages (tools : Tools) (packages : List GoString) :
    Exec (Except PackageError (List goListEntry)) :=
  let out := TrimSpace (tools.goList packages).1
  let err := (tools.goList packages).2
  (parseGoListLines (splitOn '\n' out)).bind fun result =>
    match err with
    | some e => .done (.error (.cannotResolve packages e))
    | none => .done (.ok result)

/-- The loop `for relPath != "." { root = Dir(root); relPath = Dir(relPath) }`. -/
def walkUp : Nat → GoString → GoString → Exec GoString
  | 0, importPath, relPath => if relPath = ".".toList then .done importPath else .diverged
  | fuel + 1, importPath, relPath =>
    if relPath = ".".toList then .done importPath
    else walkUp fuel (Dir importPath) (Dir relPath)

/-- The second loop of `openPackageSet`, over the entries not yet handled;
`set` is the set built so far, its `relPackagePaths` filled up to the entry at
hand. The fuel of the inner loop is the length of the path plus one: `Dir`
shortens a path that is not `.` and not rooted. -/
def openLoop (tools : Tools) : List goListEntry → packageSet → Exec (Except PackageError packageSet)
  | [], set => .done (.ok set)
  | e :: es, set =>
    match tools.gitRevParseGitDir e.dir with
    | (_, some err) => .done (.error (.notInGit e.dir err))
    | (out, none) =>
      let gitDir := Join [e.dir, TrimSpace out]
      let repoRoot := Dir gitDir
      match Rel repoRoot e.dir with
      | none => .done (.error .relFailed)
      | some relPath =>
        let set1 := { set with relPackagePaths := set.relPackagePaths ++ [relPath] }
        if set1.repo.root.isEmpty then
          if relPath != ".".toList && !HasPrefix relPath "./".toList then .panicked
          else
            (walkUp (relPath.length + 1) e.importPath relPath).bind fun rootImport =>
              openLoop tools es
                { set1 with repo := ⟨repoRoot, Base gitDir⟩, rootPackageImportPath := rootImport }
        else if set1.repo.root != repoRoot then .done (.error .spanMultipleRepositories)
        else openLoop tools es set1

/-- The function `openPackageSet`. -/
def openPackageSet (tools : Tools) (packages : List GoString) :
    Exec (Except PackageError packageSet) :=
  (resolvePackages tools packages).bind fun r =>
    match r with
    | .error e => .done (.error e)
    | .ok entries =>
      if entries.isEmpty then .done (.error .packagesNotFound)
      else
        match entries.find? (fun e => e.importPath == '_' :: e.dir) with
        | some e => .done (.error (.notUnderGopath e.dir))
        | none =>
          openLoop tools entries
            { repo := ⟨[], []⟩, rootPackageImportPath := [], relPackagePaths := [],
              packagesStrings := packages }

/-! ### cache.go, snapshot.go, sandbox.go -/

/-- The struct `packageSnapshotCache`; `AllBenchmarkNames` is `none` when the
slice is nil (unknown). -/
structure packageSnapshotCache where
  Benchmarks : benchmarkRunSlice
  BenchmarksIsComplete : Bool
  AllBenchmarkNames : Option (List GoString)
deriving DecidableEq, Repr

/-- A pointer to a `packageSetSnapshot`: to a heap cell of its own (the
variable `snapshot` of `newPackageSetSnapshot`, which escapes), or to the
field embedded in the sandbox at an address. -/
inductive SnapRef where
  | cell (a : Nat)
  | embedded (sb : Nat)
deriving DecidableEq, Repr

/-- The struct `packageSnapshot`; `Cache` is `none` while the pointer is nil. -/
structure packageSnapshot where
  relPackagePath : GoString
  PackageSet : SnapRef
  Cache : Option packageSnapshotCache
deriving DecidableEq, Repr

/-- The struct `packageSetSnapshot`. `Packages` is a slice: the address of its
backing array, which copies of the struct share. `InitGoPath` is `none` for a
nil func and `some sb` for the closure that `newSandbox` builds around the
sandbox at address `sb`. -/
structure packageSetSnapshot where
  packageSet : packageSet
  Packages : Nat
  TreeId : GoString
  InitGoPath : Option Nat
  GoPath : GoString
deriving DecidableEq, Repr

/-- The struct `sandbox`, with its embedded `packageSetSnapshot` value. -/
structure sandbox where
  packageSetSnapshot : packageSetSnapshot
  Revision : GoString
  goPath : GoString
deriving DecidableEq, Repr

/-- The objects that snapshot.go and sandbox.go allocate; an address is an
index into the list of its kind. -/
structure Heap where
  arrays : List (List packageSnapshot)
  cells : List packageSetSnapshot
  sandboxes : List sandbox
deriving DecidableEq, Repr

/-- The errors of sandbox.go and of the tools it runs. -/
inductive SandboxError where
  | tool (msg : GoString)
  | alreadyOpen
  | checkoutFailed (revision checkout err : GoString)
deriving DecidableEq, Repr

/-- What sandbox.go and snapshot.go take from the system: the tree id that
`git log -1 --format=%T revision` prints, `ioutil.TempDir("", "ggt-")`,
`os.MkdirAll`, the run of `git --work-tree=checkout checkout revision -- .`,
and the value of `$GOPATH`. -/
structure System where
  gitTreeId : GoString → GoString × Option GoString
  tempDir : Except GoString GoString
  mkdirAll : GoString → Option GoString
  gitCheckout : GoString → GoString → Option GoString
  envGOPATH : GoString

/-- An `exec.Cmd` as far as the code sets it: the arguments, program first,
and the environment (empty: the child inherits the environment of ggt). -/
structure Cmd where
  Args : List GoString
  Env : List GoString
deriving DecidableEq, Repr

/-- The function `newPackageSetSnapshot`: allocates the snapshot and the array
of its packages, every package pointing back to the new cell `&snapshot`. -/
def newPackageSetSnapshot (h : Heap) (set : packageSet) (treeId : GoString) : Heap × Nat :=
  let a := h.cells.length
  let packages : List packageSnapshot :=
    set.relPackagePaths.map fun rpp =>
      { relPackagePath := rpp, PackageSet := .cell a, Cache := none }
  let snapshot : packageSetSnapshot :=
    { packageSet := set, Packages := h.arrays.length, TreeId := treeId,
      InitGoPath := none, GoPath := [] }
  ({ h with arrays := h.arrays ++ [packages], cells := h.cells ++ [snapshot] }, a)

/-- The function `newSandbox`: the sandbox holds a copy
`*newPackageSetSnapshot(set, treeId)` of the snapshot, and `InitGoPath` is
assigned on that copy. Returns the address of the new sandbox. -/
def newSandbox (sys : System) (h : Heap) (set : packageSet) (revision : GoString) :
    Exec (Heap × Except SandboxError Nat) :=
  match sys.gitTreeId revision with
  | (_, some err) => .done (h, .error (.tool err))
  | (out, none) =>
    match newPackageSetSnapshot h set (TrimSpace out) with
    | (h1, a) =>
      match h1.cells[a]? with
      | none => .panicked
      | some snapshot =>
        let sb := h1.sandboxes.length
        let s : sandbox :=
          { packageSetSnapshot := { snapshot with InitGoPath := some sb },
            Revision := revision, goPath := [] }
        .done ({ h1 with sandboxes := h1.sandboxes ++ [s] }, .ok sb)

/-- The method `sandbox.Open` on the sandbox at address `sb`. -/
def sandbox.Open (sys : System) (h : Heap) (sb : Nat) : Exec (Heap × Option SandboxError) :=
  match h.sandboxes[sb]? with
  | none => .panicked
  | some s =>
    if !s.goPath.isEmpty then .done (h, some .alreadyOpen)
    else
      match sys.tempDir with
      | .error e => .done (h, some (.tool e))
      | .ok goPath =>
        let checkout := Join [goPath, "src".toList, s.packageSetSnapshot.packageSet.rootPackageImportPath]
        match sys.mkdirAll checkout with
        | some e => .done (h, some (.tool e))
        | none =>
          match sys.gitCheckout checkout s.Revision with
          | some e => .done (h, some (.checkoutFailed s.Revision checkout e))
          | none =>
            .done ({ h with sandboxes := h.sandboxes.set sb { s with goPath := goPath } }, none)

/-- The closure that `newSandbox` stores in `InitGoPath`, for the sandbox at
`sb`: opens the sandbox when it is not open, returns `s.goPath` and the error. -/
def initGoPath (sys : System) (h : Heap) (sb : Nat) :
    Exec (Heap × GoString × Option SandboxError) :=
  match h.sandboxes[sb]? with
  | none => .panicked
  | some s =>
    if s.goPath.isEmpty then
      (sandbox.Open sys h sb).bind fun r =>
        match r.1.sandboxes[sb]? with
        | none => .panicked
        | some s1 => .done (r.1, s1.goPath, r.2)
    else .done (h, s.goPath, none)

/-- Read a `packageSetSnapshot` through a pointer. -/
def Heap.snapshot (h : Heap) : SnapRef → Option packageSetSnapshot
  | .cell a => h.cells[a]?
  | .embedded sb => (h.sandboxes[sb]?).map (·.packageSetSnapshot)

/-- Assign the field `GoPath` through a pointer. -/
def Heap.setGoPath (h : Heap) (ref : SnapRef) (goPath : GoString) : Heap :=
  match ref with
  | .cell a =>
    match h.cells[a]? with
    | some s => { h with cells := h.cells.set a { s with GoPath := goPath } }
    | none => h
  | .embedded sb =>
    match h.sandboxes[sb]? with
    | some s =>
      { h with sandboxes :=
          h.sandboxes.set sb { s with packageSetSnapshot := { s.packageSetSnapshot with GoPath := goPath } } }
    | none => h

/-- The method `packageSetSnapshot.Go` on the snapshot that `ref` points to:
`InitGoPath` is called when `GoPath` is empty and the func is not nil; `GOPATH`
is put in the environment only when `GoPath` is not empty. -/
def packageSetSnapshot.Go (sys : System) (h : Heap) (ref : SnapRef) (args : List GoString) :
    Exec (Heap × Except SandboxError Cmd) :=
  match h.snapshot ref with
  | none => .panicked
  | some s =>
    let finish (h1 : Heap) (goPath : GoString) : Exec (Heap × Except SandboxError Cmd) :=
      if !goPath.isEmpty then
        .done (h1, .ok { Args := "go".toList :: args,
                         Env := [ "GOPATH=".toList ++ goPath ++ ":".toList ++ sys.envGOPATH ] })
      else .done (h1, .ok { Args := "go".toList :: args, Env := [] })
    match s.InitGoPath with
    | some sb =>
      if s.GoPath.isEmpty then
        (initGoPath sys h sb).bind fun r =>
          let h1 := r.1.setGoPath ref r.2.1
          match r.2.2 with
          | some e => .done (h1, .error e)
          | none => finish h1 r.2.1
      else finish h s.GoPath
    | none => finish h s.GoPath

/-- The harness command of `packageSnapshot.RunBenchmarks`:
`s.PackageSet.Go("test", "-run=@", "-bench="+benchRegex, importPath)`, with
`benchRegex` defaulted to `.` and `importPath` joined from the root import
path and the package path of the snapshot the package points to. -/
def RunBenchmarks_command (sys : System) (h : Heap) (p : packageSnapshot)
    (benchRegex : GoString) : Exec (Heap × Except SandboxError Cmd) :=
  let benchRegex := if benchRegex.isEmpty then ".".toList else benchRegex
  match h.snapshot p.PackageSet with
  | none => .panicked
  | some ps =>
    let importPath := Join [ps.packageSet.rootPackageImportPath, p.relPackagePath]
    packageSetSnapshot.Go sys h p.PackageSet
      ["test".toList, "-run=@".toList, "-bench=".toList ++ benchRegex, importPath]

/-- The harness command of `packageSnapshot.GetBenchmarkNames` (on a cache
miss): `s.PackageSet.Go("test", "-run=@", "-bench=.", "-benchtime=0", importPath)`. -/
def GetBenchmarkNames_command (sys : System) (h : Heap) (p : packageSnapshot) :
    Exec (Heap × Except SandboxError Cmd) :=
  match h.snapshot p.PackageSet with
  | none => .panicked
  | some ps =>
    let importPath := Join [ps.packageSet.rootPackageImportPath, p.relPackagePath]
    packageSetSnapshot.Go sys h p.PackageSet
      ["test".toList, "-run=@".toList, "-bench=.".toList, "-benchtime=0".toList, importPath]

/-- The packages of the sandbox at `sb`, read through its slice. -/
def Heap.sandboxPackages (h : Heap) (sb : Nat) : List packageSnapshot :=
  match h.sandboxes[sb]? with
  | none => []
  | some s => (h.arrays[s.packageSetSnapshot.Packages]?).getD []

/-! ### log.go -/

/-- The struct `TestFailedError` (the exit status left out). -/
structure TestFailedError where
  StderrOutput : GoString
deriving DecidableEq, Repr

/-- The struct `commitTestRun`; the map as a list of key and value. -/
structure commitTestRun where
  benchmarks : List (GoString × benchmarkRunSlice)
  failed : Option TestFailedError
deriving DecidableEq, Repr

/-- The struct `cmdLog`. -/
structure cmdLog where
  packages : List GoString
  benchRegex : GoString
  revisionRange : GoString
  nsPerOpThreshold : float64
deriving DecidableEq, Repr

/-- The method `cmdLog.annotate`: `nextRun` after the call. -/
def cmdLog.annotate (r : commitTestRun) (nextRun : benchmarkRun) (relPackagePath : GoString) :
    Exec benchmarkRun :=
  match r.benchmarks.lookup relPackagePath with
  | none => .done nextRun
  | some benchmarks =>
    (Find benchmarks nextRun.Name).bind fun prev =>
      match prev with
      | some prev => .done (Annotate nextRun prev).1
      | none => .done nextRun

/-- The closure `printBenchmark` of `cmdLog.run`, for the package path `p` and
the parent run of the iteration (`none` is nil): the run after the call and
the line written by `fmt.Println(b)`, `none` when nothing is printed. -/
def printBenchmark (pr : Printing) (l : cmdLog) (parentRun : Option commitTestRun)
    (p : GoString) (b : benchmarkRun) : Exec (benchmarkRun × Option GoString) :=
  match parentRun with
  | some parent =>
    (cmdLog.annotate parent b p).bind fun b1 =>
      if IEEE.lt (IEEE.convert 11 52 b1.NsPerOpChange) l.nsPerOpThreshold then .done (b1, none)
      else .done (b1, some (b1.String pr ++ "\n".toList))
  | none => .done (b, some (b.String pr ++ "\n".toList))

/-! ### Sample data -/

/-- A run with the given time in ns/op, as the parser leaves it. -/
def timedRun (line name : String) (ns : Nat) : benchmarkRun :=
  { Line := line.toList, Name := name.toList, N := 1,
    NsPerOp := IEEE.ofNat 8 23 ns, NsPerOpChange := IEEE.zero 8 23 false }

/-- The log command with its default settings: `-bench=.`, `-threshold=2`. -/
def logThreshold2 : cmdLog :=
  { packages := [".".toList], benchRegex := ".".toList, revisionRange := [],
    nsPerOpThreshold := IEEE.ofNat 11 52 2 }

/-- Results of a parent commit: `BenchmarkX` at 100 ns/op in package `.`. -/
def parentAt100 : commitTestRun :=
  { benchmarks := [(".".toList, [timedRun "BenchmarkX 1 100 ns/op" "BenchmarkX" 100])],
    failed := none }

/-- A system in which every tool succeeds; the tree id is `4b825dc`. -/
def sampleSystem : System :=
  { gitTreeId := fun _ => ("4b825dc\n".toList, none),
    tempDir := .ok "/tmp/ggt-1".toList,
    mkdirAll := fun _ => none,
    gitCheckout := fun _ _ => none,
    envGOPATH := "/home/u/go".toList }

/-- A package set of one package at the root of its repository. -/
def sampleSet : packageSet :=
  { repo := ⟨"/home/u/go/src/example.com/repo".toList, ".git".toList⟩,
    rootPackageImportPath := "example.com/repo".toList,
    relPackagePaths := [".".toList],
    packagesStrings := [".".toList] }

/-- The heap before anything is allocated. -/
def emptyHeap : Heap := { arrays := [], cells := [], sandboxes := [] }

/-- The heap after `newSandbox` on the sample set in the empty heap. -/
def sampleSandboxHeap : Heap :=
  match newSandbox sampleSystem emptyHeap sampleSet "HEAD~1".toList with
  | .done (h, _) => h
  | _ => emptyHeap

/-- Tools for one package in the subdirectory `sub` of the repository
`/gopath/src/example.com/repo`; `gitOut` is what `git rev-parse --git-dir`
prints there. -/
def subdirTools (gitOut : String) : Tools :=
  { goList := fun _ =>
      ("/gopath/src/example.com/repo/sub:example.com/repo/sub\n".toList, none),
    gitRevParseGitDir := fun _ => (gitOut.toList, none) }

/-- The innermost of the directories `tops` that `dir` is or lies below. -/
def innermostTop (tops : List GoString) (dir : GoString) : Option GoString :=
  tops.foldl
    (fun best top =>
      if (components top).isPrefixOf (components dir) then
        match best with
        | some b => if (components b).length < (components top).length then some top else some b
        | none => some top
      else best)
    none

/-- What `git -C dir rev-parse --git-dir` prints on a machine whose work trees
have the top-level directories `tops`, each with its git directory `.git`:
`.git` at a top level, the absolute path of the git directory of the innermost
work tree around `dir` below one; outside every work tree the command fails. -/
def gitRevParse (tops : List GoString) (dir : GoString) : GoString × Option GoString :=
  match innermostTop tops dir with
  | none => ([], some "exit status 128".toList)
  | some top =>
    if components top = components dir then (".git\n".toList, none)
    else (top ++ "/.git\n".toList, none)

/-- Tools on a machine where `go list` prints `listing` and the work trees
have the top-level directories `tops`. -/
def gitTools (listing : String) (tops : List String) : Tools :=
  { goList := fun _ => (listing.toList, none),
    gitRevParseGitDir := gitRevParse (tops.map String.toList) }

/-- Tools for the one package at the top level of the sample repository. -/
def rootOnlyTools : Tools :=
  gitTools "/home/u/go/src/example.com/repo:example.com/repo\n"
    ["/home/u/go/src/example.com/repo"]

/-- Tools for two packages of one repository, its top level and its
subdirectory `sub`. -/
def rootAndSubTools : Tools :=
  gitTools ("/home/u/go/src/example.com/repo:example.com/repo\n" ++
      "/home/u/go/src/example.com/repo/sub:example.com/repo/sub\n")
    ["/home/u/go/src/example.com/repo"]

/-- Tools for `GOPATH=/r` where `/r` is itself a work tree, with the package
`x` in `/r/src/x` and, nested in it, a second work tree `/r/src/x/r` with the
package `x/r`; the packages are listed in the order `x/r`, `x`. -/
def nestedTools : Tools :=
  gitTools "/r/src/x/r:x/r\n/r/src/x:x\n" ["/r", "/r/src/x/r"]

/-- The package set of the two nested work trees. -/
def nestedSet : packageSet :=
  { repo := ⟨"/r/src/x/r".toList, ".git".toList⟩,
    rootPackageImportPath := "x/r".toList,
    relPackagePaths := [".".toList, "..".toList],
    packagesStrings := ["x/r".toList, "x".toList] }

/-- Tools for a selector that matches nothing: `go list` prints nothing on
standard output and exits with status 1. -/
def noMatchTools : Tools :=
  { goList := fun _ => ([], some "exit status 1".toList),
    gitRevParseGitDir := fun _ => (".git\n".toList, none) }

/-! ### flags.go and cmdLog.parseFlags -/

/-- What `flag.CommandLine.Parse` leaves behind: the values of the flags
`-bench`, `-threshold`, `-verbose`, `-colored`, `-caching` and the remaining
arguments `flag.Args()`. -/
structure ParsedFlags where
  bench : GoString
  threshold : float64
  verbose : Bool
  colored : Bool
  caching : Bool
  args : List GoString
deriving DecidableEq, Repr

/-- The function `containsString` of flags.go. -/
def containsString (list : List GoString) (elem : GoString) : Bool :=
  list.any fun a => a == elem

/-- The function `restoreDashes` of flags.go: `--` is put back in front when
the flag package has consumed it. -/
def restoreDashes (osArgs args : List GoString) : List GoString :=
  if !containsString args "--".toList && containsString osArgs "--".toList then
    "--".toList :: args
  else args

/-- The function `parseFlags` of flags.go. `flagParse` stands for
`flag.CommandLine.Parse`; `none` means that parsing failed and the process
was stopped by `fatal`. -/
def parseFlags (flagParse : List GoString → Option ParsedFlags) (osArgs args : List GoString) :
    Option ParsedFlags :=
  (flagParse args).map fun f => { f with args := restoreDashes osArgs f.args }

/-- The error texts of `cmdLog.parseFlags`. -/
def thresholdErrorText : GoString := "threshold must be in [0, 100] interval".toList

/-- The second error text of `cmdLog.parseFlags`. -/
def noPackagesErrorText : GoString := "packages are not specified".toList

/-- The statement `if len(args) > 0 && args[0] != "--" { l.revisionRange = args[0]; args = args[1:] }`. -/
def takeRevisionRange (l : cmdLog) (args : List GoString) : cmdLog × List GoString :=
  match args with
  | a :: rest => if a != "--".toList then ({ l with revisionRange := a }, rest) else (l, args)
  | [] => (l, args)

/-- The statement `if len(args) > 0 && args[0] == "--" { args = args[1:] }`. -/
def dropDashes (args : List GoString) : List GoString :=
  match args with
  | a :: rest => if a == "--".toList then rest else args
  | [] => args

/-- The method `cmdLog.parseFlags`: the receiver after the call and the
returned error; `none` when the process was stopped while parsing flags. -/
def cmdLog.parseFlags (flagParse : List GoString → Option ParsedFlags) (osArgs : List GoString)
    (l : cmdLog) (args : List GoString) : Option (cmdLog × Option GoString) :=
  match Ggt.parseFlags flagParse osArgs args with
  | none => none
  | some f =>
    let l1 : cmdLog := { l with benchRegex := f.bench, nsPerOpThreshold := f.threshold }
    if IEEE.lt l1.nsPerOpThreshold (IEEE.ofNat 11 52 0) ||
        IEEE.lt (IEEE.ofNat 11 52 100) l1.nsPerOpThreshold then
      some (l1, some thresholdErrorText)
    else
      let l2 : cmdLog := (takeRevisionRange l1 f.args).1
      let l3 : cmdLog := { l2 with packages := dropDashes (takeRevisionRange l1 f.args).2 }
      if l3.packages.isEmpty then some (l3, some noPackagesErrorText)
      else some (l3, none)

/-- In the words of the usage `ggt log [options] [revision range] [--] [packages]`:
the leading argument is the revision range unless it is `--`. -/
def usageRevisionRange (args : List GoString) : Option GoString :=
  match args with
  | a :: _ => if a = "--".toList then none else some a
  | [] => none

/-- In the words of the usage: the packages are what is left of the arguments
once the leading revision range, when there is one, and then a leading `--`,
when there is one, are removed. -/
def usagePackages (args : List GoString) : List GoString :=
  let afterRange := if (usageRevisionRange args).isSome then args.drop 1 else args
  if afterRange.head? = some "--".toList then afterRange.drop 1 else afterRange

/-- Flag values with the defaults of ggt and the given threshold and arguments. -/
def sampleFlags (threshold : Nat) (args : List String) : ParsedFlags :=
  { bench := ".".toList, threshold := IEEE.ofNat 11 52 threshold, verbose := false,
    colored := true, caching := true, args := args.map String.toList }

/-- A log command before its flags are parsed. -/
def blankLog : cmdLog :=
  { packages := [], benchRegex := [], revisionRange := [], nsPerOpThreshold := IEEE.zero 11 52 false }

/-! ### snapshot.go: the cache and the harness -/

/-- The error of a finished command: an `*exec.ExitError` (non-zero exit
status) or any other error of `cmd.Run`. -/
inductive ProcError where
  | exit (status : Nat)
  | other (msg : GoString)
deriving DecidableEq, Repr

/-- What a finished command gave: its standard output, its standard error
and the error of `cmd.Run()` (`none` is nil). -/
structure Proc where
  stdout : GoString
  stderr : GoString
  err : Option ProcError
deriving DecidableEq, Repr

/-- The errors that the methods of snapshot.go return. -/
inductive BenchError where
  | sandbox (e : SandboxError)
  | testFailed (e : TestFailedError)
  | proc (msg : GoString)
  | add (msg : GoString)
  | invalidRegexp (re : GoString)
  | didNotRun (name : GoString)
deriving DecidableEq, Repr

/-- How `packageSnapshotCache.Save` of a file ends: the file holds the cache;
or `os.MkdirAll` or `os.Create` failed and the file is as it was; or
`os.Create` emptied the file and the encoding or the write failed after it,
leaving a file that cannot be decoded. -/
inductive SaveOutcome where
  | saved
  | notCreated
  | truncated
deriving DecidableEq, Repr

/-- What snapshot.go takes from outside: the system of sandbox.go, the run of
a harness command (which may depend on the commands run before it), how many
lines of its output the reader goroutine of `forEachLineOutput` has handed to
the line function when `cmd.Run` returns (the goroutine is not waited for),
`regexp.Compile` with `MatchString` (`none` is a compile error), how the save
of a cache file ends, and the global flag `caching`. -/
structure Harness where
  sys : System
  exec : List Cmd → Cmd → Proc
  handled : List Cmd → Cmd → Nat
  compile : GoString → Option (GoString → Bool)
  save : GoString → SaveOutcome
  caching : Bool

/-- The state that the methods of snapshot.go work on: the heap, the cache
files on disk (JSON encoding and decoding taken as exact), the harness
commands run so far, oldest first, and the lines printed by callbacks. -/
structure Machine where
  heap : Heap
  disk : List (GoString × packageSnapshotCache)
  ran : List Cmd
  out : List GoString
deriving DecidableEq, Repr

/-- A callback `func(*benchmarkRun)`: `none` is nil; a callback may change the
run it is given and may print a line. -/
abbrev Callback := Option (benchmarkRun → Exec (benchmarkRun × Option GoString))

/-- The call `cb(b)` guarded by `cb != nil`: the run after the call and the
lines printed. -/
def callCb (cb : Callback) (b : benchmarkRun) : Exec (benchmarkRun × List GoString) :=
  match cb with
  | none => .done (b, [])
  | some f => (f b).bind fun r => .done (r.1, r.2.toList)

/-- Result of a method of `packageSnapshot`: the state and the receiver after
the call, and the returned value or error. -/
abbrev SnapResult (α : Type) := Exec (Machine × packageSnapshot × Except BenchError α)

/-- The empty cache `packageSnapshotCache{}`. -/
def emptyCache : packageSnapshotCache :=
  { Benchmarks := [], BenchmarksIsComplete := false, AllBenchmarkNames := none }

/-- The method `packageSnapshot.cacheFilename`; `none` when `PackageSet`
points nowhere (a nil dereference). -/
def cacheFilename (h : Heap) (s : packageSnapshot) : Option GoString :=
  (h.snapshot s.PackageSet).map fun ps =>
    Join [ps.packageSet.repo.root, ps.packageSet.repo.gitDir, "ggt".toList,
      "tree-cache".toList, ps.TreeId, s.relPackagePath, "dir-cache.json".toList]

/-- The method `packageSnapshot.LoadCache` with `packageSnapshotCache.Load`:
the cache becomes what the file holds, the empty cache when there is no file
(a file that cannot be read or decoded is logged and counts as absent). -/
def LoadCache (st : Machine) (s : packageSnapshot) : Exec packageSnapshot :=
  match cacheFilename st.heap s with
  | none => .panicked
  | some file =>
    match st.disk.lookup file with
    | some c => .done { s with Cache := some c }
    | none => .done { s with Cache := some emptyCache }

/-- The method `packageSnapshot.EnsureCacheLoaded`. -/
def EnsureCacheLoaded (st : Machine) (s : packageSnapshot) : Exec packageSnapshot :=
  match s.Cache with
  | none => LoadCache st s
  | some _ => .done s

/-- The method `packageSnapshot.SaveCache` with `packageSnapshotCache.Save`:
panics when the cache is not loaded; the error of a failed save is logged and
dropped. A file that `os.Create` emptied before the save failed holds no
cache any more: `Load` cannot decode it, so it counts as absent. -/
def SaveCache (env : Harness) (st : Machine) (s : packageSnapshot) : Exec Machine :=
  match s.Cache with
  | none => .panicked
  | some c =>
    match cacheFilename st.heap s with
    | none => .panicked
    | some file =>
      match env.save file with
      | .saved => .done { st with disk := (file, c) :: st.disk.filter (fun e => e.1 != file) }
      | .notCreated => .done st
      | .truncated => .done { st with disk := st.disk.filter (fun e => e.1 != file) }

/-- The lines that `forEachLine` hands to its function: each line up to and
including its `\n`; what follows the last `\n` ends in `io.EOF` and is
dropped. `acc` is the reversed line read so far. -/
def completeLines : GoString → GoString → List GoString
  | _, [] => []
  | acc, c :: cs =>
    if c = '\n' then (c :: acc).reverse :: completeLines [] cs
    else completeLines (c :: acc) cs

/-- The variables that the line function of `RunBenchmarks` works on. -/
structure RunVars where
  result : benchmarkRunSlice
  cache : packageSnapshotCache
  testNames : List GoString
  out : List GoString
deriving DecidableEq, Repr

/-- The line function of `RunBenchmarks` over the lines of the harness, with
`forEachLine`: the first error stops the loop and is returned. -/
def runLines (cb : Callback) : List GoString → RunVars → Exec (RunVars × Option BenchError)
  | [], v => .done (v, none)
  | line :: rest, v =>
    (parseBenchmarkRun line).bind fun parsed =>
      match parsed with
      | none => runLines cb rest v
      | some benchmark =>
        (callCb cb benchmark).bind fun called =>
          let v1 : RunVars := { v with out := v.out ++ called.2 }
          (Add v1.result called.1).bind fun added =>
            match added.2 with
            | some msg => .done ({ v1 with result := added.1 }, some (.add msg))
            | none =>
              let v2 : RunVars := { v1 with result := added.1 }
              (Add v2.cache.Benchmarks called.1).bind fun cached =>
                match cached.2 with
                | some msg =>
                  .done ({ v2 with cache := { v2.cache with Benchmarks := cached.1 } },
                    some (.add msg))
                | none =>
                  runLines cb rest
                    { v2 with cache := { v2.cache with Benchmarks := cached.1 },
                              testNames := v2.testNames ++ [called.1.Name] }

/-- The method `packageSnapshot.RunBenchmarks`. The lines of the harness are
handed to the line function in order by a goroutine that `forEachLineOutput`
starts and does not wait for: when `cmd.Run` returns, the first
`env.handled` of them have been handled, and `lineProcessingErr` holds the
error of the line function only when one of those lines gave it. What the
goroutine does after that is not part of the call. -/
def RunBenchmarks (env : Harness) (st : Machine) (s : packageSnapshot) (benchRegex : GoString)
    (cb : Callback) : SnapResult benchmarkRunSlice :=
  (EnsureCacheLoaded st s).bind fun s1 =>
    let benchRegex1 := if benchRegex.isEmpty then ".".toList else benchRegex
    (RunBenchmarks_command env.sys st.heap s1 benchRegex).bind fun built =>
      let st1 : Machine := { st with heap := built.1 }
      match built.2 with
      | .error e => .done (st1, s1, .error (.sandbox e))
      | .ok test =>
        match s1.Cache with
        | none => .panicked
        | some cache =>
          let proc := env.exec st1.ran test
          let st2 : Machine := { st1 with ran := st1.ran ++ [test] }
          (runLines cb ((completeLines [] proc.stdout).take (env.handled st1.ran test))
              { result := [], cache := cache, testNames := [], out := [] }).bind fun ran =>
            let v := ran.1
            let st3 : Machine := { st2 with out := st2.out ++ v.out }
            let s2 : packageSnapshot := { s1 with Cache := some v.cache }
            match proc.err with
            | some (.exit _) => .done (st3, s2, .error (.testFailed ⟨proc.stderr⟩))
            | some (.other msg) => .done (st3, s2, .error (.proc msg))
            | none =>
              match ran.2 with
              | some e => .done (st3, s2, .error e)
              | none =>
                let cache1 : packageSnapshotCache :=
                  if benchRegex1 = ".".toList then
                    { v.cache with BenchmarksIsComplete := true,
                                   AllBenchmarkNames := some v.testNames }
                  else v.cache
                let s3 : packageSnapshot := { s1 with Cache := some cache1 }
                (SaveCache env st3 s3).bind fun st4 => .done (st4, s3, .ok v.result)

/-- The names of the lines that parse as benchmark results, as collected by
`GetBenchmarkNames`. -/
def parseNames : List GoString → Exec (List GoString)
  | [] => .done []
  | line :: rest =>
    (parseBenchmarkRun line).bind fun parsed =>
      (parseNames rest).bind fun ns =>
        match parsed with
        | some b => .done (b.Name :: ns)
        | none => .done ns

/-- The method `packageSnapshot.GetBenchmarkNames`. -/
def GetBenchmarkNames (env : Harness) (st : Machine) (s : packageSnapshot) :
    SnapResult (List GoString) :=
  (EnsureCacheLoaded st s).bind fun s1 =>
    match s1.Cache with
    | none => .panicked
    | some cache =>
      match cache.AllBenchmarkNames with
      | some ns => .done (st, s1, .ok ns)
      | none =>
        (GetBenchmarkNames_command env.sys st.heap s1).bind fun built =>
          let st1 : Machine := { st with heap := built.1 }
          match built.2 with
          | .error e => .done (st1, s1, .error (.sandbox e))
          | .ok test =>
            let proc := env.exec st1.ran test
            let st2 : Machine := { st1 with ran := st1.ran ++ [test] }
            match proc.err with
            | some (.exit _) => .done (st2, s1, .error (.proc "exit status".toList))
            | some (.other msg) => .done (st2, s1, .error (.proc msg))
            | none =>
              (parseNames (splitOn '\n' (TrimSpace proc.stdout))).bind fun testNames =>
                let s2 : packageSnapshot :=
                  { s1 with Cache := some { cache with AllBenchmarkNames := some testNames } }
                (SaveCache env st2 s2).bind fun st3 => .done (st3, s2, .ok testNames)

/-- The variables of the first loop of `loadBenchmarksFromCache`: the cache
entries visited so far, as the callback left them, the result slice and the
lines printed. -/
structure CachedVars where
  seen : List benchmarkRun
  result : benchmarkRunSlice
  out : List GoString
deriving DecidableEq, Repr

/-- The first loop of `loadBenchmarksFromCache`, over the entries of the cache
not yet visited: an entry whose name matches is handed to the callback (which
works on the entry in place) and added to the result. On an error the entries
not visited stay as they are. -/
def loadCached (m : GoString → Bool) (cb : Callback) :
    List benchmarkRun → CachedVars → Exec (CachedVars × Option BenchError)
  | [], v => .done (v, none)
  | b :: rest, v =>
    if m b.Name then
      (callCb cb b).bind fun called =>
        (Add v.result called.1).bind fun added =>
          match added.2 with
          | some msg =>
            .done ({ seen := v.seen ++ called.1 :: rest, result := added.1,
                     out := v.out ++ called.2 }, some (.add msg))
          | none =>
            loadCached m cb rest
              { seen := v.seen ++ [called.1], result := added.1, out := v.out ++ called.2 }
    else loadCached m cb rest { v with seen := v.seen ++ [b] }

/-- The second loop of `loadBenchmarksFromCache`: the names of the full list
that match the filter and that `result.Find` does not find. -/
def missingNames (m : GoString → Bool) (result : benchmarkRunSlice) :
    List GoString → Exec (List GoString)
  | [] => .done []
  | t :: rest =>
    if !m t then missingNames m result rest
    else
      (Find result t).bind fun found =>
        (missingNames m result rest).bind fun ms =>
          match found with
          | none => .done (t :: ms)
          | some _ => .done ms

/-- Go `strings.Join(elems, sep)`. -/
def stringsJoin (sep : GoString) : List GoString → GoString
  | [] => []
  | [a] => a
  | a :: as => a ++ sep ++ stringsJoin sep as

/-- The filter `"^(" + strings.Join(missing, "|") + ")$"`. -/
def missingRegexp (missing : List GoString) : GoString :=
  "^(".toList ++ stringsJoin "|".toList missing ++ ")$".toList

/-- The third loop of `loadBenchmarksFromCache`: every missing name is looked
up in what the harness returned and added to the result. -/
def addMissing (missingBenchmarks : benchmarkRunSlice) :
    List GoString → benchmarkRunSlice → Exec (benchmarkRunSlice × Option BenchError)
  | [], result => .done (result, none)
  | name :: rest, result =>
    (Find missingBenchmarks name).bind fun found =>
      match found with
      | none => .done (result, some (.didNotRun name))
      | some b =>
        (Add result b).bind fun added =>
          match added.2 with
          | some msg => .done (added.1, some (.add msg))
          | none => addMissing missingBenchmarks rest added.1

/-- The method `packageSnapshot.loadBenchmarksFromCache`. A nil result slice
is the empty list. -/
def loadBenchmarksFromCache (env : Harness) (st : Machine) (s : packageSnapshot)
    (benchRegex : GoString) (cb : Callback) : SnapResult benchmarkRunSlice :=
  (EnsureCacheLoaded st s).bind fun s1 =>
    match s1.Cache with
    | none => .panicked
    | some cache =>
      if cache.Benchmarks.isEmpty then .done (st, s1, .ok [])
      else
        match env.compile benchRegex with
        | none => .done (st, s1, .error (.invalidRegexp benchRegex))
        | some m =>
          (loadCached m cb cache.Benchmarks { seen := [], result := [], out := [] }).bind
            fun loaded =>
              let v := loaded.1
              let st1 : Machine := { st with out := st.out ++ v.out }
              let s2 : packageSnapshot := { s1 with Cache := some { cache with Benchmarks := v.seen } }
              match loaded.2 with
              | some e => .done (st1, s2, .error e)
              | none =>
                if !cache.BenchmarksIsComplete then
                  (GetBenchmarkNames env st1 s2).bind fun named =>
                    match named.2.2 with
                    | .error e => .done (named.1, named.2.1, .error e)
                    | .ok all =>
                      (missingNames m v.result all).bind fun missing =>
                        if missing.isEmpty then .done (named.1, named.2.1, .ok v.result)
                        else
                          (RunBenchmarks env named.1 named.2.1 (missingRegexp missing) cb).bind
                            fun ran =>
                              match ran.2.2 with
                              | .error e => .done (ran.1, ran.2.1, .error e)
                              | .ok missingBenchmarks =>
                                (addMissing missingBenchmarks missing v.result).bind fun merged =>
                                  match merged.2 with
                                  | some e => .done (ran.1, ran.2.1, .error e)
                                  | none => .done (ran.1, ran.2.1, .ok merged.1)
                else .done (st1, s2, .ok v.result)

/-- The method `packageSnapshot.GetBenchmarks`: a nil callback is replaced by
one that does nothing; with `caching`, the cache is asked first and the
harness is run for the whole filter only when the cache gave nothing. -/
def packageSnapshot.GetBenchmarks (env : Harness) (st : Machine) (s : packageSnapshot)
    (benchRegex : GoString) (cb : Callback) : SnapResult benchmarkRunSlice :=
  let cb1 : Callback :=
    match cb with
    | none => some fun b => .done (b, none)
    | some f => some f
  if env.caching then
    (loadBenchmarksFromCache env st s benchRegex cb1).bind fun r =>
      match r.2.2 with
      | .error e => .done (r.1, r.2.1, .error e)
      | .ok benchmarks =>
        if !benchmarks.isEmpty then .done (r.1, r.2.1, .ok benchmarks)
        else RunBenchmarks env r.1 r.2.1 benchRegex cb1
  else RunBenchmarks env st s benchRegex cb1

/-! ### Sample harness -/

/-- The cell that `newSandbox` leaves for the sample set, alone in a heap. -/
def sampleCellHeap : Heap :=
  { arrays := [],
    cells := [{ packageSet := sampleSet, Packages := 0, TreeId := "4b825dc".toList,
                InitGoPath := none, GoPath := [] }],
    sandboxes := [] }

/-- A harness for the sample set: whatever the filter, the run prints a line
for `BenchmarkB`, and its three lines are handed over before the run returns;
the filter `.` matches every name, any other filter matches nothing; cache
files can be written. -/
def sampleHarness : Harness :=
  { sys := sampleSystem,
    exec := fun _ _ =>
      { stdout := "PASS\nBenchmarkB-8 \t 2000000\t 20 ns/op\nok\n".toList, stderr := [],
        err := none },
    handled := fun _ _ => 3,
    compile := fun re => if re = ".".toList then some fun _ => true else some fun _ => false,
    save := fun _ => .saved,
    caching := true }

/-- The run `BenchmarkA` at 100 ns/op. -/
def runA : benchmarkRun := timedRun "BenchmarkA 1 100 ns/op" "BenchmarkA" 100

/-- A package snapshot of the sample set whose cache holds `BenchmarkA`, is
not marked complete and knows the names `BenchmarkA` and `BenchmarkB`. -/
def cachedA : packageSnapshot :=
  { relPackagePath := ".".toList, PackageSet := .cell 0,
    Cache := some { Benchmarks := [runA], BenchmarksIsComplete := false,
                    AllBenchmarkNames := some ["BenchmarkA".toList, "BenchmarkB".toList] } }

/-- The state before the sample calls: the sample cell, nothing on disk,
nothing run, nothing printed. -/
def sampleMachine : Machine := { heap := sampleCellHeap, disk := [], ran := [], out := [] }

/-- The run that the sample harness reports, as `parseBenchmarkRun` reads it. -/
def runB : benchmarkRun :=
  { Line := "BenchmarkB-8 \t 2000000\t 20 ns/op\n".toList, Name := "BenchmarkB".toList,
    N := 2000000, NsPerOp := IEEE.ofNat 8 23 20, NsPerOpChange := IEEE.zero 8 23 false }

/-- The harness command for the one missing name `BenchmarkB`. -/
def sampleCommandB : Cmd :=
  { Args := ["go".toList, "test".toList, "-run=@".toList, "-bench=^(BenchmarkB)$".toList,
      "example.com/repo".toList],
    Env := [] }

/-- The cache file of the sample package. -/
def sampleCacheFile : GoString :=
  "/home/u/go/src/example.com/repo/.git/ggt/tree-cache/4b825dc/dir-cache.json".toList

/-- The sample cache: `BenchmarkA`, not complete, names `BenchmarkA`, `BenchmarkB`. -/
def cacheA : packageSnapshotCache :=
  { Benchmarks := [runA], BenchmarksIsComplete := false,
    AllBenchmarkNames := some ["BenchmarkA".toList, "BenchmarkB".toList] }

/-- The sample cache after `BenchmarkB` has been run with a restricted filter. -/
def cacheAB : packageSnapshotCache :=
  { Benchmarks := [runA, runB], BenchmarksIsComplete := false,
    AllBenchmarkNames := some ["BenchmarkA".toList, "BenchmarkB".toList] }

/-- The state after the run of `BenchmarkB`: one command run, the cache saved. -/
def machineAfterB : Machine :=
  { heap := sampleCellHeap, disk := [(sampleCacheFile, cacheAB)], ran := [sampleCommandB],
    out := [] }

/-! ### snapshot.go and package.go: GetBenchmarks of a snapshot and of a package set -/

/-- Write a package snapshot back to its place in the backing array. -/
def Heap.setPackage (h : Heap) (arr i : Nat) (p : packageSnapshot) : Heap :=
  match h.arrays[arr]? with
  | some a => { h with arrays := h.arrays.set arr (a.set i p) }
  | none => h

/-- The map assignment `results[key] = value`. -/
def mapSet (results : List (GoString × benchmarkRunSlice)) (key : GoString)
    (value : benchmarkRunSlice) : List (GoString × benchmarkRunSlice) :=
  if results.any (fun e => e.1 == key) then
    results.map fun e => if e.1 == key then (key, value) else e
  else results ++ [(key, value)]

/-- The loop of `packageSetSnapshot.GetBenchmarks` over the indices of
`s.Packages` (the array at address `arr`) not yet visited. -/
def snapshotLoop (env : Harness) (arr : Nat) (benchRegex : GoString) (cb : Callback) :
    List Nat → Machine → List (GoString × benchmarkRunSlice) →
      Exec (Machine × Except BenchError (List (GoString × benchmarkRunSlice)))
  | [], st, results => .done (st, .ok results)
  | i :: rest, st, results =>
    match (st.heap.arrays[arr]?).bind (fun a => a[i]?) with
    | none => .panicked
    | some p =>
      (packageSnapshot.GetBenchmarks env st p benchRegex cb).bind fun r =>
        let st1 : Machine := { r.1 with heap := r.1.heap.setPackage arr i r.2.1 }
        match r.2.2 with
        | .error e => .done (st1, .error e)
        | .ok bs => snapshotLoop env arr benchRegex cb rest st1 (mapSet results p.relPackagePath bs)

/-- The method `packageSetSnapshot.GetBenchmarks` on the snapshot that `ref`
points to. -/
def packageSetSnapshot.GetBenchmarks (env : Harness) (st : Machine) (ref : SnapRef)
    (benchRegex : GoString) (cb : Callback) :
    Exec (Machine × Except BenchError (List (GoString × benchmarkRunSlice))) :=
  match st.heap.snapshot ref with
  | none => .panicked
  | some s =>
    match st.heap.arrays[s.Packages]? with
    | none => .panicked
    | some packages =>
      snapshotLoop env s.Packages benchRegex cb (List.range packages.length) st []

/-- The method `sandbox.Close`: `removeAll` stands for `os.RemoveAll`; when it
fails the sandbox keeps its directory. -/
def sandbox.Close (removeAll : GoString → Option GoString) (h : Heap) (sb : Nat) :
    Exec (Heap × Option GoString) :=
  match h.sandboxes[sb]? with
  | none => .panicked
  | some s =>
    if s.goPath.isEmpty then .done (h, none)
    else
      match removeAll s.goPath with
      | some e => .done (h, some e)
      | none => .done ({ h with sandboxes := h.sandboxes.set sb { s with goPath := [] } }, none)

/-- The method `packageSet.GetBenchmarks`: a sandbox for the revision is
made, the benchmarks are taken through it, and the deferred `Close` runs
last, its error dropped. -/
def packageSet.GetBenchmarks (env : Harness) (removeAll : GoString → Option GoString)
    (st : Machine) (set : packageSet) (revision benchRegex : GoString) (cb : Callback) :
    Exec (Machine × Except BenchError (List (GoString × benchmarkRunSlice))) :=
  (newSandbox env.sys st.heap set revision).bind fun made =>
    match made.2 with
    | .error e => .done ({ st with heap := made.1 }, .error (.sandbox e))
    | .ok sb =>
      (packageSetSnapshot.GetBenchmarks env { st with heap := made.1 } (.embedded sb)
          benchRegex cb).bind fun r =>
        (sandbox.Close removeAll r.1.heap sb).bind fun closed =>
          .done ({ r.1 with heap := closed.1 }, r.2)

/-! ### log.go: cmdLog.run -/

/-- The errors that `cmdLog.run` returns. -/
inductive RunError where
  | package (e : PackageError)
  | git (msg : GoString)
  | bench (e : BenchError)
deriving DecidableEq, Repr

/-- What `cmdLog.run` takes from outside, over a state `σ` of the world: the
tools of package.go; the text that `git log --format=%H [range]` writes (or the
error of piping or starting it); the run of `git log -1 commit` with its
output on standard output; the writing of a text to standard output, which is
what `fmt.Println` does with its line and a `\n`; `set.GetBenchmarks`; and the
rendering of a run. -/
structure LogTools (σ : Type) where
  tools : Tools
  gitLog : packageSet → List GoString → Except GoString GoString
  showCommit : σ → packageSet → GoString → σ × Option GoString
  write : σ → GoString → σ
  getBenchmarks : σ → packageSet → GoString → GoString → Callback →
    Exec (σ × Except BenchError (List (GoString × benchmarkRunSlice)))
  pr : Printing

/-- The state of a traversal: the world, and a record of the calls made so
far, oldest first: the revisions passed to `set.GetBenchmarks` and the commits
handed to `git log -1`. -/
structure RunState (σ : Type) where
  world : σ
  fetched : List GoString
  shown : List GoString

/-- Go `bufio.Reader.ReadString('\n')` on the text not yet read: the line up to
and including its `\n`, whether the end was hit first (`io.EOF`), and the rest. -/
def readString (s : GoString) : GoString × Bool × GoString :=
  match s.dropWhile (fun c => c != '\n') with
  | [] => (s, true, [])
  | c :: rest => (s.takeWhile (fun c => c != '\n') ++ [c], false, rest)

/-- The fetch of the parent's benchmarks in `cmdLog.run`: nothing for an empty
parent id; an error, of whatever kind, is returned by `run` (the
`commitTestRun{failed: err}` built for a `TestFailedError` is dropped). -/
def parentFetch {σ : Type} (env : LogTools σ) (l : cmdLog) (set : packageSet)
    (parentCommitId : GoString) (st : RunState σ) :
    Exec (RunState σ × Except BenchError (Option commitTestRun)) :=
  if parentCommitId.isEmpty then .done (st, .ok none)
  else
    (env.getBenchmarks st.world set parentCommitId l.benchRegex none).bind fun r =>
      let st1 : RunState σ :=
        { st with world := r.1, fetched := st.fetched ++ [parentCommitId] }
      match r.2 with
      | .error e => .done (st1, .error e)
      | .ok benchmarks => .done (st1, .ok (some { benchmarks := benchmarks, failed := none }))

/-- The loop `for _, b := range bs { printBenchmark(&b) }`: each run is copied,
annotated and printed or not. -/
def printRuns {σ : Type} (env : LogTools σ)
    (pb : benchmarkRun → Exec (benchmarkRun × Option GoString)) :
    List benchmarkRun → σ → Exec σ
  | [], w => .done w
  | b :: rest, w =>
    (pb b).bind fun r =>
      match r.2 with
      | some line => printRuns env pb rest (env.write w line)
      | none => printRuns env pb rest w

/-- The loop `for _, bs := range prevParentRun.benchmarks { ... }`, the map
taken in the order of its list. -/
def printAll {σ : Type} (env : LogTools σ)
    (pb : benchmarkRun → Exec (benchmarkRun × Option GoString)) :
    List (GoString × benchmarkRunSlice) → σ → Exec σ
  | [], w => .done w
  | e :: rest, w => (printRuns env pb e.2 w).bind fun w1 => printAll env pb rest w1

/-- The loop `for _, p := range set.relPackagePaths` of `cmdLog.run`, over the
package paths not yet visited: the results kept from the previous iteration
are printed, or, when there are none, `set.GetBenchmarks(commitId, ...)` is
called; of its errors only a `TestFailedError` is passed over. -/
def packageLoop {σ : Type} (env : LogTools σ) (l : cmdLog) (set : packageSet)
    (commitId : GoString) (parentRun prevParentRun : Option commitTestRun) :
    List GoString → RunState σ → Exec (RunState σ × Option BenchError)
  | [], st => .done (st, none)
  | p :: rest, st =>
    match prevParentRun with
    | some prev =>
      (printAll env (printBenchmark env.pr l parentRun p) prev.benchmarks st.world).bind fun w =>
        packageLoop env l set commitId parentRun prevParentRun rest { st with world := w }
    | none =>
      (env.getBenchmarks st.world set commitId l.benchRegex
          (some (printBenchmark env.pr l parentRun p))).bind fun r =>
        let st1 : RunState σ := { st with world := r.1, fetched := st.fetched ++ [commitId] }
        match r.2 with
        | .error (.testFailed _) =>
          packageLoop env l set commitId parentRun prevParentRun rest st1
        | .error e => .done (st1, some e)
        | .ok _ => packageLoop env l set commitId parentRun prevParentRun rest st1

/-- The `for` loop of `cmdLog.run`, from the read of the parent id on.
`reader` is the text of `git log` not yet read. The fuel bounds the
iterations; every iteration but the last reads at least one character, so
the length of the text plus one suffices. -/
def runLoop {σ : Type} (env : LogTools σ) (l : cmdLog) (set : packageSet) :
    Nat → GoString → GoString → Bool → Option commitTestRun → RunState σ →
      Exec (RunState σ × Option RunError)
  | 0, _, _, _, _, _ => .diverged
  | fuel + 1, commitId, reader, first, prevParentRun, st =>
    let parentCommitId := trimSuffixNewline (readString reader).1
    let w1 := if first then st.world else env.write st.world "\n".toList
    match env.showCommit w1 set commitId with
    | (w2, some e) =>
      .done ({ st with world := w2, shown := st.shown ++ [commitId] }, some (.git e))
    | (w2, none) =>
      let st1 : RunState σ :=
        { st with world := env.write w2 "\n".toList, shown := st.shown ++ [commitId] }
      (parentFetch env l set parentCommitId st1).bind fun pf =>
        match pf.2 with
        | .error e => .done (pf.1, some (.bench e))
        | .ok parentRun =>
          (packageLoop env l set commitId parentRun prevParentRun set.relPackagePaths pf.1).bind
            fun pl =>
              match pl.2 with
              | some e => .done (pl.1, some (.bench e))
              | none =>
                if parentCommitId.isEmpty then .done (pl.1, none)
                else runLoop env l set fuel parentCommitId (readString reader).2.2 false
                  parentRun pl.1

/-- The method `cmdLog.run`, started in the world `w`. -/
def cmdLog.run {σ : Type} (env : LogTools σ) (l : cmdLog) (w : σ) :
    Exec (RunState σ × Option RunError) :=
  (openPackageSet env.tools l.packages).bind fun opened =>
    match opened with
    | .error e => .done ({ world := w, fetched := [], shown := [] }, some (.package e))
    | .ok set =>
      let logArgs : List GoString :=
        if l.revisionRange.isEmpty then ["log".toList, "--format=%H".toList]
        else ["log".toList, "--format=%H".toList, l.revisionRange]
      match env.gitLog set logArgs with
      | .error e => .done ({ world := w, fetched := [], shown := [] }, some (.git e))
      | .ok text =>
        if (readString text).2.1 then .done ({ world := w, fetched := [], shown := [] }, none)
        else
          runLoop env l set (text.length + 1) (trimSuffixNewline (readString text).1)
            (readString text).2.2 true none { world := w, fetched := [], shown := [] }

/-- The tools of `cmdLog.run` over the state of snapshot.go: what is written
is appended to the output of the state, and `set.GetBenchmarks` is the one of
package.go. -/
def machineLogTools (env : Harness) (removeAll : GoString → Option GoString) (tools : Tools)
    (gitLog : packageSet → List GoString → Except GoString GoString)
    (gitShow : packageSet → GoString → GoString × Option GoString) (pr : Printing) :
    LogTools Machine :=
  { tools := tools,
    gitLog := gitLog,
    showCommit := fun st set c =>
      ({ st with out := st.out ++ [(gitShow set c).1] }, (gitShow set c).2),
    write := fun st text => { st with out := st.out ++ [text] },
    getBenchmarks := fun st set revision benchRegex cb =>
      packageSet.GetBenchmarks env removeAll st set revision benchRegex cb,
    pr := pr }

/-- The text that `git log --format=%H` writes for a list of commits. -/
def logText : List GoString → GoString
  | [] => []
  | c :: cs => c ++ '\n' :: logText cs

/-! ### Sample traversal -/

/-- A fetch that fails with `e` for the revision `rev` and for no other. -/
def failingAt (rev : String) (e : BenchError) : GoString → Option BenchError :=
  fun r => if r = rev.toList then some e else none

/-- Tools over a world that is the list of the texts written: the given tools
of package.go, the log `c1`, `c2`, `c3`, every commit can be shown, and
`set.GetBenchmarks` gives `BenchmarkA` at 100 ns/op for package `.`, except
for the revisions for which `failure` gives an error. -/
def sampleLogTools (tools : Tools) (failure : GoString → Option BenchError) :
    LogTools (List GoString) :=
  { tools := tools,
    gitLog := fun _ _ => .ok "c1\nc2\nc3\n".toList,
    showCommit := fun w _ c => (w ++ ["commit ".toList ++ c], none),
    write := fun w text => w ++ [text],
    getBenchmarks := fun w _ revision _ _ =>
      match failure revision with
      | some e => .done (w, .error e)
      | none => .done (w, .ok [(".".toList, [runA])]),
    pr := plainPrinting }

/-- The log command for the packages `x/r` and `x` with the default flags. -/
def nestedLog : cmdLog :=
  { packages := ["x/r".toList, "x".toList], benchRegex := ".".toList, revisionRange := [],
    nsPerOpThreshold := IEEE.ofNat 11 52 2 }

/-- The error of the failing sample harness. -/
def sampleTestFailed : BenchError := .testFailed { StderrOutput := "FAIL".toList }

/-- An error of a fetch that is not a `TestFailedError`: the harness could
not be started. -/
def sampleProcError : BenchError := .proc "fork/exec: resource temporarily unavailable".toList

/-- The tools of `cmdLog.run` over the sample harness: the given tools of
package.go and the log `c1`, `c2`, both commits with the same tree id. -/
def sampleMachineLogTools (tools : Tools) : LogTools Machine :=
  machineLogTools sampleHarness (fun _ => none) tools
    (fun _ _ => .ok "c1\nc2\n".toList) (fun _ c => ("commit ".toList ++ c, none)) plainPrinting

/-- The state before anything has happened. -/
def blankMachine : Machine := { heap := emptyHeap, disk := [], ran := [], out := [] }

/-! ## Theorems -/

set_option exponentiation.threshold 4096

/-! ### The search loop -/

/-- Specification of the loop for a probe that is monotone on `[0, n)`. -/
theorem searchLoop_spec (f : Nat → Exec Bool) (p : Nat → Bool) (n : Nat)
    (hf : ∀ k, k < n → f k = .done (p k))
    (hmono : ∀ a b, a ≤ b → b < n → p a = true → p b = true) :
    ∀ fuel i j, j - i ≤ fuel → i ≤ j → j ≤ n →
      (∀ k, k < i → p k = false) → (∀ k, j ≤ k → k < n → p k = true) →
      ∃ r, searchLoop f fuel i j = .done r ∧ r ≤ n ∧
        (∀ k, k < r → p k = false) ∧ (∀ k, r ≤ k → k < n → p k = true) := by
  intro fuel
  induction fuel with
  | zero =>
    intro i j hfuel hij hjn hlo hhi
    have hji : j = i := by omega
    subst hji
    exact ⟨j, rfl, hjn, hlo, hhi⟩
  | succ fuel ih =>
    intro i j hfuel hij hjn hlo hhi
    unfold searchLoop
    by_cases hlt : i < j
    · have hh : (i + j) / 2 < n := by omega
      simp only [hlt, if_true, hf _ hh]
      cases hp : p ((i + j) / 2) with
      | false =>
        simp only []
        apply ih
        · omega
        · omega
        · exact hjn
        · intro k hk
          by_contra hne
          have hk1 : p k = true := by simpa using hne
          have := hmono k ((i + j) / 2) (by omega) hh hk1
          rw [hp] at this
          exact Bool.noConfusion this
        · exact hhi
      | true =>
        simp only []
        apply ih
        · omega
        · omega
        · omega
        · exact hlo
        · intro k hk hkn
          exact hmono _ k hk hkn hp
    · have hji : j = i := by omega
      subst hji
      simp only [hlt, if_false]
      exact ⟨j, rfl, hjn, hlo, hhi⟩

/-- The fuel does not matter once it covers the interval: with `j - i` units
or more the loop gives one and the same result, so `sortSearch` never stops
for lack of fuel. -/
theorem searchLoop_fuel (f : Nat → Exec Bool) :
    ∀ fuel1 fuel2 i j, j - i ≤ fuel1 → j - i ≤ fuel2 →
      searchLoop f fuel1 i j = searchLoop f fuel2 i j := by
  intro fuel1
  induction fuel1 with
  | zero =>
    intro fuel2 i j h1 _
    have hnot : ¬ i < j := by omega
    cases fuel2 with
    | zero => rfl
    | succ m => simp only [searchLoop, hnot, if_false]
  | succ n ih =>
    intro fuel2 i j h1 h2
    cases fuel2 with
    | zero =>
      have hnot : ¬ i < j := by omega
      simp only [searchLoop, hnot, if_false]
    | succ m =>
      by_cases hlt : i < j
      · simp only [searchLoop, hlt, if_true]
        cases f ((i + j) / 2) with
        | panicked => rfl
        | diverged => rfl
        | done b =>
          cases b with
          | false => exact ih m ((i + j) / 2 + 1) j (by omega) (by omega)
          | true => exact ih m i ((i + j) / 2) (by omega) (by omega)
      · simp only [searchLoop, hlt, if_false]

/-- The loop of `sort.Search` never reports divergence when the probe does
not: the fuel `n` of `sortSearch` covers the interval `[0, n)`. -/
theorem sortSearch_fuel (f : Nat → Exec Bool) (n extra : Nat) :
    sortSearch n f = searchLoop f (n + extra) 0 n :=
  searchLoop_fuel f n (n + extra) 0 n (by omega) (by omega)

/-! ### Search, Find and Add on a name-sorted slice -/

/-- On a slice with non-decreasing names `Search` returns the lowest index
whose name is `≥ name` (the length when there is none), without panicking. -/
theorem Search_spec (s : benchmarkRunSlice) (name : GoString) (hs : NameSorted s) :
    ∃ r, Search s name = .done r ∧ r ≤ s.length ∧
      (∀ k (hk : k < s.length), k < r → s[k].Name < name) ∧
      (∀ k (hk : k < s.length), r ≤ k → name ≤ s[k].Name) := by
  have hs1 : ∀ (a b : Nat) (ha : a < s.length) (hb : b < s.length), a ≤ b →
      s[a].Name ≤ s[b].Name := by
    intro a b ha hb hab
    rcases Nat.eq_or_lt_of_le hab with h | h
    · subst h; exact le_rfl
    · have h2 := List.pairwise_map.mp hs
      exact (List.pairwise_iff_getElem.mp h2) a b ha hb h
  let p : Nat → Bool := fun k =>
    match s[k]? with
    | some r => decide (name ≤ r.Name)
    | none => false
  have hp : ∀ k (hk : k < s.length), p k = decide (name ≤ s[k].Name) := by
    intro k hk
    simp only [p, List.getElem?_eq_getElem hk]
  have hf : ∀ k, k < s.length → searchProbe s name k = .done (p k) := by
    intro k hk
    simp only [searchProbe, p, List.getElem?_eq_getElem hk]
  have hmono : ∀ a b, a ≤ b → b < s.length → p a = true → p b = true := by
    intro a b hab hb ha
    have ha1 : a < s.length := by omega
    rw [hp a ha1] at ha
    rw [hp b hb]
    have h1 : name ≤ s[a].Name := of_decide_eq_true ha
    exact decide_eq_true (le_trans h1 (hs1 a b ha1 hb hab))
  obtain ⟨r, hr, hrn, hlo, hhi⟩ :=
    searchLoop_spec (searchProbe s name) p s.length hf hmono s.length 0 s.length
      (by omega) (by omega) le_rfl (by intro k hk; omega) (by intro k h1 h2; omega)
  refine ⟨r, hr, hrn, ?_, ?_⟩
  · intro k hk hkr
    have h1 := hlo k hkr
    rw [hp k hk] at h1
    have h2 : ¬ name ≤ s[k].Name := of_decide_eq_false h1
    exact lt_of_not_le h2
  · intro k hk hrk
    have h1 := hhi k hrk hk
    rw [hp k hk] at h1
    exact of_decide_eq_true h1

/-- Strictly increasing names are in particular non-decreasing. -/
theorem StrictSorted.nameSorted {s : benchmarkRunSlice} (hs : StrictSorted s) : NameSorted s :=
  List.Pairwise.imp (fun h => le_of_lt h) hs

/-- Insertion of a run at the searched index keeps the names strictly
increasing when the name is new. -/
theorem Add_fresh (s : benchmarkRunSlice) (b : benchmarkRun)
    (hs : StrictSorted s) (hnew : b.Name ∉ names s) :
    ∃ s1, Add s b = .done (s1, none) ∧ StrictSorted s1 ∧ s1.Perm (b :: s) ∧
      s1.length = s.length + 1 := by
  obtain ⟨r, hr, hrn, hlo, hhi⟩ := Search_spec s b.Name hs.nameSorted
  have hne : ∀ k (hk : k < s.length), s[k].Name ≠ b.Name := by
    intro k hk heq
    apply hnew
    rw [← heq]
    exact List.mem_map_of_mem _ (List.getElem_mem hk)
  have hadd : Add s b = .done (s.take r ++ ([b] ++ s.drop r), none) := by
    unfold Add
    rw [hr]
    simp only [Exec.bind]
    cases hsr : s[r]? with
    | none => rfl
    | some x =>
      obtain ⟨hk, hx⟩ := List.getElem?_eq_some.mp hsr
      have := hne r hk
      rw [hx] at this
      simp only [this, if_false]
  refine ⟨_, hadd, ?_, ?_, ?_⟩
  · have hs2 : StrictSorted (s.take r ++ s.drop r) := by rw [List.take_append_drop]; exact hs
    unfold StrictSorted names at hs2 ⊢
    rw [List.map_append, List.pairwise_append] at hs2
    obtain ⟨h1, h2, h3⟩ := hs2
    rw [List.map_append, List.map_append, List.pairwise_append]
    refine ⟨h1, ?_, ?_⟩
    · rw [List.pairwise_append]
      refine ⟨List.pairwise_singleton _ _, h2, ?_⟩
      intro a ha c hc
      simp only [List.map_cons, List.map_nil, List.mem_singleton] at ha
      subst ha
      obtain ⟨x, hx, rfl⟩ := List.mem_map.mp hc
      obtain ⟨i, hi, rfl⟩ := List.mem_drop_iff_getElem.mp hx
      have hlt : r + i < s.length := by omega
      exact lt_of_le_of_ne (hhi (r + i) hlt (by omega)) (Ne.symm (hne (r + i) hlt))
    · intro a ha c hc
      obtain ⟨x, hx, rfl⟩ := List.mem_map.mp ha
      obtain ⟨i, hi, rfl⟩ := List.mem_take_iff_getElem.mp hx
      have hir : i < r := lt_of_lt_of_le hi (min_le_left _ _)
      have hil : i < s.length := lt_of_lt_of_le hi (min_le_right _ _)
      rcases List.mem_append.mp hc with hc1 | hc2
      · simp only [List.map_cons, List.map_nil, List.mem_singleton] at hc1
        subst hc1
        exact hlo i hil hir
      · exact h3 _ (List.mem_map_of_mem _ hx) _ hc2
  · have h1 : (s.take r ++ ([b] ++ s.drop r)).Perm (b :: (s.take r ++ s.drop r)) := by
      simpa using (@List.perm_middle _ b (s.take r) (s.drop r))
    rwa [List.take_append_drop] at h1
  · simp only [List.length_append, List.length_take, List.length_drop, List.length_cons,
      List.length_nil]
    omega

/-- On a slice with non-decreasing names `Add` of a name that is present
reports the error and returns the slice as it was. -/
theorem Add_present (s : benchmarkRunSlice) (b : benchmarkRun)
    (hs : NameSorted s) (hdup : b.Name ∈ names s) :
    Add s b = .done (s, some (addErrorText b.Name)) := by
  obtain ⟨r, hr, hrn, hlo, hhi⟩ := Search_spec s b.Name hs
  obtain ⟨x, hx, hxn⟩ := List.mem_map.mp hdup
  obtain ⟨k, hk, rfl⟩ := List.mem_iff_getElem.mp hx
  have hrk : r ≤ k := by
    by_contra hlt
    have := hlo k hk (by omega)
    rw [hxn] at this
    exact lt_irrefl _ this
  have hrl : r < s.length := by omega
  have h1 : b.Name ≤ s[r].Name := hhi r hrl le_rfl
  have h2 : s[r].Name ≤ s[k].Name := by
    rcases Nat.eq_or_lt_of_le hrk with h | h
    · subst h; exact le_rfl
    · exact (List.pairwise_iff_getElem.mp (List.pairwise_map.mp hs)) r k hrl hk h
  have h3 : s[r].Name = b.Name := le_antisymm (hxn ▸ h2) h1
  unfold Add
  rw [hr]
  simp only [Exec.bind, List.getElem?_eq_getElem hrl, h3, if_true]

/-- On a slice with strictly increasing names `Find` of the name of a member
returns that member. -/
theorem Find_mem (s : benchmarkRunSlice) (b : benchmarkRun)
    (hs : StrictSorted s) (hb : b ∈ s) : Find s b.Name = .done (some b) := by
  obtain ⟨r, hr, hrn, hlo, hhi⟩ := Search_spec s b.Name hs.nameSorted
  obtain ⟨k, hk, rfl⟩ := List.mem_iff_getElem.mp hb
  have hrk : r ≤ k := by
    by_contra hlt
    exact lt_irrefl _ (hlo k hk (by omega))
  have hrl : r < s.length := by omega
  have hkr : r = k := by
    rcases Nat.eq_or_lt_of_le hrk with h | h
    · exact h
    · exfalso
      have h1 : s[k].Name ≤ s[r].Name := hhi r hrl le_rfl
      have h2 : s[r].Name < s[k].Name :=
        (List.pairwise_iff_getElem.mp (List.pairwise_map.mp hs)) r k hrl hk h
      exact lt_irrefl _ (lt_of_le_of_lt h1 h2)
  subst hkr
  unfold Find
  rw [hr]
  simp only [Exec.bind, List.getElem?_eq_getElem hrl, if_true]

/-- The method `Find` returns `nil` for a name that no run of the slice carries. -/
theorem Find_not_mem (s : benchmarkRunSlice) (name : GoString)
    (hs : NameSorted s) (hn : name ∉ names s) : Find s name = .done none := by
  obtain ⟨r, hr, hrn, hlo, hhi⟩ := Search_spec s name hs
  unfold Find
  rw [hr]
  simp only [Exec.bind]
  cases hsr : s[r]? with
  | none => rfl
  | some x =>
    obtain ⟨hk, hx⟩ := List.getElem?_eq_some.mp hsr
    have hne : x.Name ≠ name := by
      intro heq
      apply hn
      rw [← heq, ← hx]
      exact List.mem_map_of_mem _ (List.getElem_mem hk)
    simp only [hne, if_false]

/-- Adding runs with fresh, pairwise distinct names succeeds and yields a
strictly sorted slice holding the old and the new runs. -/
theorem addAll_fresh (bs : List benchmarkRun) :
    ∀ s : benchmarkRunSlice, StrictSorted s → (names bs).Nodup →
      (∀ b ∈ bs, b.Name ∉ names s) →
      ∃ s1, addAll s bs = .done (s1, none) ∧ StrictSorted s1 ∧ s1.Perm (bs ++ s) := by
  induction bs with
  | nil =>
    intro s hs _ _
    exact ⟨s, rfl, hs, by simp⟩
  | cons b bs ih =>
    intro s hs hnd hfresh
    obtain ⟨s1, h1, hs1, hp1, _⟩ := Add_fresh s b hs (hfresh b (List.mem_cons_self _ _))
    have hnd2 : (names bs).Nodup ∧ b.Name ∉ names bs := by
      unfold names at hnd ⊢
      rw [List.map_cons, List.nodup_cons] at hnd
      exact ⟨hnd.2, hnd.1⟩
    have hfresh1 : ∀ c ∈ bs, c.Name ∉ names s1 := by
      intro c hc hmem
      have hmem2 : c.Name ∈ names (b :: s) := (hp1.map _).mem_iff.mp hmem
      unfold names at hmem2
      rw [List.map_cons, List.mem_cons] at hmem2
      rcases hmem2 with h | h
      · apply hnd2.2
        rw [← h]
        exact List.mem_map_of_mem _ hc
      · exact hfresh c (List.mem_cons_of_mem _ hc) h
    obtain ⟨s2, h2, hs2, hp2⟩ := ih s1 hs1 hnd2.1 hfresh1
    refine ⟨s2, ?_, hs2, ?_⟩
    · simp only [addAll, h1]
      exact h2
    · refine hp2.trans ?_
      refine ((List.Perm.append_left bs hp1).trans ?_)
      simp

/-- C1. On a slice with strictly increasing names, `Add` of a run whose name
is not in the slice returns no error; the slice it leaves has strictly
increasing names, is a permutation of the old runs plus the new one, and is
one longer. -/
theorem C1_Add_new_name_keeps_sorted (s : benchmarkRunSlice) (b : benchmarkRun)
    (hs : StrictSorted s) (hnew : b.Name ∉ names s) :
    ∃ s1, Add s b = .done (s1, none) ∧ StrictSorted s1 ∧ s1.Perm (b :: s) ∧
      s1.length = s.length + 1 ∧ (∀ r, r ∈ s → r ∈ s1) ∧ b ∈ s1 := by
  obtain ⟨s1, h1, h2, h3, h4⟩ := Add_fresh s b hs hnew
  refine ⟨s1, h1, h2, h3, h4, ?_, ?_⟩
  · intro r hr
    exact h3.mem_iff.mpr (List.mem_cons_of_mem _ hr)
  · exact h3.mem_iff.mpr (List.mem_cons_self _ _)

/-- C2. On a name-sorted slice, `Add` of a run whose name already occurs
returns an error and leaves the slice unchanged. -/
theorem C2_Add_duplicate_fails_unchanged (s : benchmarkRunSlice) (b : benchmarkRun)
    (hs : NameSorted s) (hdup : b.Name ∈ names s) :
    ∃ e, Add s b = .done (s, some e) :=
  ⟨addErrorText b.Name, Add_present s b hs hdup⟩

/-- C3. After runs with pairwise distinct names are added one by one to the
empty slice, `Find` returns for each inserted name the run inserted under it,
and `nil` for every name that was not inserted. -/
theorem C3_Find_after_inserts (bs : List benchmarkRun) (hnd : (names bs).Nodup) :
    ∃ s, addAll [] bs = .done (s, none) ∧
      (∀ b ∈ bs, Find s b.Name = .done (some b)) ∧
      (∀ name, name ∉ names bs → Find s name = .done none) := by
  obtain ⟨s, h1, hs, hp⟩ := addAll_fresh bs [] List.Pairwise.nil hnd
    (by intro b _ h; simp [names] at h)
  rw [List.append_nil] at hp
  refine ⟨s, h1, ?_, ?_⟩
  · intro b hb
    exact Find_mem s b hs (hp.mem_iff.mpr hb)
  · intro name hn
    apply Find_not_mem s name hs.nameSorted
    intro hmem
    exact hn ((hp.map _).mem_iff.mp hmem)

/-- Witness of C1: inserting `BenchmarkB` between `BenchmarkA` and `BenchmarkC`. -/
theorem C1_witness :
    ∃ s1, Add [sampleRun "BenchmarkA 1 2 ns/op" "BenchmarkA" 1,
               sampleRun "BenchmarkC 1 2 ns/op" "BenchmarkC" 1]
              (sampleRun "BenchmarkB 5 7 ns/op" "BenchmarkB" 5) = .done (s1, none) ∧
      StrictSorted s1 ∧
      s1.Perm (sampleRun "BenchmarkB 5 7 ns/op" "BenchmarkB" 5 ::
        [sampleRun "BenchmarkA 1 2 ns/op" "BenchmarkA" 1,
         sampleRun "BenchmarkC 1 2 ns/op" "BenchmarkC" 1]) ∧
      s1.length = 2 + 1 ∧
      (∀ r, r ∈ [sampleRun "BenchmarkA 1 2 ns/op" "BenchmarkA" 1,
                 sampleRun "BenchmarkC 1 2 ns/op" "BenchmarkC" 1] → r ∈ s1) ∧
      sampleRun "BenchmarkB 5 7 ns/op" "BenchmarkB" 5 ∈ s1 :=
  C1_Add_new_name_keeps_sorted _ _ (by decide) (by decide)

/-- Witness of C2: adding `BenchmarkC` a second time. -/
theorem C2_witness :
    ∃ e, Add [sampleRun "BenchmarkA 1 2 ns/op" "BenchmarkA" 1,
              sampleRun "BenchmarkC 1 2 ns/op" "BenchmarkC" 1]
             (sampleRun "BenchmarkC 9 9 ns/op" "BenchmarkC" 9) =
      .done ([sampleRun "BenchmarkA 1 2 ns/op" "BenchmarkA" 1,
              sampleRun "BenchmarkC 1 2 ns/op" "BenchmarkC" 1], some e) :=
  C2_Add_duplicate_fails_unchanged _ _ (by decide) (by decide)

/-- Witness of C3: three runs added out of order. -/
theorem C3_witness :
    ∃ s, addAll [] [sampleRun "BenchmarkC 1 2 ns/op" "BenchmarkC" 1,
                    sampleRun "BenchmarkA 1 2 ns/op" "BenchmarkA" 1,
                    sampleRun "BenchmarkB 5 7 ns/op" "BenchmarkB" 5] = .done (s, none) ∧
      (∀ b ∈ [sampleRun "BenchmarkC 1 2 ns/op" "BenchmarkC" 1,
              sampleRun "BenchmarkA 1 2 ns/op" "BenchmarkA" 1,
              sampleRun "BenchmarkB 5 7 ns/op" "BenchmarkB" 5],
        Find s b.Name = .done (some b)) ∧
      (∀ name, name ∉ names [sampleRun "BenchmarkC 1 2 ns/op" "BenchmarkC" 1,
              sampleRun "BenchmarkA 1 2 ns/op" "BenchmarkA" 1,
              sampleRun "BenchmarkB 5 7 ns/op" "BenchmarkB" 5] →
        Find s name = .done none) :=
  C3_Find_after_inserts _ (by decide)

/-- Three inserts out of order end in name order. -/
theorem addAll_sample : addAll [] [sampleRun "BenchmarkC 1 2 ns/op" "BenchmarkC" 1,
                    sampleRun "BenchmarkA 1 2 ns/op" "BenchmarkA" 1,
                    sampleRun "BenchmarkB 5 7 ns/op" "BenchmarkB" 5] =
    .done ([sampleRun "BenchmarkA 1 2 ns/op" "BenchmarkA" 1,
                    sampleRun "BenchmarkB 5 7 ns/op" "BenchmarkB" 5,
                    sampleRun "BenchmarkC 1 2 ns/op" "BenchmarkC" 1], none) := by decide

/-- The loop of `sort.Search` returns whenever the probe does on `[0, n)`. -/
theorem searchLoop_total (f : Nat → Exec Bool) (n : Nat)
    (hf : ∀ k, k < n → ∃ b, f k = .done b) :
    ∀ fuel i j, j ≤ n → ∃ r, searchLoop f fuel i j = .done r := by
  intro fuel
  induction fuel with
  | zero => intro i j _; exact ⟨i, rfl⟩
  | succ fuel ih =>
    intro i j hj
    by_cases hlt : i < j
    · obtain ⟨b, hb⟩ := hf ((i + j) / 2) (by omega)
      simp only [searchLoop, hlt, if_true, hb]
      cases b with
      | false => exact ih _ _ hj
      | true => exact ih _ _ (by omega)
    · exact ⟨i, by simp only [searchLoop, hlt, if_false]⟩

/-- The method `Find` returns on every slice, sorted or not. -/
theorem Find_total (s : benchmarkRunSlice) (name : GoString) :
    ∃ r, Find s name = .done r := by
  have hf : ∀ k, k < s.length → ∃ b, searchProbe s name k = .done b := by
    intro k hk
    exact ⟨decide (name ≤ s[k].Name), by simp only [searchProbe, List.getElem?_eq_getElem hk]⟩
  obtain ⟨i, hi⟩ := searchLoop_total (searchProbe s name) s.length hf s.length 0 s.length le_rfl
  have hs : Search s name = .done i := hi
  unfold Find
  rw [hs]
  simp only [Exec.bind]
  cases s[i]? with
  | none => exact ⟨_, rfl⟩
  | some r =>
    by_cases h : r.Name = name
    · exact ⟨some r, by simp only [h, if_true]⟩
    · exact ⟨none, by simp only [h, if_false]⟩

/-- The method `Add` returns on every slice, sorted or not. -/
theorem Add_total (s : benchmarkRunSlice) (b : benchmarkRun) : ∃ r, Add s b = .done r := by
  have hf : ∀ k, k < s.length → ∃ x, searchProbe s b.Name k = .done x := by
    intro k hk
    exact ⟨decide (b.Name ≤ s[k].Name), by simp only [searchProbe, List.getElem?_eq_getElem hk]⟩
  obtain ⟨i, hi⟩ := searchLoop_total (searchProbe s b.Name) s.length hf s.length 0 s.length le_rfl
  have hs : Search s b.Name = .done i := hi
  unfold Add
  rw [hs]
  simp only [Exec.bind]
  cases s[i]? with
  | none => exact ⟨_, rfl⟩
  | some r =>
    by_cases h : r.Name = b.Name
    · exact ⟨(s, some (addErrorText b.Name)), by simp only [h, if_true]⟩
    · exact ⟨(s.take i ++ ([b] ++ s.drop i), none), by simp only [h, if_false]⟩

/-! ### parseBenchmarkRun, String and Annotate -/

/-- A run that `parseBenchmarkRun` returns keeps the line and has no delta yet. -/
theorem parseBenchmarkRun_fields (line : GoString) (r : benchmarkRun)
    (h : parseBenchmarkRun line = .done (some r)) :
    r.Line = line ∧ r.NsPerOpChange = IEEE.zero 8 23 false := by
  unfold parseBenchmarkRun at h
  split at h
  · cases h
  · split at h
    · cases h
    · split at h
      · cases h
      · injection h with h
        injection h with h
        subst h
        exact ⟨rfl, rfl⟩

/-- C4. When `parseBenchmarkRun` returns a run for a line, `String()` of that
run, before any annotation, is the line itself, whatever the colour setting. -/
theorem C4_parse_then_String_is_line (pr : Printing) (line : GoString) (r : benchmarkRun)
    (h : parseBenchmarkRun line = .done (some r)) : r.String pr = line := by
  obtain ⟨h1, h2⟩ := parseBenchmarkRun_fields line r h
  have hz : IEEE.eq (IEEE.zero 8 23 false) (IEEE.zero 8 23 false) = true := by decide
  unfold benchmarkRun.String
  rw [h2, hz, h1]
  rfl

/-- Witness of C4: a line as `go test -bench` prints it, with a parallelism
suffix, tabs and padding. -/
theorem C4_witness :
    benchmarkRun.String plainPrinting
      { Line := "BenchmarkFoo-8   \t 1000000\t      1234 ns/op".toList,
        Name := "BenchmarkFoo".toList, N := 1000000, NsPerOp := IEEE.ofNat 8 23 1234,
        NsPerOpChange := IEEE.zero 8 23 false } =
      "BenchmarkFoo-8   \t 1000000\t      1234 ns/op".toList :=
  C4_parse_then_String_is_line plainPrinting _ _ (by decide)

/-- C5. Two lines on which `parseBenchmarkRun` panics instead of returning
`nil`: the expression accepts an empty ns/op number (`\d*(\.\d+)?`), on which
`strconv.ParseFloat` fails, and an iteration count beyond the range of `int`,
on which `strconv.Atoi` fails; both errors are turned into `panic(err)`. -/
theorem C5_parseBenchmarkRun_panics :
    parseBenchmarkRun "BenchmarkX 1  ns/op".toList = .panicked ∧
    parseBenchmarkRun "BenchmarkX 99999999999999999999 1 ns/op".toList = .panicked := by
  decide

/-- Negation keeps the class and the magnitude of a value. -/
theorem IEEE.neg_fields {eb fb : Nat} (x : IEEE eb fb) :
    IEEE.isNaN (IEEE.neg x) = IEEE.isNaN x ∧ IEEE.isInf (IEEE.neg x) = IEEE.isInf x ∧
    IEEE.mant (IEEE.neg x) = IEEE.mant x ∧ IEEE.exp2 (IEEE.neg x) = IEEE.exp2 x :=
  ⟨rfl, rfl, rfl, rfl⟩

/-- A finite value minus itself is `+0`. -/
theorem IEEE.sub_self {eb fb : Nat} (x : IEEE eb fb)
    (hnan : IEEE.isNaN x = false) (hinf : IEEE.isInf x = false) :
    IEEE.sub x x = IEEE.zero eb fb false := by
  obtain ⟨h1, h2, h3, h4⟩ := IEEE.neg_fields x
  have hs : IEEE.scaledInt x (IEEE.exp2 x) + IEEE.scaledInt (IEEE.neg x) (IEEE.exp2 x) = 0 := by
    unfold IEEE.scaledInt
    rw [h3, h4]
    cases hsg : x.sign <;> simp [IEEE.neg, hsg]
  unfold IEEE.sub IEEE.add
  rw [h1, h2, hnan, hinf, h4, min_self]
  simp only [Bool.or_self, Bool.false_eq_true, if_false, hs, if_true]
  cases hsg : x.sign <;> simp [IEEE.neg, hsg]

/-- Rounding the quotient `0 / d` gives the zero of the given sign. -/
theorem IEEE.roundRatio_zero (eb fb : Nat) (sign : Bool) (d : Nat) :
    IEEE.roundRatio eb fb sign 0 d = IEEE.zero eb fb sign := by
  unfold IEEE.roundRatio
  rw [if_pos rfl]

/-- At equal, finite, non-zero times the formula of `Annotate` itself gives a
zero, so the special case `NsPerOpChange = 0` agrees with the formula (up to
the sign of the zero). -/
theorem Annotate_formula_at_equal_times (x : float32)
    (hnan : IEEE.isNaN x = false) (hinf : IEEE.isInf x = false)
    (hzero : IEEE.isZero x = false) :
    IEEE.isZero (IEEE.div (IEEE.mul (IEEE.ofNat 8 23 100) (IEEE.sub x x)) x) = true := by
  rw [IEEE.sub_self x hnan hinf]
  have hmul : IEEE.mul (IEEE.ofNat 8 23 100) (IEEE.zero 8 23 false) = IEEE.zero 8 23 false := by
    decide
  rw [hmul]
  have hz1 : IEEE.isNaN (IEEE.zero 8 23 false) = false := by decide
  have hz2 : IEEE.isInf (IEEE.zero 8 23 false) = false := by decide
  have hz3 : IEEE.mant (IEEE.zero 8 23 false) = 0 := by decide
  unfold IEEE.div
  rw [hz1, hz2, hz3, hnan, hinf, hzero]
  simp only [Bool.or_self, Bool.false_eq_true, if_false, Nat.zero_mul, IEEE.roundRatio_zero,
    ite_self]
  cases x.sign <;> decide

/-- Times that compare equal, the second one not a zero, are the same value,
and it is not a NaN. -/
theorem IEEE.eq_nonzero {eb fb : Nat} (x y : IEEE eb fb)
    (heq : IEEE.eq x y = true) (hy : IEEE.isZero y = false) :
    x = y ∧ IEEE.isNaN y = false := by
  unfold IEEE.eq at heq
  rw [hy] at heq
  simp only [Bool.and_false, Bool.or_false, Bool.and_eq_true, Bool.not_eq_true',
    decide_eq_true_eq] at heq
  exact ⟨heq.2, heq.1.2⟩

/-- C6. `Annotate` changes no field but `NsPerOpChange`; it sets that field
to `+0` when the two times compare equal and otherwise to the `float32` value
of `100 * (r.NsPerOp - prev.NsPerOp) / prev.NsPerOp`; for a finite non-zero
baseline the formula itself gives a zero at equal times; 100 against 100
gives 0, 150 against 100 gives 50, 50 against 100 gives -50, 200 against 100
gives 100. -/
theorem C6_Annotate_percent_change (r prev : benchmarkRun)
    (hprev : IEEE.isZero prev.NsPerOp = false) :
    (Annotate r prev).1.Line = r.Line ∧ (Annotate r prev).1.Name = r.Name ∧
    (Annotate r prev).1.N = r.N ∧ (Annotate r prev).1.NsPerOp = r.NsPerOp ∧
    (IEEE.eq r.NsPerOp prev.NsPerOp = true →
      (Annotate r prev).1.NsPerOpChange = IEEE.zero 8 23 false) ∧
    (IEEE.eq r.NsPerOp prev.NsPerOp = false →
      (Annotate r prev).1.NsPerOpChange =
        IEEE.div (IEEE.mul (IEEE.ofNat 8 23 100) (IEEE.sub r.NsPerOp prev.NsPerOp))
          prev.NsPerOp) ∧
    (IEEE.eq r.NsPerOp prev.NsPerOp = true → IEEE.isInf prev.NsPerOp = false →
      IEEE.isZero
        (IEEE.div (IEEE.mul (IEEE.ofNat 8 23 100) (IEEE.sub r.NsPerOp prev.NsPerOp))
          prev.NsPerOp) = true) ∧
    (prev.NsPerOp = IEEE.ofNat 8 23 100 →
      (r.NsPerOp = IEEE.ofNat 8 23 100 →
        (Annotate r prev).1.NsPerOpChange = IEEE.zero 8 23 false) ∧
      (r.NsPerOp = IEEE.ofNat 8 23 150 →
        (Annotate r prev).1.NsPerOpChange = IEEE.ofNat 8 23 50) ∧
      (r.NsPerOp = IEEE.ofNat 8 23 50 →
        (Annotate r prev).1.NsPerOpChange = IEEE.neg (IEEE.ofNat 8 23 50)) ∧
      (r.NsPerOp = IEEE.ofNat 8 23 200 →
        (Annotate r prev).1.NsPerOpChange = IEEE.ofNat 8 23 100)) := by
  refine ⟨?_, ?_, ?_, ?_, ?_, ?_, ?_, ?_⟩
  · unfold Annotate; split <;> rfl
  · unfold Annotate; split <;> rfl
  · unfold Annotate; split <;> rfl
  · unfold Annotate; split <;> rfl
  · intro h; unfold Annotate; rw [if_pos h]
  · intro h; unfold Annotate; rw [if_neg (by rw [h]; decide)]
  · intro heq hinf
    obtain ⟨hxy, hnan⟩ := IEEE.eq_nonzero r.NsPerOp prev.NsPerOp heq hprev
    rw [hxy]
    exact Annotate_formula_at_equal_times prev.NsPerOp hnan hinf hprev
  · intro hp
    refine ⟨?_, ?_, ?_, ?_⟩
    · intro hr
      have hc : IEEE.eq r.NsPerOp prev.NsPerOp = true := by rw [hr, hp]; decide
      unfold Annotate; rw [if_pos hc]
    · intro hr
      have hc : ¬ IEEE.eq r.NsPerOp prev.NsPerOp = true := by rw [hr, hp]; decide
      unfold Annotate; rw [if_neg hc, hr, hp]
      show IEEE.div (IEEE.mul (IEEE.ofNat 8 23 100)
        (IEEE.sub (IEEE.ofNat 8 23 150) (IEEE.ofNat 8 23 100))) (IEEE.ofNat 8 23 100) = _
      decide
    · intro hr
      have hc : ¬ IEEE.eq r.NsPerOp prev.NsPerOp = true := by rw [hr, hp]; decide
      unfold Annotate; rw [if_neg hc, hr, hp]
      show IEEE.div (IEEE.mul (IEEE.ofNat 8 23 100)
        (IEEE.sub (IEEE.ofNat 8 23 50) (IEEE.ofNat 8 23 100))) (IEEE.ofNat 8 23 100) = _
      decide
    · intro hr
      have hc : ¬ IEEE.eq r.NsPerOp prev.NsPerOp = true := by rw [hr, hp]; decide
      unfold Annotate; rw [if_neg hc, hr, hp]
      show IEEE.div (IEEE.mul (IEEE.ofNat 8 23 100)
        (IEEE.sub (IEEE.ofNat 8 23 200) (IEEE.ofNat 8 23 100))) (IEEE.ofNat 8 23 100) = _
      decide

/-- Witness of C6: 150 ns/op against a baseline of 100 ns/op. -/
theorem C6_witness :
    (Annotate { Line := "BenchmarkX 1 150 ns/op".toList, Name := "BenchmarkX".toList, N := 1,
                NsPerOp := IEEE.ofNat 8 23 150, NsPerOpChange := IEEE.zero 8 23 false }
              { Line := "BenchmarkX 1 100 ns/op".toList, Name := "BenchmarkX".toList, N := 1,
                NsPerOp := IEEE.ofNat 8 23 100,
                NsPerOpChange := IEEE.zero 8 23 false }).1.NsPerOpChange =
      IEEE.ofNat 8 23 50 :=
  ((C6_Annotate_percent_change
      { Line := "BenchmarkX 1 150 ns/op".toList, Name := "BenchmarkX".toList, N := 1,
        NsPerOp := IEEE.ofNat 8 23 150, NsPerOpChange := IEEE.zero 8 23 false }
      { Line := "BenchmarkX 1 100 ns/op".toList, Name := "BenchmarkX".toList, N := 1,
        NsPerOp := IEEE.ofNat 8 23 100, NsPerOpChange := IEEE.zero 8 23 false }
      (by decide)).2.2.2.2.2.2.2 rfl).2.1 rfl

/-! ### log.go: which runs are printed -/

/-- With a parent run, `printBenchmark` prints the annotated run unless its
signed change, as a `float64`, is below the threshold. -/
theorem printBenchmark_with_parent (pr : Printing) (l : cmdLog) (parent : commitTestRun)
    (p : GoString) (b b1 : benchmarkRun) (h : cmdLog.annotate parent b p = .done b1) :
    printBenchmark pr l (some parent) p b =
      if IEEE.lt (IEEE.convert 11 52 b1.NsPerOpChange) l.nsPerOpThreshold then .done (b1, none)
      else .done (b1, some (b1.String pr ++ "\n".toList)) := by
  simp only [printBenchmark, h, Exec.bind]

/-- C7. With the threshold 2 and a parent run of 100 ns/op, a run of 50 ns/op
is annotated with -50 and not printed, while a run of 150 ns/op is annotated
with +50 and printed: the comparison is on the signed change. -/
theorem C7_speedup_is_not_printed :
    printBenchmark plainPrinting logThreshold2 (some parentAt100) ".".toList
        (timedRun "BenchmarkX 1 50 ns/op" "BenchmarkX" 50) =
      .done ({ timedRun "BenchmarkX 1 50 ns/op" "BenchmarkX" 50 with
                NsPerOpChange := IEEE.neg (IEEE.ofNat 8 23 50) }, none) ∧
    printBenchmark plainPrinting logThreshold2 (some parentAt100) ".".toList
        (timedRun "BenchmarkX 1 150 ns/op" "BenchmarkX" 150) =
      .done ({ timedRun "BenchmarkX 1 150 ns/op" "BenchmarkX" 150 with
                NsPerOpChange := IEEE.ofNat 8 23 50 },
             some "BenchmarkX 1 150 ns/op\tΔ%\n".toList) := by
  decide

/-! ### sandbox.go and snapshot.go: the harness command -/

/-- After `newSandbox` the packages of the sandbox point to the snapshot cell
that `newPackageSetSnapshot` allocated, whose `InitGoPath` is nil and whose
`GoPath` is empty. -/
theorem newSandbox_heap (sys : System) (h0 : Heap) (set : packageSet) (revision : GoString)
    (hgit : (sys.gitTreeId revision).2 = none) :
    ∃ h1, newSandbox sys h0 set revision = .done (h1, .ok h0.sandboxes.length) ∧
      h1.sandboxPackages h0.sandboxes.length =
        set.relPackagePaths.map (fun rpp =>
          { relPackagePath := rpp, PackageSet := .cell h0.cells.length, Cache := none }) ∧
      h1.snapshot (.cell h0.cells.length) =
        some { packageSet := set, Packages := h0.arrays.length,
               TreeId := TrimSpace (sys.gitTreeId revision).1, InitGoPath := none, GoPath := [] } ∧
      (h1.sandboxes[h0.sandboxes.length]?).map (·.goPath) = some [] := by
  unfold newSandbox
  rcases hg : sys.gitTreeId revision with ⟨out, err⟩
  rw [hg] at hgit
  simp only at hgit
  subst hgit
  simp only [newPackageSetSnapshot, List.getElem?_concat_length]
  refine ⟨_, rfl, ?_, ?_, ?_⟩
  · simp only [Heap.sandboxPackages, List.getElem?_concat_length, Option.getD_some]
  · simp only [Heap.snapshot, List.getElem?_concat_length]
  · simp only [List.getElem?_concat_length, Option.map_some']

/-- C8. In the heap that `newSandbox` leaves, for any package set with at
least one package, the command that `RunBenchmarks` and `GetBenchmarkNames`
build for a package of the sandbox has an empty `Env` (no `GOPATH` entry) and
the call leaves the heap as it was, the sandbox not opened: the packages
point to the snapshot whose `InitGoPath` is nil, not to the copy in the
sandbox. -/
theorem C8_harness_command_bypasses_sandbox (sys : System) (h0 : Heap) (set : packageSet)
    (revision benchRegex : GoString)
    (hgit : (sys.gitTreeId revision).2 = none) (hne : set.relPackagePaths ≠ []) :
    ∃ h1 sb, newSandbox sys h0 set revision = .done (h1, .ok sb) ∧
      h1.sandboxPackages sb ≠ [] ∧
      (h1.sandboxes[sb]?).map (·.goPath) = some [] ∧
      ∀ p ∈ h1.sandboxPackages sb,
        RunBenchmarks_command sys h1 p benchRegex =
          .done (h1, .ok
            { Args := ["go".toList, "test".toList, "-run=@".toList,
                "-bench=".toList ++ (if benchRegex.isEmpty then ".".toList else benchRegex),
                Join [set.rootPackageImportPath, p.relPackagePath]],
              Env := [] }) ∧
        GetBenchmarkNames_command sys h1 p =
          .done (h1, .ok
            { Args := ["go".toList, "test".toList, "-run=@".toList, "-bench=.".toList,
                "-benchtime=0".toList, Join [set.rootPackageImportPath, p.relPackagePath]],
              Env := [] }) := by
  obtain ⟨h1, hnew, hpk, hsnap, hgp⟩ := newSandbox_heap sys h0 set revision hgit
  refine ⟨h1, _, hnew, ?_, hgp, ?_⟩
  · rw [hpk]
    intro hnil
    exact hne (List.map_eq_nil_iff.mp hnil)
  · intro p hp
    rw [hpk] at hp
    obtain ⟨rpp, _, rfl⟩ := List.mem_map.mp hp
    constructor
    · simp only [RunBenchmarks_command, packageSetSnapshot.Go, hsnap, List.isEmpty_nil,
        Bool.not_true, Bool.false_eq_true, if_false]
    · simp only [GetBenchmarkNames_command, packageSetSnapshot.Go, hsnap, List.isEmpty_nil,
        Bool.not_true, Bool.false_eq_true, if_false]

/-- Witness of C8: a sandbox over one package at the repository root. -/
theorem C8_witness :
    ∃ h1 sb, newSandbox sampleSystem emptyHeap sampleSet "HEAD~1".toList = .done (h1, .ok sb) ∧
      h1.sandboxPackages sb ≠ [] ∧
      (h1.sandboxes[sb]?).map (·.goPath) = some [] ∧
      ∀ p ∈ h1.sandboxPackages sb,
        RunBenchmarks_command sampleSystem h1 p ".".toList =
          .done (h1, .ok
            { Args := ["go".toList, "test".toList, "-run=@".toList,
                "-bench=".toList ++ (if ".".toList.isEmpty then ".".toList else ".".toList),
                Join [sampleSet.rootPackageImportPath, p.relPackagePath]],
              Env := [] }) ∧
        GetBenchmarkNames_command sampleSystem h1 p =
          .done (h1, .ok
            { Args := ["go".toList, "test".toList, "-run=@".toList, "-bench=.".toList,
                "-benchtime=0".toList, Join [sampleSet.rootPackageImportPath, p.relPackagePath]],
              Env := [] }) :=
  C8_harness_command_bypasses_sandbox sampleSystem emptyHeap sampleSet "HEAD~1".toList
    ".".toList (by decide) (by decide)

/-- The call through the sandbox's own snapshot, for contrast: there
`InitGoPath` opens the sandbox and the command gets `GOPATH` starting with the
sandbox directory. -/
theorem Go_through_sandbox_sets_GOPATH :
    newSandbox sampleSystem emptyHeap sampleSet "HEAD~1".toList =
      .done (sampleSandboxHeap, .ok 0) ∧
    (packageSetSnapshot.Go sampleSystem sampleSandboxHeap (.embedded 0)
        ["test".toList]).toOption.map (fun r => (r.2, (r.1.sandboxes[0]?).map (·.goPath))) =
      some (.ok { Args := ["go".toList, "test".toList],
                  Env := ["GOPATH=/tmp/ggt-1:/home/u/go".toList] },
            some "/tmp/ggt-1".toList) := by
  decide

/-! ### package.go: resolving the packages -/

/-- What `openPackageSet` gives with git answering as it does. One package at
the top level of its repository is accepted. Two packages of one repository,
the top level and `sub`, are refused: below the top level git prints the
absolute path of the git directory, and joined to the directory of the
package it names another root. Two packages are accepted when the first is
the top level of a work tree nested in the directory of the second and the
outer top level is `/r`: the root computed for the second is `/r/src/x` joined
with `/r`, the root of the first. -/
theorem openPackageSet_samples :
    openPackageSet rootOnlyTools [".".toList] = .done (.ok sampleSet) ∧
    openPackageSet rootAndSubTools ["./...".toList] =
      .done (.error .spanMultipleRepositories) ∧
    nestedTools.gitRevParseGitDir "/r/src/x/r".toList = (".git\n".toList, none) ∧
    nestedTools.gitRevParseGitDir "/r/src/x".toList = ("/r/.git\n".toList, none) ∧
    Join ["/r/src/x".toList, "/r/.git".toList] = "/r/src/x/r/.git".toList ∧
    Rel "/r/src/x/r".toList "/r/src/x".toList = some "..".toList ∧
    openPackageSet nestedTools ["x/r".toList, "x".toList] = .done (.ok nestedSet) := by
  decide

/-- Go `filepath.Rel` on samples, among them a target that is `.`. -/
theorem Rel_samples :
    Rel "a".toList ".".toList = some "..".toList ∧
    Rel "a/b".toList ".".toList = some "../..".toList ∧
    Rel ".".toList "a/b".toList = some "a/b".toList ∧
    Rel "a/b".toList "a/b/c/d".toList = some "c/d".toList ∧
    Rel "a/b/c".toList "a/c/d".toList = some "../../c/d".toList ∧
    Rel "/a".toList ".".toList = none ∧
    Rel "..".toList ".".toList = none := by
  decide

/-- C9. A single resolved package in the subdirectory `sub` of its repository:
`openPackageSet` panics, both when `git rev-parse --git-dir` prints the
absolute path of the git directory (as git does below the top level) and
when it prints a relative one. `filepath.Rel` gives `../../../..` resp.
`sub`, never a path starting with `./`, which the code requires of every
path other than `.`. -/
theorem C9_subdirectory_package_panics :
    openPackageSet (subdirTools "/gopath/src/example.com/repo/.git\n") ["./sub".toList] =
      .panicked ∧
    openPackageSet (subdirTools "../.git\n") ["./sub".toList] = .panicked ∧
    Rel "/gopath/src/example.com/repo".toList "/gopath/src/example.com/repo/sub".toList =
      some "sub".toList := by
  decide

/-- C10. When `go list` prints nothing (or only white space), with or without
an error, `openPackageSet` panics: `strings.Split` of the empty output gives
one empty line, which has no `:`, and the error is looked at only after the
loop over the lines. -/
theorem C10_empty_listing_panics (tools : Tools) (packages : List GoString)
    (hout : TrimSpace (tools.goList packages).1 = []) :
    openPackageSet tools packages = .panicked := by
  unfold openPackageSet resolvePackages
  simp only [hout]
  rfl

/-- Witness of C10: a selector that matches nothing, `go list` failing. -/
theorem C10_witness : openPackageSet noMatchTools ["./nothing".toList] = .panicked :=
  C10_empty_listing_panics noMatchTools ["./nothing".toList] (by decide)

/-! ### cmdLog.parseFlags -/

/-- What `takeRevisionRange` and `dropDashes` leave, in the words of the usage. -/
theorem takeRevisionRange_usage (l : cmdLog) (args : List GoString) :
    dropDashes (takeRevisionRange l args).2 = usagePackages args ∧
    (takeRevisionRange l args).1.revisionRange = (usageRevisionRange args).getD l.revisionRange ∧
    (takeRevisionRange l args).1.benchRegex = l.benchRegex ∧
    (takeRevisionRange l args).1.nsPerOpThreshold = l.nsPerOpThreshold := by
  unfold takeRevisionRange usagePackages usageRevisionRange
  cases args with
  | nil => simp [dropDashes]
  | cons a rest =>
    by_cases ha : a = "--".toList
    · subst ha
      simp [dropDashes]
    · have hne : (a != "--".toList) = true := by simpa using ha
      simp only [hne, if_true, ha, if_false, Option.isSome_some, List.drop_succ_cons,
        List.drop_zero, Option.getD_some, and_self, and_true]
      cases rest with
      | nil => simp [dropDashes]
      | cons b rest2 =>
        by_cases hb : b = "--".toList
        · subst hb; simp [dropDashes]
        · simp [dropDashes, hb]

/-- C13. When flag parsing returns, `cmdLog.parseFlags` returns, and it
returns an error exactly when the threshold is below 0 or above 100 or no
package is left after the leading revision range and the `--` are taken off
(the first with the text about the threshold, the second, with the threshold
in range, with the text about the packages); without error the packages are
those left, the revision range is the leading argument (the old value when
there is none), and the flag values are stored. -/
theorem C13_parseFlags_error_iff (flagParse : List GoString → Option ParsedFlags)
    (osArgs args : List GoString) (l : cmdLog) (f : ParsedFlags)
    (hparse : parseFlags flagParse osArgs args = some f) :
    ∃ l1 e, cmdLog.parseFlags flagParse osArgs l args = some (l1, e) ∧
      (e ≠ none ↔
        (IEEE.lt f.threshold (IEEE.ofNat 11 52 0) = true ∨
         IEEE.lt (IEEE.ofNat 11 52 100) f.threshold = true ∨
         usagePackages f.args = [])) ∧
      ((IEEE.lt f.threshold (IEEE.ofNat 11 52 0) = true ∨
         IEEE.lt (IEEE.ofNat 11 52 100) f.threshold = true) →
        e = some thresholdErrorText) ∧
      (e ≠ none → e ≠ some thresholdErrorText → e = some noPackagesErrorText) ∧
      (e = none →
        l1.packages = usagePackages f.args ∧
        l1.revisionRange = (usageRevisionRange f.args).getD l.revisionRange ∧
        l1.benchRegex = f.bench ∧ l1.nsPerOpThreshold = f.threshold) := by
  obtain ⟨hu1, hu2, hu3, hu4⟩ := takeRevisionRange_usage
    { l with benchRegex := f.bench, nsPerOpThreshold := f.threshold } f.args
  unfold cmdLog.parseFlags
  rw [hparse]
  simp only [hu1]
  by_cases hthr : (IEEE.lt f.threshold (IEEE.ofNat 11 52 0) ||
      IEEE.lt (IEEE.ofNat 11 52 100) f.threshold) = true
  · rw [if_pos hthr]
    have hor := Bool.or_eq_true_iff.mp hthr
    refine ⟨_, _, rfl, ⟨fun _ => ?_, fun _ => by simp⟩, fun _ => rfl, fun _ h => absurd rfl h,
      fun h => by simp at h⟩
    rcases hor with h | h
    · exact Or.inl h
    · exact Or.inr (Or.inl h)
  · rw [if_neg hthr]
    have hno : ¬ (IEEE.lt f.threshold (IEEE.ofNat 11 52 0) = true) ∧
        ¬ (IEEE.lt (IEEE.ofNat 11 52 100) f.threshold = true) := by
      constructor
      · intro h; exact hthr (by rw [h]; rfl)
      · intro h; exact hthr (by rw [h]; simp)
    by_cases hemp : (usagePackages f.args).isEmpty = true
    · rw [if_pos hemp]
      refine ⟨_, _, rfl, ⟨fun _ => Or.inr (Or.inr (List.isEmpty_iff.mp hemp)), fun _ => by simp⟩,
        ?_, fun _ _ => rfl, fun h => by simp at h⟩
      rintro (h | h)
      · exact absurd h hno.1
      · exact absurd h hno.2
    · rw [if_neg hemp]
      refine ⟨_, _, rfl, ⟨fun h => absurd rfl h, fun h => ?_⟩, ?_, fun h => absurd rfl h,
        fun _ => ⟨rfl, hu2, hu3, hu4⟩⟩
      · rcases h with h | h | h
        · exact absurd h hno.1
        · exact absurd h hno.2
        · exact absurd (List.isEmpty_iff.mpr h) hemp
      · rintro (h | h)
        · exact absurd h hno.1
        · exact absurd h hno.2

/-- Witness of C13: `ggt log -threshold=150 ./pkg`, which is refused, and
`ggt log HEAD~3.. -- ./pkg` with the default threshold, which is accepted. -/
theorem C13_witness :
    (∃ l1 e, cmdLog.parseFlags (fun _ => some (sampleFlags 150 ["./pkg"]))
          ["ggt".toList, "log".toList, "-threshold=150".toList, "./pkg".toList]
          blankLog ["-threshold=150".toList, "./pkg".toList] = some (l1, e) ∧
      (e ≠ none ↔
        (IEEE.lt (sampleFlags 150 ["./pkg"]).threshold (IEEE.ofNat 11 52 0) = true ∨
         IEEE.lt (IEEE.ofNat 11 52 100) (sampleFlags 150 ["./pkg"]).threshold = true ∨
         usagePackages (sampleFlags 150 ["./pkg"]).args = [])) ∧
      ((IEEE.lt (sampleFlags 150 ["./pkg"]).threshold (IEEE.ofNat 11 52 0) = true ∨
         IEEE.lt (IEEE.ofNat 11 52 100) (sampleFlags 150 ["./pkg"]).threshold = true) →
        e = some thresholdErrorText) ∧
      (e ≠ none → e ≠ some thresholdErrorText → e = some noPackagesErrorText) ∧
      (e = none →
        l1.packages = usagePackages (sampleFlags 150 ["./pkg"]).args ∧
        l1.revisionRange =
          (usageRevisionRange (sampleFlags 150 ["./pkg"]).args).getD blankLog.revisionRange ∧
        l1.benchRegex = (sampleFlags 150 ["./pkg"]).bench ∧
        l1.nsPerOpThreshold = (sampleFlags 150 ["./pkg"]).threshold)) ∧
    (∃ l1 e, cmdLog.parseFlags (fun _ => some (sampleFlags 2 ["HEAD~3..", "--", "./pkg"]))
          ["ggt".toList, "log".toList, "HEAD~3..".toList, "--".toList, "./pkg".toList]
          blankLog ["HEAD~3..".toList, "--".toList, "./pkg".toList] = some (l1, e) ∧
      (e ≠ none ↔
        (IEEE.lt (sampleFlags 2 ["HEAD~3..", "--", "./pkg"]).threshold (IEEE.ofNat 11 52 0) =
            true ∨
         IEEE.lt (IEEE.ofNat 11 52 100) (sampleFlags 2 ["HEAD~3..", "--", "./pkg"]).threshold =
            true ∨
         usagePackages (sampleFlags 2 ["HEAD~3..", "--", "./pkg"]).args = [])) ∧
      ((IEEE.lt (sampleFlags 2 ["HEAD~3..", "--", "./pkg"]).threshold (IEEE.ofNat 11 52 0) =
            true ∨
         IEEE.lt (IEEE.ofNat 11 52 100) (sampleFlags 2 ["HEAD~3..", "--", "./pkg"]).threshold =
            true) →
        e = some thresholdErrorText) ∧
      (e ≠ none → e ≠ some thresholdErrorText → e = some noPackagesErrorText) ∧
      (e = none →
        l1.packages = usagePackages (sampleFlags 2 ["HEAD~3..", "--", "./pkg"]).args ∧
        l1.revisionRange =
          (usageRevisionRange (sampleFlags 2 ["HEAD~3..", "--", "./pkg"]).args).getD
            blankLog.revisionRange ∧
        l1.benchRegex = (sampleFlags 2 ["HEAD~3..", "--", "./pkg"]).bench ∧
        l1.nsPerOpThreshold = (sampleFlags 2 ["HEAD~3..", "--", "./pkg"]).threshold)) :=
  ⟨C13_parseFlags_error_iff (fun _ => some (sampleFlags 150 ["./pkg"]))
      ["ggt".toList, "log".toList, "-threshold=150".toList, "./pkg".toList]
      ["-threshold=150".toList, "./pkg".toList] blankLog (sampleFlags 150 ["./pkg"]) (by decide),
   C13_parseFlags_error_iff (fun _ => some (sampleFlags 2 ["HEAD~3..", "--", "./pkg"]))
      ["ggt".toList, "log".toList, "HEAD~3..".toList, "--".toList, "./pkg".toList]
      ["HEAD~3..".toList, "--".toList, "./pkg".toList] blankLog
      (sampleFlags 2 ["HEAD~3..", "--", "./pkg"]) (by decide)⟩

/-- The three outcomes of `cmdLog.parseFlags` on samples: a threshold of 150 is
refused, a lone argument is taken for the revision range and leaves no
package, and `-- ./pkg` is accepted with the revision range left empty. -/
theorem parseFlags_samples :
    (cmdLog.parseFlags (fun _ => some (sampleFlags 150 ["./pkg"])) [] blankLog []).map Prod.snd =
      some (some thresholdErrorText) ∧
    (cmdLog.parseFlags (fun _ => some (sampleFlags 2 ["./pkg"])) [] blankLog []).map Prod.snd =
      some (some noPackagesErrorText) ∧
    cmdLog.parseFlags (fun _ => some (sampleFlags 2 ["--", "./pkg"])) [] blankLog [] =
      some ({ packages := ["./pkg".toList], benchRegex := ".".toList, revisionRange := [],
              nsPerOpThreshold := IEEE.ofNat 11 52 2 }, none) := by
  decide

/-! ### snapshot.go: RunBenchmarks and the completeness flag -/

/-- A sequence of two calls returns only when the first one returns. -/
theorem Exec.bind_eq_done {α β : Type} {x : Exec α} {k : α → Exec β} {b : β}
    (h : x.bind k = .done b) : ∃ a, x = .done a ∧ k a = .done b := by
  cases x with
  | done a => exact ⟨a, rfl, h⟩
  | panicked => simp [Exec.bind] at h
  | diverged => simp [Exec.bind] at h

/-- The line function of `RunBenchmarks` touches neither the completeness
flag nor the name list of the cache. -/
theorem runLines_flags (cb : Callback) :
    ∀ (lines : List GoString) (v : RunVars) (r : RunVars × Option BenchError),
      runLines cb lines v = .done r →
      r.1.cache.BenchmarksIsComplete = v.cache.BenchmarksIsComplete ∧
      r.1.cache.AllBenchmarkNames = v.cache.AllBenchmarkNames := by
  intro lines
  induction lines with
  | nil =>
    intro v r h
    simp only [runLines] at h
    injection h with h
    subst h
    exact ⟨rfl, rfl⟩
  | cons line rest ih =>
    intro v r h
    simp only [runLines] at h
    obtain ⟨parsed, _, h⟩ := Exec.bind_eq_done h
    cases parsed with
    | none => exact ih v r h
    | some b =>
      simp only at h
      obtain ⟨called, _, h⟩ := Exec.bind_eq_done h
      obtain ⟨added, _, h⟩ := Exec.bind_eq_done h
      cases hadd : added.2 with
      | some msg =>
        rw [hadd] at h
        simp only at h
        injection h with h
        subst h
        exact ⟨rfl, rfl⟩
      | none =>
        rw [hadd] at h
        simp only at h
        obtain ⟨cached, _, h⟩ := Exec.bind_eq_done h
        cases hcached : cached.2 with
        | some msg =>
          rw [hcached] at h
          simp only at h
          injection h with h
          subst h
          exact ⟨rfl, rfl⟩
        | none =>
          rw [hcached] at h
          simp only at h
          have := ih _ r h
          exact this

/-- After `EnsureCacheLoaded` the cache pointer is not nil. -/
theorem EnsureCacheLoaded_some (st : Machine) (s s1 : packageSnapshot)
    (h : EnsureCacheLoaded st s = .done s1) : ∃ c, s1.Cache = some c := by
  cases hc : s.Cache with
  | some c =>
    simp only [EnsureCacheLoaded, hc] at h
    injection h with h
    subst h
    exact ⟨c, hc⟩
  | none =>
    simp only [EnsureCacheLoaded, hc, LoadCache] at h
    split at h
    · cases h
    · split at h
      · injection h with h; subst h; exact ⟨_, rfl⟩
      · injection h with h; subst h; exact ⟨_, rfl⟩

/-- What a returning `RunBenchmarks` does to the flag and the name list of
the loaded cache: it leaves both as they were, unless the run succeeded with
the filter `.` (or the empty filter, which stands for `.`), in which case the
flag is set and the name list replaced. -/
theorem RunBenchmarks_flags (env : Harness) (st st1 : Machine) (s s0 s1 : packageSnapshot)
    (benchRegex : GoString) (cb : Callback) (r : Except BenchError benchmarkRunSlice)
    (hload : EnsureCacheLoaded st s = .done s0)
    (hrun : RunBenchmarks env st s benchRegex cb = .done (st1, s1, r)) :
    ∃ c c1, s0.Cache = some c ∧ s1.Cache = some c1 ∧
      ((c1.BenchmarksIsComplete = c.BenchmarksIsComplete ∧
          c1.AllBenchmarkNames = c.AllBenchmarkNames) ∨
       ((∃ res, r = .ok res) ∧ (benchRegex = ".".toList ∨ benchRegex = []) ∧
          c1.BenchmarksIsComplete = true ∧ ∃ ns, c1.AllBenchmarkNames = some ns)) := by
  obtain ⟨c, hc⟩ := EnsureCacheLoaded_some st s s0 hload
  unfold RunBenchmarks at hrun
  rw [hload] at hrun
  simp only [Exec.bind] at hrun
  obtain ⟨built, _, hrun⟩ := Exec.bind_eq_done hrun
  cases hb : built.2 with
  | error e =>
    rw [hb] at hrun
    simp only at hrun
    injection hrun with hrun
    injection hrun with h1 h2
    injection h2 with h2 h3
    subst h2
    exact ⟨c, c, hc, hc, Or.inl ⟨rfl, rfl⟩⟩
  | ok test =>
    rw [hb, hc] at hrun
    simp only at hrun
    obtain ⟨ran, hran, hrun⟩ := Exec.bind_eq_done hrun
    obtain ⟨hf1, hf2⟩ := runLines_flags cb _ _ ran hran
    simp only at hf1 hf2
    split at hrun
    · injection hrun with hrun
      injection hrun with h1 h2
      injection h2 with h2 h3
      subst h2
      exact ⟨c, _, hc, rfl, Or.inl ⟨hf1, hf2⟩⟩
    · injection hrun with hrun
      injection hrun with h1 h2
      injection h2 with h2 h3
      subst h2
      exact ⟨c, _, hc, rfl, Or.inl ⟨hf1, hf2⟩⟩
    · split at hrun
      · injection hrun with hrun
        injection hrun with h1 h2
        injection h2 with h2 h3
        subst h2
        exact ⟨c, _, hc, rfl, Or.inl ⟨hf1, hf2⟩⟩
      · obtain ⟨st4, _, hrun⟩ := Exec.bind_eq_done hrun
        injection hrun with hrun
        injection hrun with h1 h2
        injection h2 with h2 h3
        subst h2
        subst h3
        by_cases hdot : (if benchRegex.isEmpty = true then ".".toList else benchRegex) = ".".toList
        · refine ⟨c, _, hc, rfl, Or.inr ⟨⟨_, rfl⟩, ?_, ?_⟩⟩
          · by_cases hemp : benchRegex.isEmpty = true
            · exact Or.inr (List.isEmpty_iff.mp hemp)
            · rw [if_neg hemp] at hdot
              exact Or.inl hdot
          · rw [if_pos hdot]
            exact ⟨rfl, _, rfl⟩
        · refine ⟨c, _, hc, rfl, Or.inl ?_⟩
          rw [if_neg hdot]
          exact ⟨hf1, hf2⟩

/-- C12. A `RunBenchmarks` that returns, with a filter other than `.` and the
empty one, leaves the completeness flag and the name list of the loaded
cache as they were; and when the flag goes from false to true, the run was
successful and its filter was `.` (or empty, which stands for `.`). -/
theorem C12_filtered_run_keeps_completeness (env : Harness) (st st1 : Machine)
    (s s0 s1 : packageSnapshot) (benchRegex : GoString) (cb : Callback)
    (r : Except BenchError benchmarkRunSlice)
    (hload : EnsureCacheLoaded st s = .done s0)
    (hrun : RunBenchmarks env st s benchRegex cb = .done (st1, s1, r)) :
    ∃ c c1, s0.Cache = some c ∧ s1.Cache = some c1 ∧
      (benchRegex ≠ ".".toList → benchRegex ≠ [] →
        c1.BenchmarksIsComplete = c.BenchmarksIsComplete ∧
        c1.AllBenchmarkNames = c.AllBenchmarkNames) ∧
      (c.BenchmarksIsComplete = false → c1.BenchmarksIsComplete = true →
        (∃ res, r = .ok res) ∧ (benchRegex = ".".toList ∨ benchRegex = [])) := by
  obtain ⟨c, c1, hc, hc1, h⟩ := RunBenchmarks_flags env st st1 s s0 s1 benchRegex cb r hload hrun
  refine ⟨c, c1, hc, hc1, ?_, ?_⟩
  · intro hdot hemp
    rcases h with h | ⟨_, h, _⟩
    · exact h
    · rcases h with h | h
      · exact absurd h hdot
      · exact absurd h hemp
  · intro hfalse htrue
    rcases h with h | ⟨h1, h2, _⟩
    · rw [h.1, hfalse] at htrue
      cases htrue
    · exact ⟨h1, h2⟩

/-- Witness of C12: the sample cache and a run restricted to `BenchmarkB`. -/
theorem C12_witness :
    ∃ c c1, cachedA.Cache = some c ∧
      ({ cachedA with Cache := some cacheAB } : packageSnapshot).Cache = some c1 ∧
      ("^(BenchmarkB)$".toList ≠ ".".toList → "^(BenchmarkB)$".toList ≠ [] →
        c1.BenchmarksIsComplete = c.BenchmarksIsComplete ∧
        c1.AllBenchmarkNames = c.AllBenchmarkNames) ∧
      (c.BenchmarksIsComplete = false → c1.BenchmarksIsComplete = true →
        (∃ res, (Except.ok [runB] : Except BenchError benchmarkRunSlice) = .ok res) ∧
        ("^(BenchmarkB)$".toList = ".".toList ∨ "^(BenchmarkB)$".toList = [])) :=
  C12_filtered_run_keeps_completeness sampleHarness sampleMachine machineAfterB cachedA cachedA
    { cachedA with Cache := some cacheAB } "^(BenchmarkB)$".toList none (.ok [runB])
    (by decide) (by decide)

/-- For contrast: the same run with the filter `.` sets the flag and replaces
the name list by the names the harness reported. -/
theorem RunBenchmarks_dot_sample :
    (RunBenchmarks sampleHarness sampleMachine
        { cachedA with Cache := some emptyCache } ".".toList none).toOption.map
      (fun r => (r.2.1.Cache, r.2.2)) =
      some (some { Benchmarks := [runB], BenchmarksIsComplete := true,
                   AllBenchmarkNames := some ["BenchmarkB".toList] },
            .ok [runB]) := by
  decide

/-! ### snapshot.go: what loadBenchmarksFromCache asks the harness to run -/

/-- The last step of `packageSetSnapshot.Go` puts `go` before the arguments. -/
theorem Go_finish_args (args env1 : List GoString) (c : Bool) (h1 h2 : Heap) (cmd : Cmd)
    (hh : (if c = true then
            (Exec.done (h2, Except.ok (Cmd.mk ("go".toList :: args) env1)) :
              Exec (Heap × Except SandboxError Cmd))
          else .done (h2, .ok (Cmd.mk ("go".toList :: args) []))) = .done (h1, .ok cmd)) :
    cmd.Args = "go".toList :: args := by
  split at hh
  · injection hh with hh
    injection hh with _ hh
    injection hh with hh
    subst hh
    rfl
  · injection hh with hh
    injection hh with _ hh
    injection hh with hh
    subst hh
    rfl

/-- A command that `packageSetSnapshot.Go` returns runs `go` with the given
arguments. -/
theorem Go_ok_args (sys : System) (h h1 : Heap) (ref : SnapRef) (args : List GoString)
    (cmd : Cmd) (hgo : packageSetSnapshot.Go sys h ref args = .done (h1, .ok cmd)) :
    cmd.Args = "go".toList :: args := by
  unfold packageSetSnapshot.Go at hgo
  split at hgo
  · cases hgo
  · simp only at hgo
    split at hgo
    · split at hgo
      · obtain ⟨r, _, hgo⟩ := Exec.bind_eq_done hgo
        split at hgo
        · injection hgo with hgo
          injection hgo with _ hgo
          cases hgo
        · exact Go_finish_args _ _ _ _ _ _ hgo
      · exact Go_finish_args _ _ _ _ _ _ hgo
    · exact Go_finish_args _ _ _ _ _ _ hgo

/-- Saving the cache runs no command. -/
theorem SaveCache_ran (env : Harness) (st st1 : Machine) (s : packageSnapshot)
    (h : SaveCache env st s = .done st1) : st1.ran = st.ran ∧ st1.heap = st.heap := by
  unfold SaveCache at h
  split at h
  · cases h
  · split at h
    · cases h
    · split at h
      · injection h with h; subst h; exact ⟨rfl, rfl⟩
      · injection h with h; subst h; exact ⟨rfl, rfl⟩
      · injection h with h; subst h; exact ⟨rfl, rfl⟩

/-- A returning `RunBenchmarks` has run at most one command: none when the
command could not be built, else `go test -run=@ -bench=<filter> <package>`. -/
theorem RunBenchmarks_ran (env : Harness) (st st1 : Machine) (s s1 : packageSnapshot)
    (benchRegex : GoString) (cb : Callback) (r : Except BenchError benchmarkRunSlice)
    (hrun : RunBenchmarks env st s benchRegex cb = .done (st1, s1, r)) :
    (st1.ran = st.ran ∧ ∃ e, r = .error (.sandbox e)) ∨
    (∃ test pkg, st1.ran = st.ran ++ [test] ∧
      test.Args = ["go".toList, "test".toList, "-run=@".toList,
        "-bench=".toList ++ (if benchRegex.isEmpty then ".".toList else benchRegex), pkg]) := by
  unfold RunBenchmarks at hrun
  obtain ⟨s0, _, hrun⟩ := Exec.bind_eq_done hrun
  simp only at hrun
  obtain ⟨built, hbuilt, hrun⟩ := Exec.bind_eq_done hrun
  cases hb : built.2 with
  | error e =>
    rw [hb] at hrun
    simp only at hrun
    injection hrun with hrun
    injection hrun with h1 h2
    injection h2 with h2 h3
    subst h1 h3
    exact Or.inl ⟨rfl, e, rfl⟩
  | ok test =>
    rw [hb] at hrun
    simp only at hrun
    have hargs : ∃ pkg, test.Args = ["go".toList, "test".toList, "-run=@".toList,
        "-bench=".toList ++ (if benchRegex.isEmpty then ".".toList else benchRegex), pkg] := by
      cases hsnap : st.heap.snapshot s0.PackageSet with
      | none => simp [RunBenchmarks_command, hsnap] at hbuilt
      | some ps =>
        simp only [RunBenchmarks_command, hsnap] at hbuilt
        have hbuilt2 := hbuilt
        rw [show built = (built.1, built.2) from rfl, hb] at hbuilt2
        exact ⟨_, Go_ok_args _ _ _ _ _ _ hbuilt2⟩
    obtain ⟨pkg, hpkg⟩ := hargs
    right
    refine ⟨test, pkg, ?_, hpkg⟩
    split at hrun
    · cases hrun
    · obtain ⟨ran, _, hrun⟩ := Exec.bind_eq_done hrun
      split at hrun
      · injection hrun with hrun
        injection hrun with h1 h2
        subst h1
        rfl
      · injection hrun with hrun
        injection hrun with h1 h2
        subst h1
        rfl
      · split at hrun
        · injection hrun with hrun
          injection hrun with h1 h2
          subst h1
          rfl
        · obtain ⟨st4, hsave, hrun⟩ := Exec.bind_eq_done hrun
          injection hrun with hrun
          injection hrun with h1 h2
          subst h1
          rw [(SaveCache_ran _ _ _ _ hsave).1]

/-- A returning `GetBenchmarkNames` has run at most one command, and that one
only lists names: `go test -run=@ -bench=. -benchtime=0 <package>`. -/
theorem GetBenchmarkNames_ran (env : Harness) (st st1 : Machine) (s s1 : packageSnapshot)
    (r : Except BenchError (List GoString))
    (hrun : GetBenchmarkNames env st s = .done (st1, s1, r)) :
    st1.ran = st.ran ∨
    (∃ test pkg, st1.ran = st.ran ++ [test] ∧
      test.Args = ["go".toList, "test".toList, "-run=@".toList, "-bench=.".toList,
        "-benchtime=0".toList, pkg]) := by
  unfold GetBenchmarkNames at hrun
  obtain ⟨s0, _, hrun⟩ := Exec.bind_eq_done hrun
  split at hrun
  · cases hrun
  · split at hrun
    · injection hrun with hrun
      injection hrun with h1 h2
      subst h1
      exact Or.inl rfl
    · obtain ⟨built, hbuilt, hrun⟩ := Exec.bind_eq_done hrun
      cases hb : built.2 with
      | error e =>
        rw [hb] at hrun
        simp only at hrun
        injection hrun with hrun
        injection hrun with h1 h2
        subst h1
        exact Or.inl rfl
      | ok test =>
        rw [hb] at hrun
        simp only at hrun
        have hargs : ∃ pkg, test.Args = ["go".toList, "test".toList, "-run=@".toList,
            "-bench=.".toList, "-benchtime=0".toList, pkg] := by
          cases hsnap : st.heap.snapshot s0.PackageSet with
          | none => simp [GetBenchmarkNames_command, hsnap] at hbuilt
          | some ps =>
            simp only [GetBenchmarkNames_command, hsnap] at hbuilt
            have hbuilt2 := hbuilt
            rw [show built = (built.1, built.2) from rfl, hb] at hbuilt2
            exact ⟨_, Go_ok_args _ _ _ _ _ _ hbuilt2⟩
        obtain ⟨pkg, hpkg⟩ := hargs
        right
        refine ⟨test, pkg, ?_, hpkg⟩
        split at hrun
        · injection hrun with hrun
          injection hrun with h1 h2
          subst h1
          rfl
        · injection hrun with hrun
          injection hrun with h1 h2
          subst h1
          rfl
        · obtain ⟨ns, _, hrun⟩ := Exec.bind_eq_done hrun
          obtain ⟨st3, hsave, hrun⟩ := Exec.bind_eq_done hrun
          injection hrun with hrun
          injection hrun with h1 h2
          subst h1
          rw [(SaveCache_ran _ _ _ _ hsave).1]

/-- The callback `func(*benchmarkRun) {}` that `GetBenchmarks` puts in place of
nil returns and leaves the run alone. -/
theorem callCb_noop (b : benchmarkRun) :
    ∃ b1 o, callCb (some fun b => .done (b, none)) b = .done (b1, o) ∧ b1.Name = b.Name :=
  ⟨b, [], rfl, rfl⟩

/-- A nil callback is not called: the run stays as it is. -/
theorem callCb_none (b : benchmarkRun) :
    ∃ b1 o, callCb none b = .done (b1, o) ∧ b1.Name = b.Name :=
  ⟨b, [], rfl, rfl⟩

/-- The first loop of `loadBenchmarksFromCache` on entries with pairwise
distinct names, none of them in the result yet: it ends without error, the
result stays strictly sorted and gains exactly the names that match. -/
theorem loadCached_spec (m : GoString → Bool) (cb : Callback)
    (hcb : ∀ b, ∃ b1 o, callCb cb b = .done (b1, o) ∧ b1.Name = b.Name) :
    ∀ (bs : List benchmarkRun) (v : CachedVars), StrictSorted v.result → (names bs).Nodup →
      (∀ b ∈ bs, b.Name ∉ names v.result) →
      ∃ v1, loadCached m cb bs v = .done (v1, none) ∧ StrictSorted v1.result ∧
        (∀ t, t ∈ names v1.result ↔ t ∈ names v.result ∨ (t ∈ names bs ∧ m t = true)) ∧
        names v1.seen = names v.seen ++ names bs := by
  intro bs
  induction bs with
  | nil =>
    intro v hs _ _
    refine ⟨v, rfl, hs, ?_, ?_⟩
    · intro t; simp [names]
    · simp [names]
  | cons b rest ih =>
    intro v hs hnd hfresh
    have hnd2 : (names rest).Nodup ∧ b.Name ∉ names rest := by
      unfold names at hnd ⊢
      rw [List.map_cons, List.nodup_cons] at hnd
      exact ⟨hnd.2, hnd.1⟩
    by_cases hm : m b.Name = true
    · obtain ⟨b1, o, hcall, hname⟩ := hcb b
      have hb1 : b1.Name ∉ names v.result := by
        rw [hname]; exact hfresh b (List.mem_cons_self _ _)
      obtain ⟨res1, hadd, hs1, hperm, _⟩ := Add_fresh v.result b1 hs hb1
      have hmem1 : ∀ t, t ∈ names res1 ↔ t = b.Name ∨ t ∈ names v.result := by
        intro t
        have := (hperm.map (fun r => r.Name)).mem_iff (a := t)
        unfold names
        rw [this, List.map_cons, List.mem_cons, hname]
      have hfresh1 : ∀ c ∈ rest, c.Name ∉ names res1 := by
        intro c hc hcm
        rcases (hmem1 c.Name).mp hcm with h | h
        · apply hnd2.2
          rw [← h]
          exact List.mem_map_of_mem _ hc
        · exact hfresh c (List.mem_cons_of_mem _ hc) h
      obtain ⟨v1, hrun, hs2, hmem2, hseen⟩ :=
        ih { seen := v.seen ++ [b1], result := res1, out := v.out ++ o } hs1 hnd2.1 hfresh1
      refine ⟨v1, ?_, hs2, ?_, ?_⟩
      · simp only [loadCached, hm, if_true, hcall, Exec.bind, hadd]
        exact hrun
      · intro t
        rw [hmem2 t]
        simp only [hmem1 t]
        constructor
        · rintro ((h | h) | ⟨h1, h2⟩)
          · right
            subst h
            exact ⟨by simp [names], hm⟩
          · exact Or.inl h
          · right
            exact ⟨by simp only [names, List.map_cons, List.mem_cons]; exact Or.inr h1, h2⟩
        · rintro (h | ⟨h1, h2⟩)
          · exact Or.inl (Or.inr h)
          · simp only [names, List.map_cons, List.mem_cons] at h1
            rcases h1 with h1 | h1
            · exact Or.inl (Or.inl h1)
            · exact Or.inr ⟨h1, h2⟩
      · rw [hseen]
        simp [names, hname]
    · obtain ⟨v1, hrun, hs2, hmem2, hseen⟩ :=
        ih { v with seen := v.seen ++ [b] } hs hnd2.1
          (fun c hc => hfresh c (List.mem_cons_of_mem _ hc))
      refine ⟨v1, ?_, hs2, ?_, ?_⟩
      · simp only [loadCached, hm, Bool.false_eq_true, if_false]
        exact hrun
      · intro t
        rw [hmem2 t]
        constructor
        · rintro (h | ⟨h1, h2⟩)
          · exact Or.inl h
          · exact Or.inr ⟨by simp only [names, List.map_cons, List.mem_cons]; exact Or.inr h1, h2⟩
        · rintro (h | ⟨h1, h2⟩)
          · exact Or.inl h
          · simp only [names, List.map_cons, List.mem_cons] at h1
            rcases h1 with h1 | h1
            · subst h1; exact absurd h2 hm
            · exact Or.inr ⟨h1, h2⟩
      · rw [hseen]
        simp [names]

/-- The second loop of `loadBenchmarksFromCache` on a strictly sorted result:
it keeps the names that match the filter and are not in the result. -/
theorem missingNames_spec (m : GoString → Bool) (result : benchmarkRunSlice)
    (hs : StrictSorted result) :
    ∀ all : List GoString,
      missingNames m result all =
        .done (all.filter fun t => m t && !decide (t ∈ names result)) := by
  intro all
  induction all with
  | nil => rfl
  | cons t rest ih =>
    by_cases hm : m t = true
    · by_cases hin : t ∈ names result
      · obtain ⟨b, hb, hbn⟩ := List.mem_map.mp hin
        have hfind := Find_mem result b hs hb
        rw [hbn] at hfind
        simp only [missingNames, hm, Bool.not_true, Bool.false_eq_true, if_false, hfind,
          Exec.bind, ih, List.filter_cons, Bool.true_and, hin, decide_True]
      · have hfind := Find_not_mem result t hs.nameSorted hin
        simp only [missingNames, hm, Bool.not_true, Bool.false_eq_true, if_false, hfind,
          Exec.bind, ih, List.filter_cons, Bool.true_and, hin, decide_False, Bool.not_false,
          if_true]
    · have hm2 : m t = false := by simpa using hm
      simp only [missingNames, hm2, Bool.not_false, if_true, ih, List.filter_cons,
        Bool.false_and, Bool.false_eq_true, if_false]

/-- The filter built from missing names is never the empty filter. -/
theorem missingRegexp_isEmpty (missing : List GoString) :
    (missingRegexp missing).isEmpty = false := by
  simp [missingRegexp]

/-- With every listed name cached nothing is run: the name list is only
`BenchmarkA`. -/
theorem loadBenchmarksFromCache_nothing_missing :
    (loadBenchmarksFromCache sampleHarness sampleMachine
        { cachedA with Cache := some { cacheA with AllBenchmarkNames := some ["BenchmarkA".toList] } }
        ".".toList none).toOption.map (fun r => (r.1.ran, r.2.2)) =
      some ([], .ok [runA]) := by
  decide

/-! ### log.go: the traversal of cmdLog.run -/

/-- The method `Annotate` keeps the name of the run. -/
theorem Annotate_name (r prev : benchmarkRun) : (Annotate r prev).1.Name = r.Name := by
  unfold Annotate
  split <;> rfl

/-- The closure `printBenchmark` returns on every run and keeps its name. -/
theorem printBenchmark_total (pr : Printing) (l : cmdLog) (parentRun : Option commitTestRun)
    (p : GoString) (b : benchmarkRun) :
    ∃ b1 o, printBenchmark pr l parentRun p b = .done (b1, o) ∧ b1.Name = b.Name := by
  cases parentRun with
  | none => exact ⟨b, _, rfl, rfl⟩
  | some parent =>
    have hann : ∃ b1, cmdLog.annotate parent b p = .done b1 ∧ b1.Name = b.Name := by
      unfold cmdLog.annotate
      cases parent.benchmarks.lookup p with
      | none => exact ⟨b, rfl, rfl⟩
      | some bs =>
        obtain ⟨r, hr⟩ := Find_total bs b.Name
        simp only [hr, Exec.bind]
        cases r with
        | none => exact ⟨b, rfl, rfl⟩
        | some prev => exact ⟨_, rfl, Annotate_name b prev⟩
    obtain ⟨b1, h1, h2⟩ := hann
    simp only [printBenchmark, h1, Exec.bind]
    split
    · exact ⟨b1, _, rfl, h2⟩
    · exact ⟨b1, _, rfl, h2⟩

/-- The callback that `cmdLog.run` passes returns and keeps names. -/
theorem callCb_printBenchmark (pr : Printing) (l : cmdLog) (parentRun : Option commitTestRun)
    (p : GoString) (b : benchmarkRun) :
    ∃ b1 o, callCb (some (printBenchmark pr l parentRun p)) b = .done (b1, o) ∧
      b1.Name = b.Name := by
  obtain ⟨b1, o, h1, h2⟩ := printBenchmark_total pr l parentRun p b
  exact ⟨b1, o.toList, by simp only [callCb, h1, Exec.bind], h2⟩

/-- Reading a line that ends in `\n`. -/
theorem readString_line (c rest : GoString) (hc : '\n' ∉ c) :
    readString (c ++ '\n' :: rest) = (c ++ ['\n'], false, rest) := by
  have hd : ∀ (c : GoString), '\n' ∉ c →
      (c ++ '\n' :: rest).dropWhile (fun x => x != '\n') = '\n' :: rest ∧
      (c ++ '\n' :: rest).takeWhile (fun x => x != '\n') = c := by
    intro c
    induction c with
    | nil => intro _; simp [List.dropWhile, List.takeWhile]
    | cons x xs ih =>
      intro hx
      have hx1 : x ≠ '\n' := fun h => hx (by rw [h]; exact List.mem_cons_self _ _)
      have hx2 : '\n' ∉ xs := fun h => hx (List.mem_cons_of_mem _ h)
      obtain ⟨h1, h2⟩ := ih hx2
      have hp : (x != '\n') = true := by simpa using hx1
      constructor
      · rw [List.cons_append, List.dropWhile_cons, if_pos hp, h1]
      · rw [List.cons_append, List.takeWhile_cons, if_pos hp, h2]
  obtain ⟨h1, h2⟩ := hd c hc
  unfold readString
  rw [h1, h2]

/-- Taking the `\n` off a line that was read. -/
theorem trimSuffixNewline_line (c : GoString) : trimSuffixNewline (c ++ ['\n']) = c := by
  unfold trimSuffixNewline
  rw [List.getLast?_concat, if_pos rfl, List.dropLast_concat]

/-- Printing kept results never fails. -/
theorem printAll_total {σ : Type} (env : LogTools σ) (l : cmdLog)
    (parentRun : Option commitTestRun) (p : GoString) :
    ∀ (m : List (GoString × benchmarkRunSlice)) (w : σ),
      ∃ w1, printAll env (printBenchmark env.pr l parentRun p) m w = .done w1 := by
  have hruns : ∀ (bs : List benchmarkRun) (w : σ),
      ∃ w1, printRuns env (printBenchmark env.pr l parentRun p) bs w = .done w1 := by
    intro bs
    induction bs with
    | nil => intro w; exact ⟨w, rfl⟩
    | cons b rest ih =>
      intro w
      obtain ⟨b1, o, h1, _⟩ := printBenchmark_total env.pr l parentRun p b
      simp only [printRuns, h1, Exec.bind]
      cases o with
      | none => exact ih w
      | some line => exact ih _
  intro m
  induction m with
  | nil => intro w; exact ⟨w, rfl⟩
  | cons e rest ih =>
    intro w
    obtain ⟨w1, h1⟩ := hruns e.2 w
    simp only [printAll, h1, Exec.bind]
    exact ih w1

/-- With results kept from the previous iteration the loop over the packages
fetches nothing. -/
theorem packageLoop_kept {σ : Type} (env : LogTools σ) (l : cmdLog) (set : packageSet)
    (commitId : GoString) (parentRun : Option commitTestRun) (prev : commitTestRun) :
    ∀ (paths : List GoString) (st : RunState σ),
      ∃ st1, packageLoop env l set commitId parentRun (some prev) paths st = .done (st1, none) ∧
        st1.fetched = st.fetched ∧ st1.shown = st.shown := by
  intro paths
  induction paths with
  | nil => intro st; exact ⟨st, rfl, rfl, rfl⟩
  | cons p rest ih =>
    intro st
    obtain ⟨w, hw⟩ := printAll_total env l parentRun p prev.benchmarks st.world
    obtain ⟨st1, h1, h2, h3⟩ := ih { st with world := w }
    refine ⟨st1, ?_, h2, h3⟩
    simp only [packageLoop, hw, Exec.bind]
    exact h1

/-- Without kept results, and with no fetch failing, the loop over the
packages calls `set.GetBenchmarks` for the commit once per package. -/
theorem packageLoop_fetches {σ : Type} (env : LogTools σ) (l : cmdLog) (set : packageSet)
    (commitId : GoString) (parentRun : Option commitTestRun)
    (hfetch : ∀ w rev re cb, ∃ w1 m, env.getBenchmarks w set rev re cb = .done (w1, .ok m)) :
    ∀ (paths : List GoString) (st : RunState σ),
      ∃ st1, packageLoop env l set commitId parentRun none paths st = .done (st1, none) ∧
        st1.fetched = st.fetched ++ List.replicate paths.length commitId ∧
        st1.shown = st.shown := by
  intro paths
  induction paths with
  | nil => intro st; exact ⟨st, rfl, by simp, rfl⟩
  | cons p rest ih =>
    intro st
    obtain ⟨w1, m, hm⟩ := hfetch st.world commitId l.benchRegex
      (some (printBenchmark env.pr l parentRun p))
    obtain ⟨st1, h1, h2, h3⟩ :=
      ih { st with world := w1, fetched := st.fetched ++ [commitId] }
    refine ⟨st1, ?_, ?_, h3⟩
    · simp only [packageLoop, hm, Exec.bind]
      exact h1
    · rw [h2]
      simp [List.replicate_succ]

/-- One iteration of the loop of `cmdLog.run` when the commit can be shown:
the parent is fetched, the packages are gone through, and the loop goes on
with the parent unless its id is empty. -/
theorem runLoop_step {σ : Type} (env : LogTools σ) (l : cmdLog) (set : packageSet)
    (fuel : Nat) (commitId reader : GoString) (first : Bool) (prev : Option commitTestRun)
    (st : RunState σ) (w2 : σ)
    (hshow : env.showCommit (if first then st.world else env.write st.world "\n".toList) set commitId =
      (w2, none)) :
    runLoop env l set (fuel + 1) commitId reader first prev st =
      (parentFetch env l set (trimSuffixNewline (readString reader).1)
          { st with world := env.write w2 "\n".toList, shown := st.shown ++ [commitId] }).bind fun pf =>
        match pf.2 with
        | .error e => .done (pf.1, some (.bench e))
        | .ok parentRun =>
          (packageLoop env l set commitId parentRun prev set.relPackagePaths pf.1).bind
            fun pl =>
              match pl.2 with
              | some e => .done (pl.1, some (.bench e))
              | none =>
                if (trimSuffixNewline (readString reader).1).isEmpty then .done (pl.1, none)
                else runLoop env l set fuel (trimSuffixNewline (readString reader).1)
                  (readString reader).2.2 false parentRun pl.1 := by
  simp only [runLoop, hshow]

/-- A tool that never fails to show a commit returns `none` as its error. -/
theorem showCommit_ok {σ : Type} (env : LogTools σ) (set : packageSet)
    (hshow : ∀ w c, (env.showCommit w set c).2 = none) (w : σ) (c : GoString) :
    ∃ w2, env.showCommit w set c = (w2, none) :=
  ⟨(env.showCommit w set c).1, Prod.ext rfl (hshow w c)⟩

/-- The iterations after the first, with no failure: every remaining commit of
the log is fetched once, as a parent, and every commit is shown. -/
theorem runLoop_kept {σ : Type} (env : LogTools σ) (l : cmdLog) (set : packageSet)
    (hshow : ∀ w c, (env.showCommit w set c).2 = none)
    (hfetch : ∀ w rev re cb, ∃ w1 m, env.getBenchmarks w set rev re cb = .done (w1, .ok m)) :
    ∀ (cs : List GoString), (∀ c ∈ cs, c ≠ [] ∧ '\n' ∉ c) →
      ∀ (fuel : Nat), (logText cs).length < fuel →
      ∀ (commitId : GoString) (first : Bool) (prev : commitTestRun) (st : RunState σ),
        ∃ st1, runLoop env l set fuel commitId (logText cs) first (some prev) st =
            .done (st1, none) ∧
          st1.fetched = st.fetched ++ cs ∧ st1.shown = st.shown ++ commitId :: cs := by
  intro cs
  induction cs with
  | nil =>
    intro _ fuel hfuel commitId first prev st
    obtain ⟨fuel1, rfl⟩ : ∃ f, fuel = f + 1 := ⟨fuel - 1, by omega⟩
    obtain ⟨w2, hw2⟩ := showCommit_ok env set hshow
      (if first then st.world else env.write st.world "\n".toList) commitId
    obtain ⟨st1, h1, h2, h3⟩ := packageLoop_kept env l set commitId none prev
      set.relPackagePaths { st with world := env.write w2 "\n".toList, shown := st.shown ++ [commitId] }
    refine ⟨st1, ?_, ?_, ?_⟩
    · rw [runLoop_step env l set fuel1 commitId _ first _ st w2 hw2]
      have hr : trimSuffixNewline (readString (logText [])).1 = [] := rfl
      simp only [hr, parentFetch, List.isEmpty_nil, if_true, Exec.bind, h1]
    · rw [h2]; simp
    · rw [h3]
  | cons c cs ih =>
    intro hvalid fuel hfuel commitId first prev st
    obtain ⟨fuel1, rfl⟩ : ∃ f, fuel = f + 1 := ⟨fuel - 1, by omega⟩
    have hc := hvalid c (List.mem_cons_self _ _)
    have hvalid2 : ∀ x ∈ cs, x ≠ [] ∧ '\n' ∉ x :=
      fun x hx => hvalid x (List.mem_cons_of_mem _ hx)
    have hread : readString (logText (c :: cs)) = (c ++ ['\n'], false, logText cs) :=
      readString_line c (logText cs) hc.2
    have hparent : trimSuffixNewline (readString (logText (c :: cs))).1 = c := by
      rw [hread]; exact trimSuffixNewline_line c
    have hrest : (readString (logText (c :: cs))).2.2 = logText cs := by rw [hread]
    have hcne : c.isEmpty = false := by
      cases hcc : c with
      | nil => exact absurd hcc hc.1
      | cons _ _ => rfl
    obtain ⟨w2, hw2⟩ := showCommit_ok env set hshow
      (if first then st.world else env.write st.world "\n".toList) commitId
    obtain ⟨w3, m, hm⟩ := hfetch (env.write w2 "\n".toList) c l.benchRegex none
    obtain ⟨st1, h1, h2, h3⟩ := packageLoop_kept env l set commitId
      (some { benchmarks := m, failed := none }) prev set.relPackagePaths
      { world := w3, fetched := st.fetched ++ [c], shown := st.shown ++ [commitId] }
    have hlen : (logText cs).length < fuel1 := by
      have : (logText (c :: cs)).length = c.length + 1 + (logText cs).length := by
        simp [logText]; omega
      omega
    obtain ⟨st2, g1, g2, g3⟩ := ih hvalid2 fuel1 hlen c false
      { benchmarks := m, failed := none } st1
    refine ⟨st2, ?_, ?_, ?_⟩
    · rw [runLoop_step env l set fuel1 commitId _ first _ st w2 hw2]
      simp only [hparent, hrest, parentFetch, hcne, Bool.false_eq_true, if_false, hm, Exec.bind,
        h1]
      exact g1
    · rw [g2, h2]; simp
    · rw [g3, h3]; simp

/-- The first iteration and the ones after it, with no failure: the first
commit is fetched once for every package, each later commit once. -/
theorem runLoop_first {σ : Type} (env : LogTools σ) (l : cmdLog) (set : packageSet)
    (hshow : ∀ w c, (env.showCommit w set c).2 = none)
    (hfetch : ∀ w rev re cb, ∃ w1 m, env.getBenchmarks w set rev re cb = .done (w1, .ok m))
    (cs : List GoString) (hvalid : ∀ c ∈ cs, c ≠ [] ∧ '\n' ∉ c)
    (fuel : Nat) (hfuel : (logText cs).length < fuel)
    (c1 : GoString) (first : Bool) (st : RunState σ) :
    ∃ st1, runLoop env l set fuel c1 (logText cs) first none st = .done (st1, none) ∧
      st1.fetched = st.fetched ++ cs.take 1 ++
        List.replicate set.relPackagePaths.length c1 ++ cs.drop 1 ∧
      st1.shown = st.shown ++ c1 :: cs := by
  obtain ⟨fuel1, rfl⟩ : ∃ f, fuel = f + 1 := ⟨fuel - 1, by omega⟩
  obtain ⟨w2, hw2⟩ := showCommit_ok env set hshow
    (if first then st.world else env.write st.world "\n".toList) c1
  cases cs with
  | nil =>
    obtain ⟨st1, h1, h2, h3⟩ := packageLoop_fetches env l set c1 none hfetch
      set.relPackagePaths { st with world := env.write w2 "\n".toList, shown := st.shown ++ [c1] }
    refine ⟨st1, ?_, ?_, ?_⟩
    · rw [runLoop_step env l set fuel1 c1 _ first _ st w2 hw2]
      have hr : trimSuffixNewline (readString (logText [])).1 = [] := rfl
      simp only [hr, parentFetch, List.isEmpty_nil, if_true, Exec.bind, h1]
    · rw [h2]; simp
    · rw [h3]
  | cons c cs =>
    have hc := hvalid c (List.mem_cons_self _ _)
    have hvalid2 : ∀ x ∈ cs, x ≠ [] ∧ '\n' ∉ x :=
      fun x hx => hvalid x (List.mem_cons_of_mem _ hx)
    have hread : readString (logText (c :: cs)) = (c ++ ['\n'], false, logText cs) :=
      readString_line c (logText cs) hc.2
    have hparent : trimSuffixNewline (readString (logText (c :: cs))).1 = c := by
      rw [hread]; exact trimSuffixNewline_line c
    have hrest : (readString (logText (c :: cs))).2.2 = logText cs := by rw [hread]
    have hcne : c.isEmpty = false := by
      cases hcc : c with
      | nil => exact absurd hcc hc.1
      | cons _ _ => rfl
    obtain ⟨w3, m, hm⟩ := hfetch (env.write w2 "\n".toList) c l.benchRegex none
    obtain ⟨st1, h1, h2, h3⟩ := packageLoop_fetches env l set c1
      (some { benchmarks := m, failed := none }) hfetch set.relPackagePaths
      { world := w3, fetched := st.fetched ++ [c], shown := st.shown ++ [c1] }
    have hlen : (logText cs).length < fuel1 := by
      have : (logText (c :: cs)).length = c.length + 1 + (logText cs).length := by
        simp [logText]; omega
      omega
    obtain ⟨st2, g1, g2, g3⟩ := runLoop_kept env l set hshow hfetch cs hvalid2 fuel1 hlen c false
      { benchmarks := m, failed := none } st1
    refine ⟨st2, ?_, ?_, ?_⟩
    · rw [runLoop_step env l set fuel1 c1 _ first _ st w2 hw2]
      simp only [hparent, hrest, parentFetch, hcne, Bool.false_eq_true, if_false, hm, Exec.bind,
        h1]
      exact g1
    · rw [g2, h2]; simp
    · rw [g3, h3]; simp

/-! ### snapshot.go: the calls return -/

/-- The line function of `RunBenchmarks` returns on every list of lines that
parse without panic, for a callback that returns. -/
theorem runLines_total (cb : Callback) (hcb : ∀ b, ∃ r, callCb cb b = .done r) :
    ∀ (lines : List GoString) (v : RunVars),
      (∀ line ∈ lines, ∃ r, parseBenchmarkRun line = .done r) →
      ∃ r, runLines cb lines v = .done r := by
  intro lines
  induction lines with
  | nil => intro v _; exact ⟨_, rfl⟩
  | cons line rest ih =>
    intro v hl
    obtain ⟨parsed, hp⟩ := hl line (List.mem_cons_self _ _)
    have hrest : ∀ x ∈ rest, ∃ r, parseBenchmarkRun x = .done r :=
      fun x hx => hl x (List.mem_cons_of_mem _ hx)
    simp only [runLines, hp, Exec.bind]
    cases parsed with
    | none => exact ih v hrest
    | some b =>
      obtain ⟨called, hcalled⟩ := hcb b
      obtain ⟨added, hadded⟩ := Add_total v.result called.1
      simp only [hcalled, hadded]
      cases hadd : added.2 with
      | some msg => exact ⟨_, rfl⟩
      | none =>
        obtain ⟨cached, hcached⟩ := Add_total v.cache.Benchmarks called.1
        simp only [hcached]
        cases hc2 : cached.2 with
        | some msg => exact ⟨_, rfl⟩
        | none => exact ih _ hrest

/-- The third loop of `loadBenchmarksFromCache` returns. -/
theorem addMissing_total (missingBenchmarks : benchmarkRunSlice) :
    ∀ (missing : List GoString) (result : benchmarkRunSlice),
      ∃ r, addMissing missingBenchmarks missing result = .done r := by
  intro missing
  induction missing with
  | nil => intro result; exact ⟨_, rfl⟩
  | cons name rest ih =>
    intro result
    obtain ⟨found, hfound⟩ := Find_total missingBenchmarks name
    simp only [addMissing, hfound, Exec.bind]
    cases found with
    | none => exact ⟨_, rfl⟩
    | some b =>
      obtain ⟨added, hadded⟩ := Add_total result b
      simp only [hadded]
      cases hadd : added.2 with
      | some msg => exact ⟨_, rfl⟩
      | none => exact ih _

/-- Whether a pointer to a snapshot points somewhere depends only on how many
cells and sandboxes the heap has. -/
theorem Heap.snapshot_isSome (h h1 : Heap) (ref : SnapRef)
    (hc : h1.cells.length = h.cells.length)
    (hs : h1.sandboxes.length = h.sandboxes.length) :
    (h1.snapshot ref).isSome = (h.snapshot ref).isSome := by
  cases ref with
  | cell a =>
    simp only [Heap.snapshot]
    by_cases ha : a < h.cells.length
    · rw [List.getElem?_eq_getElem ha, List.getElem?_eq_getElem (hc ▸ ha)]
      rfl
    · rw [List.getElem?_eq_none (by omega), List.getElem?_eq_none (by omega)]
  | embedded sb =>
    simp only [Heap.snapshot]
    by_cases ha : sb < h.sandboxes.length
    · rw [List.getElem?_eq_getElem ha, List.getElem?_eq_getElem (hs ▸ ha)]
      rfl
    · rw [List.getElem?_eq_none (by omega), List.getElem?_eq_none (by omega)]

/-- Assigning `GoPath` through a pointer allocates nothing. -/
theorem Heap.setGoPath_lengths (h : Heap) (ref : SnapRef) (goPath : GoString) :
    (h.setGoPath ref goPath).cells.length = h.cells.length ∧
    (h.setGoPath ref goPath).sandboxes.length = h.sandboxes.length := by
  cases ref with
  | cell a =>
    simp only [Heap.setGoPath]
    split
    · exact ⟨by simp, rfl⟩
    · exact ⟨rfl, rfl⟩
  | embedded sb =>
    simp only [Heap.setGoPath]
    split
    · exact ⟨rfl, by simp⟩
    · exact ⟨rfl, rfl⟩

/-- The method `sandbox.Open` allocates nothing in the heap. -/
theorem sandbox.Open_lengths (sys : System) (h h1 : Heap) (sb : Nat) (r : Option SandboxError)
    (hopen : sandbox.Open sys h sb = .done (h1, r)) :
    h1.cells.length = h.cells.length ∧ h1.sandboxes.length = h.sandboxes.length := by
  unfold sandbox.Open at hopen
  split at hopen
  · cases hopen
  · split at hopen
    · injection hopen with hopen; injection hopen with h2 _; subst h2; exact ⟨rfl, rfl⟩
    · split at hopen
      · injection hopen with hopen; injection hopen with h2 _; subst h2; exact ⟨rfl, rfl⟩
      · simp only at hopen
        split at hopen
        · injection hopen with hopen; injection hopen with h2 _; subst h2; exact ⟨rfl, rfl⟩
        · split at hopen
          · injection hopen with hopen; injection hopen with h2 _; subst h2; exact ⟨rfl, rfl⟩
          · injection hopen with hopen; injection hopen with h2 _; subst h2
            exact ⟨rfl, by simp⟩

/-- The closure stored in `InitGoPath` allocates nothing in the heap. -/
theorem initGoPath_lengths (sys : System) (h h1 : Heap) (sb : Nat)
    (r : GoString × Option SandboxError)
    (hinit : initGoPath sys h sb = .done (h1, r)) :
    h1.cells.length = h.cells.length ∧ h1.sandboxes.length = h.sandboxes.length := by
  unfold initGoPath at hinit
  split at hinit
  · cases hinit
  · split at hinit
    · obtain ⟨o, ho, hinit⟩ := Exec.bind_eq_done hinit
      split at hinit
      · cases hinit
      · injection hinit with hinit
        injection hinit with h2 _
        subst h2
        exact sandbox.Open_lengths sys h o.1 sb o.2 ho
    · injection hinit with hinit; injection hinit with h2 _; subst h2; exact ⟨rfl, rfl⟩

/-- The method `packageSetSnapshot.Go` allocates nothing in the heap. -/
theorem Go_lengths (sys : System) (h h1 : Heap) (ref : SnapRef) (args : List GoString)
    (r : Except SandboxError Cmd)
    (hgo : packageSetSnapshot.Go sys h ref args = .done (h1, r)) :
    h1.cells.length = h.cells.length ∧ h1.sandboxes.length = h.sandboxes.length := by
  have hfin : ∀ (c : Bool) (h2 : Heap) (a b : Cmd),
      (if c = true then (Exec.done (h2, Except.ok a) : Exec (Heap × Except SandboxError Cmd))
        else .done (h2, .ok b)) = .done (h1, r) → h1 = h2 := by
    intro c h2 a b hh
    split at hh
    · injection hh with hh; injection hh with h3 _; exact h3.symm
    · injection hh with hh; injection hh with h3 _; exact h3.symm
  unfold packageSetSnapshot.Go at hgo
  split at hgo
  · cases hgo
  · simp only at hgo
    split at hgo
    · split at hgo
      · obtain ⟨i, hi, hgo⟩ := Exec.bind_eq_done hgo
        have hl := initGoPath_lengths sys h i.1 _ i.2 hi
        have hl2 := Heap.setGoPath_lengths i.1 ref i.2.1
        split at hgo
        · injection hgo with hgo
          injection hgo with h3 _
          subst h3
          exact ⟨hl2.1.trans hl.1, hl2.2.trans hl.2⟩
        · have := hfin _ _ _ _ hgo
          subst this
          exact ⟨hl2.1.trans hl.1, hl2.2.trans hl.2⟩
      · have := hfin _ _ _ _ hgo
        subst this
        exact ⟨rfl, rfl⟩
    · have := hfin _ _ _ _ hgo
      subst this
      exact ⟨rfl, rfl⟩

/-- The harness command of `RunBenchmarks`, when it is built: `go test -run=@
-bench=<filter>` on the package of the snapshot, and the snapshot is still
there after the call. -/
theorem RunBenchmarks_command_ok (sys : System) (h h1 : Heap) (s : packageSnapshot)
    (benchRegex : GoString) (test : Cmd)
    (hb : RunBenchmarks_command sys h s benchRegex = .done (h1, .ok test)) :
    (∃ ps, h.snapshot s.PackageSet = some ps ∧
      test.Args = ["go".toList, "test".toList, "-run=@".toList,
        "-bench=".toList ++ (if benchRegex.isEmpty then ".".toList else benchRegex),
        Join [ps.packageSet.rootPackageImportPath, s.relPackagePath]]) ∧
    (h1.snapshot s.PackageSet).isSome = true := by
  cases hsnap : h.snapshot s.PackageSet with
  | none => simp [RunBenchmarks_command, hsnap] at hb
  | some ps =>
    simp only [RunBenchmarks_command, hsnap] at hb
    have hl := Go_lengths _ _ _ _ _ _ hb
    refine ⟨⟨ps, rfl, Go_ok_args _ _ _ _ _ _ hb⟩, ?_⟩
    rw [Heap.snapshot_isSome h h1 s.PackageSet hl.1 hl.2, hsnap]
    rfl

/-- The methods `EnsureCacheLoaded` and `LoadCache` assign the cache only. -/
theorem EnsureCacheLoaded_fields (st : Machine) (s s1 : packageSnapshot)
    (h : EnsureCacheLoaded st s = .done s1) :
    s1.PackageSet = s.PackageSet ∧ s1.relPackagePath = s.relPackagePath := by
  cases hc : s.Cache with
  | some c =>
    simp only [EnsureCacheLoaded, hc] at h
    injection h with h
    subst h
    exact ⟨rfl, rfl⟩
  | none =>
    simp only [EnsureCacheLoaded, hc, LoadCache] at h
    split at h
    · cases h
    · split at h
      · injection h with h; subst h; exact ⟨rfl, rfl⟩
      · injection h with h; subst h; exact ⟨rfl, rfl⟩

/-- A returning `GetBenchmarkNames` leaves the cache loaded and assigns
nothing else of the receiver. -/
theorem GetBenchmarkNames_fields (env : Harness) (st st1 : Machine) (s s1 : packageSnapshot)
    (r : Except BenchError (List GoString))
    (hrun : GetBenchmarkNames env st s = .done (st1, s1, r)) :
    s1.PackageSet = s.PackageSet ∧ s1.relPackagePath = s.relPackagePath ∧
      ∃ c, s1.Cache = some c := by
  unfold GetBenchmarkNames at hrun
  obtain ⟨s0, hload, hrun⟩ := Exec.bind_eq_done hrun
  obtain ⟨hf1, hf2⟩ := EnsureCacheLoaded_fields st s s0 hload
  obtain ⟨c0, hc0⟩ := EnsureCacheLoaded_some st s s0 hload
  rw [hc0] at hrun
  simp only at hrun
  split at hrun
  · injection hrun with hrun
    injection hrun with _ h2
    injection h2 with h2 _
    subst h2
    exact ⟨hf1, hf2, c0, hc0⟩
  · obtain ⟨built, _, hrun⟩ := Exec.bind_eq_done hrun
    split at hrun
    · injection hrun with hrun
      injection hrun with _ h2
      injection h2 with h2 _
      subst h2
      exact ⟨hf1, hf2, c0, hc0⟩
    · split at hrun
      · injection hrun with hrun
        injection hrun with _ h2
        injection h2 with h2 _
        subst h2
        exact ⟨hf1, hf2, c0, hc0⟩
      · injection hrun with hrun
        injection hrun with _ h2
        injection h2 with h2 _
        subst h2
        exact ⟨hf1, hf2, c0, hc0⟩
      · obtain ⟨ns, _, hrun⟩ := Exec.bind_eq_done hrun
        obtain ⟨st3, _, hrun⟩ := Exec.bind_eq_done hrun
        injection hrun with hrun
        injection hrun with _ h2
        injection h2 with h2 _
        subst h2
        exact ⟨hf1, hf2, _, rfl⟩

/-- When the harness command cannot be built, `RunBenchmarks` returns the
error of `Go` and has run nothing. -/
theorem RunBenchmarks_not_built (env : Harness) (st : Machine) (s : packageSnapshot)
    (c : packageSnapshotCache) (benchRegex : GoString) (cb : Callback) (h3 : Heap)
    (e : SandboxError) (hc : s.Cache = some c)
    (hb : RunBenchmarks_command env.sys st.heap s benchRegex = .done (h3, .error e)) :
    RunBenchmarks env st s benchRegex cb =
      .done ({ st with heap := h3 }, s, .error (.sandbox e)) := by
  simp only [RunBenchmarks, EnsureCacheLoaded, hc, Exec.bind, hb]

/-- When the harness command is built, the callback returns and the lines
handled parse without panic, `RunBenchmarks` returns, having run that one
command. -/
theorem RunBenchmarks_built (env : Harness) (st : Machine) (s : packageSnapshot)
    (c : packageSnapshotCache) (benchRegex : GoString) (cb : Callback) (h3 : Heap)
    (test : Cmd) (hc : s.Cache = some c)
    (hcb : ∀ b, ∃ r, callCb cb b = .done r)
    (hb : RunBenchmarks_command env.sys st.heap s benchRegex = .done (h3, .ok test))
    (hlines : ∀ line ∈ (completeLines [] (env.exec st.ran test).stdout).take
        (env.handled st.ran test), ∃ r, parseBenchmarkRun line = .done r) :
    ∃ st1 s1 r, RunBenchmarks env st s benchRegex cb = .done (st1, s1, r) ∧
      st1.ran = st.ran ++ [test] := by
  obtain ⟨_, hsome⟩ := RunBenchmarks_command_ok _ _ _ _ _ _ hb
  obtain ⟨ps, hps⟩ := Option.isSome_iff_exists.mp hsome
  obtain ⟨ran, hran⟩ := runLines_total cb hcb _
    { result := [], cache := c, testNames := [], out := [] } hlines
  simp only [RunBenchmarks, EnsureCacheLoaded, hc, Exec.bind, hb, hran]
  cases (env.exec st.ran test).err with
  | some pe => cases pe <;> exact ⟨_, _, _, rfl, rfl⟩
  | none =>
    cases ran.2 with
    | some e => exact ⟨_, _, _, rfl, rfl⟩
    | none =>
      simp only [SaveCache, cacheFilename, hps, Option.map]
      cases env.save _ <;> exact ⟨_, _, _, rfl, rfl⟩

/-- The first loop of `loadBenchmarksFromCache` returns on every cache, for a
callback that returns and keeps names; the result stays strictly sorted, and
when the loop ends without error the result has gained exactly the names
that match. -/
theorem loadCached_total (m : GoString → Bool) (cb : Callback)
    (hcb : ∀ b, ∃ b1 o, callCb cb b = .done (b1, o) ∧ b1.Name = b.Name) :
    ∀ (bs : List benchmarkRun) (v : CachedVars), StrictSorted v.result →
      ∃ v1 e, loadCached m cb bs v = .done (v1, e) ∧ StrictSorted v1.result ∧
        (e = none →
          ∀ t, t ∈ names v1.result ↔ t ∈ names v.result ∨ (t ∈ names bs ∧ m t = true)) := by
  intro bs
  induction bs with
  | nil =>
    intro v hs
    refine ⟨v, none, rfl, hs, fun _ t => ?_⟩
    simp [names]
  | cons b rest ih =>
    intro v hs
    by_cases hm : m b.Name = true
    · obtain ⟨b1, o, hcall, hname⟩ := hcb b
      by_cases hin : b1.Name ∈ names v.result
      · have hadd := Add_present v.result b1 hs.nameSorted hin
        refine ⟨{ seen := v.seen ++ b1 :: rest, result := v.result, out := v.out ++ o },
          some (.add (addErrorText b1.Name)), ?_, hs, ?_⟩
        · simp only [loadCached, hm, if_true, hcall, Exec.bind, hadd]
        · intro h; cases h
      · obtain ⟨res1, hadd, hs1, hperm, _⟩ := Add_fresh v.result b1 hs hin
        have hmem1 : ∀ t, t ∈ names res1 ↔ t = b.Name ∨ t ∈ names v.result := by
          intro t
          have := (hperm.map (fun r => r.Name)).mem_iff (a := t)
          unfold names
          rw [this, List.map_cons, List.mem_cons, hname]
        obtain ⟨v1, e, hrun, hs2, hmem2⟩ :=
          ih { seen := v.seen ++ [b1], result := res1, out := v.out ++ o } hs1
        refine ⟨v1, e, ?_, hs2, ?_⟩
        · simp only [loadCached, hm, if_true, hcall, Exec.bind, hadd]
          exact hrun
        · intro he t
          rw [hmem2 he t]
          simp only [hmem1 t]
          constructor
          · rintro ((h | h) | ⟨h1, h2⟩)
            · right
              subst h
              exact ⟨by simp [names], hm⟩
            · exact Or.inl h
            · right
              exact ⟨by simp only [names, List.map_cons, List.mem_cons]; exact Or.inr h1, h2⟩
          · rintro (h | ⟨h1, h2⟩)
            · exact Or.inl (Or.inr h)
            · simp only [names, List.map_cons, List.mem_cons] at h1
              rcases h1 with h1 | h1
              · exact Or.inl (Or.inl h1)
              · exact Or.inr ⟨h1, h2⟩
    · obtain ⟨v1, e, hrun, hs2, hmem2⟩ := ih { v with seen := v.seen ++ [b] } hs
      refine ⟨v1, e, ?_, hs2, ?_⟩
      · simp only [loadCached, hm, Bool.false_eq_true, if_false]
        exact hrun
      · intro he t
        rw [hmem2 he t]
        constructor
        · rintro (h | ⟨h1, h2⟩)
          · exact Or.inl h
          · exact Or.inr ⟨by simp only [names, List.map_cons, List.mem_cons]; exact Or.inr h1, h2⟩
        · rintro (h | ⟨h1, h2⟩)
          · exact Or.inl h
          · simp only [names, List.map_cons, List.mem_cons] at h1
            rcases h1 with h1 | h1
            · subst h1; exact absurd h2 hm
            · exact Or.inr ⟨h1, h2⟩

/-- C11. For a loaded cache that is not empty and not marked complete, a
filter that compiles and a callback that returns and keeps names. The first
loop of `loadBenchmarksFromCache` returns; on a cache with pairwise distinct
names (every cache that `Add` has built) it returns no error, and an error of
it is returned by the call with nothing run. Without error it has collected
the cached runs whose names match. When `GetBenchmarkNames` then fails, the
call returns its error; when it returns the full name list (having run at
most the name-listing command), the missing names are those of the list
that match the filter and are not among the cached matches, and:
with no name missing the call returns the cached matches and runs nothing
more; with names missing the call builds
`go test -run=@ -bench=^(n1|...|nk)$ <package>` for exactly those names, and
then either the command cannot be built, and the call returns that error
with nothing run, or it is built, and the call returns (the lines handled
parsing without panic) having run that one command and no other. -/
theorem C11_cache_miss_runs_only_missing (env : Harness) (st : Machine)
    (s s0 : packageSnapshot) (benchRegex : GoString) (cb : Callback)
    (c : packageSnapshotCache) (m : GoString → Bool)
    (hload : EnsureCacheLoaded st s = .done s0) (hc : s0.Cache = some c)
    (hne : c.Benchmarks ≠ []) (hinc : c.BenchmarksIsComplete = false)
    (hcomp : env.compile benchRegex = some m)
    (hcb : ∀ b, ∃ b1 o, callCb cb b = .done (b1, o) ∧ b1.Name = b.Name) :
    ∃ v e,
      loadCached m cb c.Benchmarks { seen := [], result := [], out := [] } = .done (v, e) ∧
      ((names c.Benchmarks).Nodup → e = none) ∧
      (∀ err, e = some err →
        loadBenchmarksFromCache env st s benchRegex cb =
          .done ({ st with out := st.out ++ v.out },
                 { s0 with Cache := some { c with Benchmarks := v.seen } }, .error err)) ∧
      (e = none →
        (∀ t, t ∈ names v.result ↔ t ∈ (names c.Benchmarks).filter m) ∧
        (∀ (st2 : Machine) (s2 : packageSnapshot) (err : BenchError),
          GetBenchmarkNames env { st with out := st.out ++ v.out }
              { s0 with Cache := some { c with Benchmarks := v.seen } } =
            .done (st2, s2, .error err) →
          loadBenchmarksFromCache env st s benchRegex cb = .done (st2, s2, .error err)) ∧
        ∀ (st2 : Machine) (s2 : packageSnapshot) (all : List GoString),
          GetBenchmarkNames env { st with out := st.out ++ v.out }
              { s0 with Cache := some { c with Benchmarks := v.seen } } =
            .done (st2, s2, .ok all) →
          (st2.ran = st.ran ∨
            ∃ test pkg, st2.ran = st.ran ++ [test] ∧
              test.Args = ["go".toList, "test".toList, "-run=@".toList, "-bench=.".toList,
                "-benchtime=0".toList, pkg]) ∧
          ((all.filter fun t => m t && !decide (t ∈ (names c.Benchmarks).filter m)) = [] →
            loadBenchmarksFromCache env st s benchRegex cb = .done (st2, s2, .ok v.result)) ∧
          ((all.filter fun t => m t && !decide (t ∈ (names c.Benchmarks).filter m)) ≠ [] →
            ∀ (h3 : Heap),
              (∀ e2, RunBenchmarks_command env.sys st2.heap s2
                    (missingRegexp
                      (all.filter fun t => m t && !decide (t ∈ (names c.Benchmarks).filter m))) =
                  .done (h3, .error e2) →
                loadBenchmarksFromCache env st s benchRegex cb =
                  .done ({ st2 with heap := h3 }, s2, .error (.sandbox e2))) ∧
              (∀ test, RunBenchmarks_command env.sys st2.heap s2
                    (missingRegexp
                      (all.filter fun t => m t && !decide (t ∈ (names c.Benchmarks).filter m))) =
                  .done (h3, .ok test) →
                (∃ ps, st2.heap.snapshot s.PackageSet = some ps ∧
                  test.Args = ["go".toList, "test".toList, "-run=@".toList,
                    "-bench=".toList ++ missingRegexp
                      (all.filter fun t => m t && !decide (t ∈ (names c.Benchmarks).filter m)),
                    Join [ps.packageSet.rootPackageImportPath, s.relPackagePath]]) ∧
                ((∀ line ∈ (completeLines [] (env.exec st2.ran test).stdout).take
                      (env.handled st2.ran test), ∃ r, parseBenchmarkRun line = .done r) →
                  ∃ st3 s3 r, loadBenchmarksFromCache env st s benchRegex cb =
                      .done (st3, s3, r) ∧
                    st3.ran = st2.ran ++ [test])))) := by
  obtain ⟨v, e, hv, hs, hmem⟩ :=
    loadCached_total m cb hcb c.Benchmarks { seen := [], result := [], out := [] }
      List.Pairwise.nil
  have hnonempty : c.Benchmarks.isEmpty = false := by
    cases hcb2 : c.Benchmarks with
    | nil => exact absurd hcb2 hne
    | cons _ _ => rfl
  have hcb1 : ∀ b, ∃ r, callCb cb b = .done r := by
    intro b
    obtain ⟨b1, o, h, _⟩ := hcb b
    exact ⟨_, h⟩
  refine ⟨v, e, hv, ?_, ?_, ?_⟩
  · intro hnd
    obtain ⟨v1, hv1, _⟩ :=
      loadCached_spec m cb hcb c.Benchmarks { seen := [], result := [], out := [] }
        List.Pairwise.nil hnd (by intro b _ h; simp [names] at h)
    rw [hv] at hv1
    injection hv1 with hv1
    injection hv1 with _ hv1
  · intro err he
    subst he
    unfold loadBenchmarksFromCache
    rw [hload]
    simp only [Exec.bind, hc, hnonempty, Bool.false_eq_true, if_false, hcomp, hv]
  · intro he
    subst he
    have hmem2 : ∀ t, t ∈ names v.result ↔ t ∈ (names c.Benchmarks).filter m := by
      intro t
      rw [hmem rfl t, List.mem_filter]
      simp [names]
    refine ⟨hmem2, ?_, ?_⟩
    · intro st2 s2 err hnames
      have hn2 := hnames
      simp only [hinc] at hn2
      unfold loadBenchmarksFromCache
      rw [hload]
      simp only [Exec.bind, hc, hnonempty, Bool.false_eq_true, if_false, hcomp, hv, hinc,
        Bool.not_false, if_true, hn2]
    · intro st2 s2 all hnames
      have hran := GetBenchmarkNames_ran env _ _ _ _ _ hnames
      obtain ⟨hps, hrel, c2, hc2⟩ := GetBenchmarkNames_fields env _ _ _ _ _ hnames
      obtain ⟨hps0, hrel0⟩ := EnsureCacheLoaded_fields st s s0 hload
      simp only at hps hrel
      have hmiss : missingNames m v.result all =
          .done (all.filter fun t => m t && !decide (t ∈ (names c.Benchmarks).filter m)) := by
        rw [missingNames_spec m v.result hs all]
        congr 1
        apply List.filter_congr
        intro t _
        by_cases h : t ∈ names v.result
        · have h2 := (hmem2 t).mp h
          simp [h, h2]
        · have h2 : t ∉ (names c.Benchmarks).filter m := fun hh => h ((hmem2 t).mpr hh)
          simp only [h, h2]
      have hunfold : loadBenchmarksFromCache env st s benchRegex cb =
          (if (all.filter fun t => m t && !decide (t ∈ (names c.Benchmarks).filter m)).isEmpty
            then .done (st2, s2, .ok v.result)
          else
            (RunBenchmarks env st2 s2 (missingRegexp
                (all.filter fun t => m t && !decide (t ∈ (names c.Benchmarks).filter m))) cb).bind
              fun ran =>
                match ran.2.2 with
                | .error e => .done (ran.1, ran.2.1, .error e)
                | .ok missingBenchmarks =>
                  (addMissing missingBenchmarks
                      (all.filter fun t => m t && !decide (t ∈ (names c.Benchmarks).filter m))
                      v.result).bind fun merged =>
                    match merged.2 with
                    | some e => .done (ran.1, ran.2.1, .error e)
                    | none => .done (ran.1, ran.2.1, .ok merged.1)) := by
        have hn2 := hnames
        simp only [hinc] at hn2
        unfold loadBenchmarksFromCache
        rw [hload]
        simp only [Exec.bind, hc, hnonempty, Bool.false_eq_true, if_false, hcomp, hv, hinc,
          Bool.not_false, if_true, hn2, hmiss]
      refine ⟨hran, ?_, ?_⟩
      · intro hnil
        rw [hunfold, hnil]
        rfl
      · intro hcons h3
        have hne2 : ¬ (all.filter fun t =>
            m t && !decide (t ∈ (names c.Benchmarks).filter m)).isEmpty = true := by
          intro h
          exact hcons (List.isEmpty_iff.mp h)
        rw [hunfold, if_neg hne2]
        refine ⟨?_, ?_⟩
        · intro e2 hb
          rw [RunBenchmarks_not_built env st2 s2 c2 _ cb h3 e2 hc2 hb]
          rfl
        · intro test hb
          obtain ⟨⟨ps, hsnap, hargs⟩, _⟩ := RunBenchmarks_command_ok _ _ _ _ _ _ hb
          rw [missingRegexp_isEmpty] at hargs
          simp only [Bool.false_eq_true, if_false] at hargs
          rw [hps, hps0] at hsnap
          rw [hrel, hrel0] at hargs
          refine ⟨⟨ps, hsnap, hargs⟩, ?_⟩
          intro hlines
          obtain ⟨st1, s1, r, hrun, hran1⟩ :=
            RunBenchmarks_built env st2 s2 c2 _ cb h3 test hc2 hcb1 hb hlines
          rw [hrun]
          simp only [Exec.bind]
          cases r with
          | error e3 => exact ⟨_, _, _, rfl, hran1⟩
          | ok mb =>
            simp only
            obtain ⟨merged, hmerged⟩ := addMissing_total mb
              (all.filter fun t => m t && !decide (t ∈ (names c.Benchmarks).filter m)) v.result
            rw [hmerged]
            simp only
            cases merged.2 with
            | some e3 => exact ⟨_, _, _, rfl, hran1⟩
            | none => exact ⟨_, _, _, rfl, hran1⟩

/-- Witness of C11: the cache holds `BenchmarkA`, the name list is
`BenchmarkA`, `BenchmarkB`, the filter is `.`; and the call evaluated: the
only command run is `go test -run=@ -bench=^(BenchmarkB)$ example.com/repo`,
the result holds both runs and the cache is saved with both. -/
theorem C11_witness :
    (∃ v e, loadCached (fun _ => true) none cacheA.Benchmarks
          { seen := [], result := [], out := [] } = .done (v, e) ∧
      ((names cacheA.Benchmarks).Nodup → e = none) ∧
      (∀ err, e = some err →
        loadBenchmarksFromCache sampleHarness sampleMachine cachedA ".".toList none =
          .done ({ sampleMachine with out := sampleMachine.out ++ v.out },
                 { cachedA with Cache := some { cacheA with Benchmarks := v.seen } },
                 .error err)) ∧
      (e = none →
        (∀ t, t ∈ names v.result ↔ t ∈ (names cacheA.Benchmarks).filter (fun _ => true)) ∧
        (∀ (st2 : Machine) (s2 : packageSnapshot) (err : BenchError),
          GetBenchmarkNames sampleHarness
              { sampleMachine with out := sampleMachine.out ++ v.out }
              { cachedA with Cache := some { cacheA with Benchmarks := v.seen } } =
            .done (st2, s2, .error err) →
          loadBenchmarksFromCache sampleHarness sampleMachine cachedA ".".toList none =
            .done (st2, s2, .error err)) ∧
        ∀ (st2 : Machine) (s2 : packageSnapshot) (all : List GoString),
          GetBenchmarkNames sampleHarness
              { sampleMachine with out := sampleMachine.out ++ v.out }
              { cachedA with Cache := some { cacheA with Benchmarks := v.seen } } =
            .done (st2, s2, .ok all) →
          (st2.ran = sampleMachine.ran ∨
            ∃ test pkg, st2.ran = sampleMachine.ran ++ [test] ∧
              test.Args = ["go".toList, "test".toList, "-run=@".toList, "-bench=.".toList,
                "-benchtime=0".toList, pkg]) ∧
          ((all.filter fun t =>
               (fun _ => true) t &&
                 !decide (t ∈ (names cacheA.Benchmarks).filter (fun _ => true))) = [] →
            loadBenchmarksFromCache sampleHarness sampleMachine cachedA ".".toList none =
              .done (st2, s2, .ok v.result)) ∧
          ((all.filter fun t =>
               (fun _ => true) t &&
                 !decide (t ∈ (names cacheA.Benchmarks).filter (fun _ => true))) ≠ [] →
            ∀ (h3 : Heap),
              (∀ e2, RunBenchmarks_command sampleHarness.sys st2.heap s2
                    (missingRegexp
                      (all.filter fun t =>
                          (fun _ => true) t &&
                            !decide (t ∈ (names cacheA.Benchmarks).filter (fun _ => true)))) =
                  .done (h3, .error e2) →
                loadBenchmarksFromCache sampleHarness sampleMachine cachedA ".".toList none =
                  .done ({ st2 with heap := h3 }, s2, .error (.sandbox e2))) ∧
              (∀ test, RunBenchmarks_command sampleHarness.sys st2.heap s2
                    (missingRegexp
                      (all.filter fun t =>
                          (fun _ => true) t &&
                            !decide (t ∈ (names cacheA.Benchmarks).filter (fun _ => true)))) =
                  .done (h3, .ok test) →
                (∃ ps, st2.heap.snapshot cachedA.PackageSet = some ps ∧
                  test.Args = ["go".toList, "test".toList, "-run=@".toList,
                    "-bench=".toList ++ missingRegexp
                      (all.filter fun t =>
                          (fun _ => true) t &&
                            !decide (t ∈ (names cacheA.Benchmarks).filter (fun _ => true))),
                    Join [ps.packageSet.rootPackageImportPath, cachedA.relPackagePath]]) ∧
                ((∀ line ∈ (completeLines [] (sampleHarness.exec st2.ran test).stdout).take
                      (sampleHarness.handled st2.ran test), ∃ r, parseBenchmarkRun line = .done r) →
                  ∃ st3 s3 r,
                    loadBenchmarksFromCache sampleHarness sampleMachine cachedA ".".toList none =
                      .done (st3, s3, r) ∧
                    st3.ran = st2.ran ++ [test]))))) ∧
    loadBenchmarksFromCache sampleHarness sampleMachine cachedA ".".toList none =
      .done (machineAfterB, { cachedA with Cache := some cacheAB }, .ok [runA, runB]) :=
  ⟨C11_cache_miss_runs_only_missing sampleHarness sampleMachine cachedA cachedA ".".toList none
      cacheA (fun _ => true) (by decide) (by decide) (by decide) (by decide)
      (by simp [sampleHarness]) callCb_none,
   by decide⟩

/-- C15. A traversal over the log `c1, ..., cn` in which nothing fails calls
`set.GetBenchmarks` in this order: for `c2` as parent, then for `c1` once
for every package of the set, then for `c3, ..., cn` as parents. Every later
commit is fetched once; the first commit is fetched as often as the set has
packages, which is once only for a set of one package. -/
theorem C15_fetch_sequence {σ : Type} (env : LogTools σ) (l : cmdLog) (w : σ)
    (set : packageSet) (c1 : GoString) (cs : List GoString)
    (hopen : openPackageSet env.tools l.packages = .done (.ok set))
    (hlog : ∀ args, env.gitLog set args = .ok (logText (c1 :: cs)))
    (hvalid : ∀ c ∈ c1 :: cs, c ≠ [] ∧ '\n' ∉ c)
    (hshow : ∀ w c, (env.showCommit w set c).2 = none)
    (hfetch : ∀ w rev re cb, ∃ w1 m, env.getBenchmarks w set rev re cb = .done (w1, .ok m)) :
    ∃ st, cmdLog.run env l w = .done (st, none) ∧
      st.fetched = cs.take 1 ++ List.replicate set.relPackagePaths.length c1 ++ cs.drop 1 ∧
      st.shown = c1 :: cs ∧
      (c1 ∉ cs → st.fetched.count c1 = set.relPackagePaths.length) := by
  have hc1 := hvalid c1 (List.mem_cons_self _ _)
  have hvalid2 : ∀ x ∈ cs, x ≠ [] ∧ '\n' ∉ x :=
    fun x hx => hvalid x (List.mem_cons_of_mem _ hx)
  have hread : readString (logText (c1 :: cs)) = (c1 ++ ['\n'], false, logText cs) :=
    readString_line c1 (logText cs) hc1.2
  obtain ⟨st, h1, h2, h3⟩ := runLoop_first env l set hshow hfetch cs hvalid2
    ((logText (c1 :: cs)).length + 1)
    (by simp [logText]; omega) c1 true { world := w, fetched := [], shown := [] }
  refine ⟨st, ?_, ?_, ?_, ?_⟩
  · unfold cmdLog.run
    rw [hopen]
    simp only [Exec.bind, hlog, hread, Bool.false_eq_true, if_false, trimSuffixNewline_line]
    exact h1
  · rw [h2]; simp
  · rw [h3]; simp
  · intro hnot
    rw [h2]
    have hz1 : List.count c1 (cs.take 1) = 0 :=
      List.count_eq_zero_of_not_mem (fun h => hnot (List.mem_of_mem_take h))
    have hz2 : List.count c1 (cs.drop 1) = 0 :=
      List.count_eq_zero_of_not_mem (fun h => hnot (List.mem_of_mem_drop h))
    rw [List.count_append, List.count_append, List.count_append, hz1, hz2,
      List.count_replicate_self]
    simp

/-- Witness of C15: the two packages of the nested work trees and the log
`c1`, `c2`, `c3`. -/
theorem C15_witness :
    ∃ st, cmdLog.run (sampleLogTools nestedTools (fun _ => none)) nestedLog [] =
        .done (st, none) ∧
      st.fetched = ["c2".toList, "c3".toList].take 1 ++
        List.replicate nestedSet.relPackagePaths.length "c1".toList ++
        ["c2".toList, "c3".toList].drop 1 ∧
      st.shown = "c1".toList :: ["c2".toList, "c3".toList] ∧
      ("c1".toList ∉ ["c2".toList, "c3".toList] →
        st.fetched.count "c1".toList = nestedSet.relPackagePaths.length) :=
  C15_fetch_sequence (sampleLogTools nestedTools (fun _ => none)) nestedLog [] nestedSet
    "c1".toList ["c2".toList, "c3".toList] (by decide) (fun _ => rfl) (by decide)
    (fun _ _ => rfl) (fun w _ _ _ => ⟨w, _, rfl⟩)

/-- The sample traversals evaluated. With the two packages of the nested work
trees the first commit `c1` is passed to `set.GetBenchmarks` twice, `c2` and
`c3` once each; with the one package of the sample repository every commit is
passed once. -/
theorem run_sample_fetches :
    (cmdLog.run (sampleLogTools nestedTools (fun _ => none)) nestedLog []).toOption.map
        (fun r => (r.1.fetched, r.1.shown, r.2)) =
      some (["c2".toList, "c1".toList, "c1".toList, "c3".toList],
            ["c1".toList, "c2".toList, "c3".toList], none) ∧
    (cmdLog.run (sampleLogTools rootOnlyTools (fun _ => none)) logThreshold2 []).toOption.map
        (fun r => (r.1.fetched, r.1.shown, r.2)) =
      some (["c2".toList, "c1".toList, "c3".toList],
            ["c1".toList, "c2".toList, "c3".toList], none) := by
  decide

/-- With a package set opened and a log that is not empty, `cmdLog.run` is
its loop, started at the first commit with nothing kept. -/
theorem run_eq_runLoop {σ : Type} (env : LogTools σ) (l : cmdLog) (w : σ)
    (set : packageSet) (c1 : GoString) (cs : List GoString)
    (hopen : openPackageSet env.tools l.packages = .done (.ok set))
    (hlog : ∀ args, env.gitLog set args = .ok (logText (c1 :: cs)))
    (hc1 : '\n' ∉ c1) :
    cmdLog.run env l w =
      runLoop env l set ((logText (c1 :: cs)).length + 1) c1 (logText cs) true none
        { world := w, fetched := [], shown := [] } := by
  have hread : readString (logText (c1 :: cs)) = (c1 ++ ['\n'], false, logText cs) :=
    readString_line c1 (logText cs) hc1
  unfold cmdLog.run
  rw [hopen]
  simp only [Exec.bind, hlog, hread, Bool.false_eq_true, if_false, trimSuffixNewline_line]

/-- C14, as stated, fails: one package, the log `c1`, `c2`, `c3`; the fetch
for the current commit `c1` fails with a `TestFailedError`, yet `run` returns
no error and goes on to fetch and show `c2` and `c3`. -/
theorem C14_counterexample :
    openPackageSet rootOnlyTools logThreshold2.packages = .done (.ok sampleSet) ∧
    (sampleLogTools rootOnlyTools (failingAt "c1" sampleTestFailed)).getBenchmarks
        ["commit c1".toList, "\n".toList] sampleSet "c1".toList ".".toList
        (some (printBenchmark plainPrinting logThreshold2
          (some { benchmarks := [(".".toList, [runA])], failed := none }) ".".toList)) =
      .done (["commit c1".toList, "\n".toList], .error sampleTestFailed) ∧
    (cmdLog.run (sampleLogTools rootOnlyTools (failingAt "c1" sampleTestFailed))
        logThreshold2 []).toOption.map (fun r => (r.1.fetched, r.1.shown, r.2)) =
      some (["c2".toList, "c1".toList, "c3".toList],
            ["c1".toList, "c2".toList, "c3".toList], none) :=
  ⟨by decide, rfl, by decide⟩

/-- C14, amended. With the package set opened and a log that is not empty,
`cmdLog.run` is its loop started at the first commit. In an iteration of that
loop whose commit can be shown: when the fetch for the parent returns an
error, of whatever kind, the loop returns that error at once, having shown
no further commit and fetched nothing more. In an iteration with nothing kept
from the one before (the first), the parent fetched or absent: when the fetch
for the current commit returns a `TestFailedError`, the error is dropped, and
once the remaining packages are through without error the loop ends without
error if there is no parent and goes on with the parent otherwise; when that
fetch returns any other error, the loop returns it at once. -/
theorem C14_parent_error_returned_current_test_failure_ignored {σ : Type} (env : LogTools σ)
    (l : cmdLog) (set : packageSet) :
    (∀ (w : σ) (c1 : GoString) (cs : List GoString),
      openPackageSet env.tools l.packages = .done (.ok set) →
      (∀ args, env.gitLog set args = .ok (logText (c1 :: cs))) →
      '\n' ∉ c1 →
      cmdLog.run env l w =
        runLoop env l set ((logText (c1 :: cs)).length + 1) c1 (logText cs) true none
          { world := w, fetched := [], shown := [] }) ∧
    (∀ (fuel : Nat) (commitId reader : GoString) (first : Bool) (prev : Option commitTestRun)
        (st : RunState σ) (w2 w3 : σ) (e : BenchError),
      env.showCommit (if first then st.world else env.write st.world "\n".toList) set commitId =
        (w2, none) →
      trimSuffixNewline (readString reader).1 ≠ [] →
      env.getBenchmarks (env.write w2 "\n".toList) set (trimSuffixNewline (readString reader).1)
        l.benchRegex none = .done (w3, .error e) →
      runLoop env l set (fuel + 1) commitId reader first prev st =
        .done ({ world := w3,
                 fetched := st.fetched ++ [trimSuffixNewline (readString reader).1],
                 shown := st.shown ++ [commitId] }, some (.bench e))) ∧
    (∀ (fuel : Nat) (commitId reader : GoString) (first : Bool) (st st1 st2 : RunState σ)
        (w2 w3 : σ) (parentRun : Option commitTestRun) (p : GoString) (rest : List GoString)
        (t : TestFailedError),
      env.showCommit (if first then st.world else env.write st.world "\n".toList) set commitId =
        (w2, none) →
      parentFetch env l set (trimSuffixNewline (readString reader).1)
          { st with world := env.write w2 "\n".toList, shown := st.shown ++ [commitId] } =
        .done (st1, .ok parentRun) →
      set.relPackagePaths = p :: rest →
      env.getBenchmarks st1.world set commitId l.benchRegex
        (some (printBenchmark env.pr l parentRun p)) = .done (w3, .error (.testFailed t)) →
      packageLoop env l set commitId parentRun none rest
          { st1 with world := w3, fetched := st1.fetched ++ [commitId] } = .done (st2, none) →
      runLoop env l set (fuel + 1) commitId reader first none st =
        if (trimSuffixNewline (readString reader).1).isEmpty then .done (st2, none)
        else runLoop env l set fuel (trimSuffixNewline (readString reader).1)
          (readString reader).2.2 false parentRun st2) ∧
    (∀ (fuel : Nat) (commitId reader : GoString) (first : Bool) (st st1 : RunState σ)
        (w2 w3 : σ) (parentRun : Option commitTestRun) (p : GoString) (rest : List GoString)
        (e : BenchError),
      env.showCommit (if first then st.world else env.write st.world "\n".toList) set commitId =
        (w2, none) →
      parentFetch env l set (trimSuffixNewline (readString reader).1)
          { st with world := env.write w2 "\n".toList, shown := st.shown ++ [commitId] } =
        .done (st1, .ok parentRun) →
      set.relPackagePaths = p :: rest →
      (∀ t, e ≠ .testFailed t) →
      env.getBenchmarks st1.world set commitId l.benchRegex
        (some (printBenchmark env.pr l parentRun p)) = .done (w3, .error e) →
      runLoop env l set (fuel + 1) commitId reader first none st =
        .done ({ st1 with world := w3, fetched := st1.fetched ++ [commitId] },
          some (.bench e))) := by
  refine ⟨?_, ?_, ?_, ?_⟩
  · intro w c1 cs hopen hlog hc1
    exact run_eq_runLoop env l w set c1 cs hopen hlog hc1
  · intro fuel commitId reader first prev st w2 w3 e hshow hne hfetch
    have hemp : (trimSuffixNewline (readString reader).1).isEmpty = false := by
      cases hcc : trimSuffixNewline (readString reader).1 with
      | nil => exact absurd hcc hne
      | cons _ _ => rfl
    rw [runLoop_step env l set fuel commitId reader first prev st w2 hshow]
    simp only [parentFetch, hemp, Bool.false_eq_true, if_false, hfetch, Exec.bind]
  · intro fuel commitId reader first st st1 st2 w2 w3 parentRun p rest t hshow hparent hpaths
      hfetch hrest
    rw [runLoop_step env l set fuel commitId reader first none st w2 hshow, hparent, hpaths]
    simp only [Exec.bind, packageLoop, hfetch, hrest]
  · intro fuel commitId reader first st st1 w2 w3 parentRun p rest e hshow hparent hpaths hne
      hfetch
    rw [runLoop_step env l set fuel commitId reader first none st w2 hshow, hparent, hpaths]
    cases e with
    | testFailed t => exact absurd rfl (hne t)
    | sandbox _ => simp only [Exec.bind, packageLoop, hfetch]
    | proc _ => simp only [Exec.bind, packageLoop, hfetch]
    | add _ => simp only [Exec.bind, packageLoop, hfetch]
    | invalidRegexp _ => simp only [Exec.bind, packageLoop, hfetch]
    | didNotRun _ => simp only [Exec.bind, packageLoop, hfetch]

/-- Witness of C14, amended, on one package and the log `c1`, `c2`, `c3`:
`run` is its loop; with the fetch for the parent `c2` failing the first
iteration returns the error with only `c1` shown; with the fetch for `c1`
failing with a `TestFailedError` the first iteration goes on with `c2`; with
that fetch failing with another error the first iteration returns it. -/
theorem C14_witness :
    (cmdLog.run (sampleLogTools rootOnlyTools (failingAt "c1" sampleTestFailed)) logThreshold2 [] =
      runLoop (sampleLogTools rootOnlyTools (failingAt "c1" sampleTestFailed)) logThreshold2
        sampleSet ((logText ("c1".toList :: ["c2".toList, "c3".toList])).length + 1) "c1".toList
        (logText ["c2".toList, "c3".toList]) true none
        { world := [], fetched := [], shown := [] }) ∧
    (runLoop (sampleLogTools rootOnlyTools (failingAt "c2" sampleTestFailed)) logThreshold2
        sampleSet (0 + 1) "c1".toList "c2\nc3\n".toList true none
        { world := [], fetched := [], shown := [] } =
      .done ({ world := ["commit c1".toList, "\n".toList],
               fetched := [] ++ [trimSuffixNewline (readString "c2\nc3\n".toList).1],
               shown := [] ++ ["c1".toList] }, some (.bench sampleTestFailed))) ∧
    (runLoop (sampleLogTools rootOnlyTools (failingAt "c1" sampleTestFailed)) logThreshold2
        sampleSet (7 + 1) "c1".toList "c2\nc3\n".toList true none
        { world := [], fetched := [], shown := [] } =
      if (trimSuffixNewline (readString "c2\nc3\n".toList).1).isEmpty then
        .done ({ world := ["commit c1".toList, "\n".toList],
                 fetched := ["c2".toList, "c1".toList], shown := ["c1".toList] }, none)
      else
        runLoop (sampleLogTools rootOnlyTools (failingAt "c1" sampleTestFailed)) logThreshold2
          sampleSet 7 (trimSuffixNewline (readString "c2\nc3\n".toList).1)
          (readString "c2\nc3\n".toList).2.2 false
          (some { benchmarks := [(".".toList, [runA])], failed := none })
          { world := ["commit c1".toList, "\n".toList],
            fetched := ["c2".toList, "c1".toList], shown := ["c1".toList] }) ∧
    (runLoop (sampleLogTools rootOnlyTools (failingAt "c1" sampleProcError)) logThreshold2
        sampleSet (0 + 1) "c1".toList "c2\nc3\n".toList true none
        { world := [], fetched := [], shown := [] } =
      .done ({ world := ["commit c1".toList, "\n".toList],
               fetched := ["c2".toList, "c1".toList], shown := ["c1".toList] },
        some (.bench sampleProcError))) :=
  ⟨(C14_parent_error_returned_current_test_failure_ignored
      (sampleLogTools rootOnlyTools (failingAt "c1" sampleTestFailed)) logThreshold2
      sampleSet).1 [] "c1".toList ["c2".toList, "c3".toList] (by decide) (fun _ => rfl)
      (by decide),
   (C14_parent_error_returned_current_test_failure_ignored
      (sampleLogTools rootOnlyTools (failingAt "c2" sampleTestFailed)) logThreshold2
      sampleSet).2.1 0 "c1".toList "c2\nc3\n".toList true none
      { world := [], fetched := [], shown := [] } ["commit c1".toList]
      ["commit c1".toList, "\n".toList] sampleTestFailed rfl (by decide) (by decide),
   (C14_parent_error_returned_current_test_failure_ignored
      (sampleLogTools rootOnlyTools (failingAt "c1" sampleTestFailed)) logThreshold2
      sampleSet).2.2.1 7 "c1".toList "c2\nc3\n".toList true
      { world := [], fetched := [], shown := [] }
      { world := ["commit c1".toList, "\n".toList], fetched := ["c2".toList],
        shown := ["c1".toList] }
      { world := ["commit c1".toList, "\n".toList], fetched := ["c2".toList, "c1".toList],
        shown := ["c1".toList] }
      ["commit c1".toList] ["commit c1".toList, "\n".toList]
      (some { benchmarks := [(".".toList, [runA])], failed := none }) ".".toList []
      { StderrOutput := "FAIL".toList } rfl rfl rfl rfl rfl,
   (C14_parent_error_returned_current_test_failure_ignored
      (sampleLogTools rootOnlyTools (failingAt "c1" sampleProcError)) logThreshold2
      sampleSet).2.2.2 0 "c1".toList "c2\nc3\n".toList true
      { world := [], fetched := [], shown := [] }
      { world := ["commit c1".toList, "\n".toList], fetched := ["c2".toList],
        shown := ["c1".toList] }
      ["commit c1".toList] ["commit c1".toList, "\n".toList]
      (some { benchmarks := [(".".toList, [runA])], failed := none }) ".".toList []
      sampleProcError rfl rfl rfl (by intro t h; cases h) rfl⟩

/-- The sample traversals with a failing fetch, evaluated for one package.
With the fetch for the parent `c2` failing with a `TestFailedError`, `run`
returns the error, having fetched `c2` only and shown `c1` only; with the
fetch for the current commit `c1` failing with another error, `run` returns
it, having shown `c1` only; with the fetch for the later commit `c3` failing,
`run` returns the error when `c3` is fetched as the parent of `c2`. -/
theorem run_sample_failures :
    (cmdLog.run (sampleLogTools rootOnlyTools (failingAt "c2" sampleTestFailed))
        logThreshold2 []).toOption.map (fun r => (r.1.fetched, r.1.shown, r.2)) =
      some (["c2".toList], ["c1".toList], some (.bench sampleTestFailed)) ∧
    (cmdLog.run (sampleLogTools rootOnlyTools (failingAt "c1" sampleProcError))
        logThreshold2 []).toOption.map (fun r => (r.1.fetched, r.1.shown, r.2)) =
      some (["c2".toList, "c1".toList], ["c1".toList], some (.bench sampleProcError)) ∧
    (cmdLog.run (sampleLogTools rootOnlyTools (failingAt "c3" sampleTestFailed))
        logThreshold2 []).toOption.map (fun r => (r.1.fetched, r.1.shown, r.2)) =
      some (["c2".toList, "c1".toList, "c3".toList], ["c1".toList, "c2".toList],
        some (.bench sampleTestFailed)) :=
  ⟨by decide, by decide, by decide⟩

/-! ### Samples: the whole chain, the reader of the harness output, a failed save -/

/-- The whole chain on samples, from `cmdLog.run` down to the harness, for two
commits with one tree id. With the two packages of the nested work trees
`set.GetBenchmarks` is called for `c2` and twice for `c1`, and the harness
runs twice in all (once per package, with the filter `.`), every later fetch
being served from the cache files of the tree. With the one package of the
sample repository `set.GetBenchmarks` is called once for each commit and the
harness runs once. -/
theorem run_machine_sample :
    (cmdLog.run (sampleMachineLogTools nestedTools) nestedLog blankMachine).toOption.map
        (fun r => (r.1.fetched, r.1.world.ran.map (fun c => c.Args), r.2)) =
      some (["c2".toList, "c1".toList, "c1".toList],
            [["go".toList, "test".toList, "-run=@".toList, "-bench=.".toList, "x/r".toList],
             ["go".toList, "test".toList, "-run=@".toList, "-bench=.".toList, "x".toList]],
            none) ∧
    (cmdLog.run (sampleMachineLogTools rootOnlyTools) logThreshold2 blankMachine).toOption.map
        (fun r => (r.1.fetched, r.1.world.ran.map (fun c => c.Args), r.1.world.out, r.2)) =
      some (["c2".toList, "c1".toList],
            [["go".toList, "test".toList, "-run=@".toList, "-bench=.".toList,
              "example.com/repo".toList]],
            ["commit c1".toList, "\n".toList, "\n".toList, "commit c2".toList, "\n".toList,
             "BenchmarkB-8 \t 2000000\t 20 ns/op\n\n".toList],
            none) :=
  ⟨by decide, by decide⟩

/-- The reader of the harness output is not waited for: when `cmd.Run` returns
before any line is handled, a successful run with the filter `.` returns no
run and saves a cache that is marked complete and has an empty name list. -/
theorem RunBenchmarks_reader_behind_sample :
    (RunBenchmarks { sampleHarness with handled := fun _ _ => 0 } sampleMachine
        { cachedA with Cache := some emptyCache } ".".toList none).toOption.map
      (fun r => (r.2.1.Cache, r.2.2, r.1.disk)) =
      some (some { Benchmarks := [], BenchmarksIsComplete := true, AllBenchmarkNames := some [] },
            .ok [],
            [(sampleCacheFile,
              { Benchmarks := [], BenchmarksIsComplete := true, AllBenchmarkNames := some [] })]) := by
  decide

/-- A save that fails after `os.Create` has emptied the file loses the cache
that the file held; a save that fails before it leaves the file alone. -/
theorem SaveCache_failed_sample :
    (RunBenchmarks { sampleHarness with save := fun _ => .truncated }
        { sampleMachine with disk := [(sampleCacheFile, cacheA)] } cachedA
        "^(BenchmarkB)$".toList none).toOption.map (fun r => (r.2.2, r.1.disk)) =
      some (.ok [runB], []) ∧
    (RunBenchmarks { sampleHarness with save := fun _ => .notCreated }
        { sampleMachine with disk := [(sampleCacheFile, cacheA)] } cachedA
        "^(BenchmarkB)$".toList none).toOption.map (fun r => (r.2.2, r.1.disk)) =
      some (.ok [runB], [(sampleCacheFile, cacheA)]) :=
  ⟨by decide, by decide⟩

end Ggt
